import Mathlib

/-!
# Developer gateway: auth boundary, event codec and wallet owner

A shallow embedding of the gateway's Go sources:

* `auth/oauth/google.go` (`GoogleOauth.Verify`) and the data generator of
  `auth/oauth/verify_test.go`;
* `backend/core/entity.go` (`makeElement`, `deserializeElement`);
* `tx/owner.go` (`WalletOwner`).

Go strings and byte slices are sequences of bytes; a byte is a natural number
below 256.  Unsigned 64-bit counters are naturals with an explicit
`% 2 ^ 64` where the source increments them.

The library calls of these sources are embedded with them: `json.Marshal` and
`json.Unmarshal` of encoding/json on the four event structs (with
`utf8.DecodeRune`, `utf8.EncodeRune` and the number formats of strconv), and
`hexutil.Decode` of go-ethereum.  The collaborators of the wallet owner (chain
client, wallet, callbacks) are oracles that answer from the calls made so far,
and those calls are recorded in the state of the owner.
-/

set_option autoImplicit false

/-! ## Part I: definitions -/

/-- A Go `string` (equally a `[]byte`): a finite sequence of bytes, each a
natural number below 256. -/
abbrev GoString := List Nat

/-- The bytes of an ASCII literal of the source. -/
def ascii (s : String) : GoString := s.toList.map Char.toNat

/-- Number of values of a `uint64`. -/
def u64 : Nat := 2 ^ 64

/-! ### auth/core/auth.go -/

/-- The `AuthRequest` struct of auth/core/auth.go. -/
structure AuthRequest where
  API : GoString
  Address : GoString
  AAD : GoString
  PK : GoString
  Data : GoString
deriving DecidableEq, Repr

/-! ### auth/oauth/google.go -/

namespace GoogleOauth

def cipherLengthOffset : Nat := 16
def aadLengthOffset : Nat := 24
def cipherOffset : Nat := 32
def nonceLength : Nat := 5

/-- The method `GoogleOauth.Verify`: `none` is the nil error, `some msg` an
error with message `msg`.  The body compares `string(data.AAD)` with
`expectedAAD` and reads no other field. -/
def Verify (data : AuthRequest) (expectedAAD : GoString) : Option String :=
  if data.AAD ≠ expectedAAD then some "AAD does not match" else none

/-- The big-endian value of a byte sequence (`binary.BigEndian`). -/
def bigEndian (bs : GoString) : Nat := bs.foldl (fun acc b => acc * 256 + b) 0

/-- The layout the doc comment of `Verify` documents for `AuthRequest.Data`:
`pk || cipher length || aad length || cipher || aad || nonce`, with a 16-byte
pk, two big-endian `uint64` lengths and a 5-byte nonce.  Returns the aad
carried inside the data when the data has that layout. -/
def documentedLayoutAAD (data : GoString) : Option GoString :=
  if data.length < cipherOffset then none
  else
    let cipherLen := bigEndian ((data.drop cipherLengthOffset).take 8)
    let aadLen := bigEndian ((data.drop aadLengthOffset).take 8)
    if data.length = cipherOffset + cipherLen + aadLen + nonceLength then
      some ((data.drop (cipherOffset + cipherLen)).take aadLen)
    else none

/-! ### auth/oauth/verify_test.go -/

/-- The eight bytes `binary.Write(buf, binary.BigEndian, uint64(n))` writes. -/
def putUint64 (n : Nat) : GoString :=
  (List.range 8).map (fun i => (n % u64) / 256 ^ (7 - i) % 256)

/-- The test helper `generateData`. -/
def generateData (pk cipher aad nonce : GoString) : GoString :=
  pk ++ putUint64 cipher.length ++ putUint64 aad.length ++ cipher ++ aad ++ nonce

def testExpectedAAD : GoString := ascii "expectedAAD"
def testPk : GoString := ascii "0000000000000000"
def testCipertext : GoString := ascii "00000000000000000000000000000000"
def testNonce : GoString := ascii "00000"

/-- The `data` every test of verify_test.go builds. -/
def testData : GoString := generateData testPk testCipertext testExpectedAAD testNonce

end GoogleOauth

/-! ### errors, eth and conc: the types tx/owner.go uses -/

/-- Error categories of the gateway's `errors` package. -/
inductive ErrorCategory where
  | InternalError
  | InputError
  | NotFound
deriving DecidableEq, Repr

/-- An `errors.ErrorCode`: the package-level codes tx/owner.go and
backend/core/entity.go name, and the codes `errors.NewErrorCode` builds. -/
inductive ErrorCode where
  | ErrEstimateGas
  | ErrSendTransaction
  | ErrSignedTx
  | ErrFetchNonce
  | ErrTransactionReceipt
  | ErrDeserializeEvent
  | ErrUnkownEventType
  | NewErrorCode (category : ErrorCategory) (code : Nat) (desc : GoString)
deriving DecidableEq, Repr

/-- A non-nil Go `error` value as tx/owner.go and backend/core/entity.go meet
them. -/
inductive GoError where
  /-- The sentinel `eth.ErrExceedsBalance`. -/
  | ErrExceedsBalance
  /-- The sentinel `eth.ErrExceedsBlockLimit`. -/
  | ErrExceedsBlockLimit
  /-- The sentinel `eth.ErrInvalidNonce`. -/
  | ErrInvalidNonce
  /-- Any other plain error, such as `stderr.New(msg)`. -/
  | other (msg : GoString)
  /-- An `errors.Err` with a cause: `errors.New(code, cause)`. -/
  | Err (code : ErrorCode) (cause : GoError)
  /-- An `errors.Err` without cause: `errors.New(code, nil)`. -/
  | ErrNil (code : ErrorCode)
  /-- The wrapper `conc.ErrCannotRecover{Cause: cause}`. -/
  | ErrCannotRecover (cause : GoError)
  /-- The error of a retry loop that has used all of its attempts. -/
  | ErrMaxAttemptsReached
  /-- A `*json.SyntaxError`. -/
  | JsonSyntaxError
  /-- A `*json.UnmarshalTypeError`. -/
  | JsonUnmarshalTypeError
deriving DecidableEq, Repr

/-- The function `errors.New`. -/
def errorsNew (code : ErrorCode) (cause : Option GoError) : GoError :=
  match cause with
  | some c => GoError.Err code c
  | none => GoError.ErrNil code

/-- The type assertion `err.(errors.Err)`. -/
def GoError.isErr : GoError → Bool
  | GoError.Err _ _ => true
  | GoError.ErrNil _ => true
  | _ => false

/-- The error code of an `errors.Err`. -/
def GoError.errorCode : GoError → Option ErrorCode
  | GoError.Err code _ => some code
  | GoError.ErrNil code => some code
  | _ => none

/-! ### unicode/utf8 -/

/-- The rune `utf8.RuneError` (U+FFFD). -/
def RuneError : Nat := 0xFFFD

/-- Lowest second byte that `utf8.DecodeRune` accepts after a first byte
(the table `acceptRanges` of unicode/utf8). -/
def acceptLo (b0 : Nat) : Nat := if b0 = 0xE0 then 0xA0 else if b0 = 0xF0 then 0x90 else 0x80

/-- Highest second byte that `utf8.DecodeRune` accepts after a first byte. -/
def acceptHi (b0 : Nat) : Nat := if b0 = 0xED then 0x9F else if b0 = 0xF4 then 0x8F else 0xBF

/-- The two-byte case of `utf8.DecodeRune`. -/
def decodeRune2 (b0 : Nat) : GoString → Nat × Nat
  | b1 :: _ =>
    if 0x80 ≤ b1 ∧ b1 ≤ 0xBF then ((b0 - 0xC0) * 64 + (b1 - 0x80), 2) else (RuneError, 1)
  | _ => (RuneError, 1)

/-- The three-byte case of `utf8.DecodeRune`. -/
def decodeRune3 (b0 : Nat) : GoString → Nat × Nat
  | b1 :: b2 :: _ =>
    if acceptLo b0 ≤ b1 ∧ b1 ≤ acceptHi b0 ∧ 0x80 ≤ b2 ∧ b2 ≤ 0xBF then
      ((b0 - 0xE0) * 4096 + (b1 - 0x80) * 64 + (b2 - 0x80), 3)
    else (RuneError, 1)
  | _ => (RuneError, 1)

/-- The four-byte case of `utf8.DecodeRune`. -/
def decodeRune4 (b0 : Nat) : GoString → Nat × Nat
  | b1 :: b2 :: b3 :: _ =>
    if acceptLo b0 ≤ b1 ∧ b1 ≤ acceptHi b0 ∧ 0x80 ≤ b2 ∧ b2 ≤ 0xBF ∧ 0x80 ≤ b3 ∧ b3 ≤ 0xBF then
      ((b0 - 0xF0) * 262144 + (b1 - 0x80) * 4096 + (b2 - 0x80) * 64 + (b3 - 0x80), 4)
    else (RuneError, 1)
  | _ => (RuneError, 1)

/-- The function `utf8.DecodeRune`: the first rune of a byte sequence and its
width in bytes; an invalid encoding gives `(RuneError, 1)`. -/
def decodeRune : GoString → Nat × Nat
  | [] => (RuneError, 0)
  | b0 :: rest =>
    if b0 < 0x80 then (b0, 1)
    else if 0xC2 ≤ b0 ∧ b0 ≤ 0xDF then decodeRune2 b0 rest
    else if 0xE0 ≤ b0 ∧ b0 ≤ 0xEF then decodeRune3 b0 rest
    else if 0xF0 ≤ b0 ∧ b0 ≤ 0xF4 then decodeRune4 b0 rest
    else (RuneError, 1)

/-- The function `utf8.EncodeRune`. -/
def encodeRune (r : Nat) : GoString :=
  if r ≤ 0x7F then [r]
  else if r ≤ 0x7FF then [0xC0 + r / 64, 0x80 + r % 64]
  else if r > 0x10FFFF ∨ (0xD800 ≤ r ∧ r ≤ 0xDFFF) then [0xEF, 0xBF, 0xBD]
  else if r ≤ 0xFFFF then [0xE0 + r / 4096, 0x80 + r / 64 % 64, 0x80 + r % 64]
  else [0xF0 + r / 262144, 0x80 + r / 4096 % 64, 0x80 + r / 64 % 64, 0x80 + r % 64]

/-! ### encoding/json: strings -/

/-- The value of a hexadecimal digit (`fromHexChar` of encoding/hex). -/
def fromHexChar (c : Nat) : Option Nat :=
  if 48 ≤ c ∧ c ≤ 57 then some (c - 48)
  else if 97 ≤ c ∧ c ≤ 102 then some (c - 97 + 10)
  else if 65 ≤ c ∧ c ≤ 70 then some (c - 65 + 10)
  else none

/-- The digit of the table `hex = "0123456789abcdef"` of encoding/json. -/
def hexDigit (n : Nat) : Nat := if n < 10 then 48 + n else 87 + n

/-- The table `htmlSafeSet` of encoding/json: the ASCII bytes that `Marshal`
writes into a string as they are. -/
def htmlSafe (b : Nat) : Bool :=
  decide (32 ≤ b ∧ b < 128 ∧ b ≠ 34 ∧ b ≠ 92 ∧ b ≠ 60 ∧ b ≠ 62 ∧ b ≠ 38)

/-- What `Marshal` writes for an ASCII byte outside `htmlSafeSet`. -/
def escapeByte (b : Nat) : GoString :=
  if b = 92 ∨ b = 34 then [92, b]
  else if b = 10 then [92, 110]
  else if b = 13 then [92, 114]
  else if b = 9 then [92, 116]
  else [92, 117, 48, 48, hexDigit (b / 16), hexDigit (b % 16)]

/-- The loop of `encodeState.string` with HTML escaping on, as `Marshal` runs
it: the bytes between the quotes.  The first argument bounds the number of
steps, the length of the string being enough. -/
def encodeStringBody : Nat → GoString → GoString
  | 0, _ => []
  | _ + 1, [] => []
  | f + 1, b :: bs =>
    if b < 128 then
      if htmlSafe b then b :: encodeStringBody f bs
      else escapeByte b ++ encodeStringBody f bs
    else if (decodeRune (b :: bs)).1 = RuneError ∧ (decodeRune (b :: bs)).2 = 1 then
      [92, 117, 102, 102, 102, 100] ++ encodeStringBody f bs
    else if (decodeRune (b :: bs)).1 = 0x2028 ∨ (decodeRune (b :: bs)).1 = 0x2029 then
      [92, 117, 50, 48, 50, hexDigit ((decodeRune (b :: bs)).1 % 16)] ++
        encodeStringBody f ((b :: bs).drop (decodeRune (b :: bs)).2)
    else
      (b :: bs).take (decodeRune (b :: bs)).2 ++
        encodeStringBody f ((b :: bs).drop (decodeRune (b :: bs)).2)

/-- A Go string as `Marshal` writes it: quoted, escaped, and coerced to valid
UTF-8 (each invalid byte becomes `\ufffd`). -/
def encodeString (s : GoString) : GoString :=
  34 :: (encodeStringBody s.length s ++ [34])

/-- The function `utf8.ValidString`, with a bound on the number of steps. -/
def validUTF8Fuel : Nat → GoString → Bool
  | 0, s => s.isEmpty
  | _ + 1, [] => true
  | f + 1, b :: bs =>
    if b < 128 then validUTF8Fuel f bs
    else if (decodeRune (b :: bs)).2 ≤ 1 then false
    else validUTF8Fuel f ((b :: bs).drop (decodeRune (b :: bs)).2)

/-- The function `utf8.ValidString`. -/
def validUTF8 (s : GoString) : Bool := validUTF8Fuel s.length s

/-- The function `getu4` of encoding/json on the four bytes that follow `\u`:
the rune they spell in hexadecimal, and the bytes after them. -/
def getu4 : GoString → Option (Nat × GoString)
  | a :: b :: c :: d :: rest =>
    match fromHexChar a, fromHexChar b, fromHexChar c, fromHexChar d with
    | some x, some y, some z, some w => some (x * 4096 + y * 256 + z * 16 + w, rest)
    | _, _, _, _ => none
  | _ => none

/-- The function `utf16.DecodeRune`. -/
def utf16DecodeRune (r1 r2 : Nat) : Nat :=
  if 0xD800 ≤ r1 ∧ r1 < 0xDC00 ∧ 0xDC00 ≤ r2 ∧ r2 < 0xE000 then
    (r1 - 0xD800) * 1024 + (r2 - 0xDC00) + 0x10000
  else RuneError

/-- The rune of a `\u` escape whose four digits spell `r`, and the bytes left
after it: a surrogate followed by a second `\u` escape that completes the pair
gives the rune of the pair, any other surrogate gives `RuneError`. -/
def escapedRune (r : Nat) (rest : GoString) : Nat × GoString :=
  if 0xD800 ≤ r ∧ r < 0xE000 then
    match rest with
    | 92 :: 117 :: rest1 =>
      match getu4 rest1 with
      | some (r2, rest2) =>
        if utf16DecodeRune r r2 ≠ RuneError then (utf16DecodeRune r r2, rest2)
        else (RuneError, rest)
      | none => (RuneError, rest)
    | _ => (RuneError, rest)
  else (r, rest)

/-- The byte of a one-letter escape. -/
def unescapeByte (c : Nat) : Option Nat :=
  if c = 34 then some 34
  else if c = 92 then some 92
  else if c = 47 then some 47
  else if c = 98 then some 8
  else if c = 102 then some 12
  else if c = 110 then some 10
  else if c = 114 then some 13
  else if c = 116 then some 9
  else none

/-- A JSON string literal after its opening quote, as the scanner accepts it
and `unquote` decodes it: the decoded bytes and the input after the closing
quote.  Raw bytes that are not valid UTF-8 become `RuneError`.  The first
argument bounds the number of steps, the length of the input being enough. -/
def parseStringBody : Nat → GoString → Option (GoString × GoString)
  | 0, _ => none
  | _ + 1, [] => none
  | f + 1, c :: cs =>
    if c = 34 then some ([], cs)
    else if c = 92 then
      match cs with
      | [] => none
      | e :: rest =>
        if e = 117 then
          match getu4 rest with
          | none => none
          | some (r, rest1) =>
            match parseStringBody f (escapedRune r rest1).2 with
            | none => none
            | some (s, t) => some (encodeRune (escapedRune r rest1).1 ++ s, t)
        else
          match unescapeByte e with
          | none => none
          | some b =>
            match parseStringBody f rest with
            | none => none
            | some (s, t) => some (b :: s, t)
    else if c < 32 then none
    else if c < 128 then
      match parseStringBody f cs with
      | none => none
      | some (s, t) => some (c :: s, t)
    else
      match parseStringBody f ((c :: cs).drop (decodeRune (c :: cs)).2) with
      | none => none
      | some (s, t) => some (encodeRune (decodeRune (c :: cs)).1 ++ s, t)


/-! ### encoding/json: numbers -/

/-- Whether a byte is a decimal digit. -/
def isDigit (c : Nat) : Bool := decide (48 ≤ c ∧ c ≤ 57)

/-- Decimal digits of a natural number, most significant first; the first
argument bounds the number of digits. -/
def decimalFuel : Nat → Nat → GoString
  | 0, _ => []
  | f + 1, n => if n < 10 then [48 + n] else decimalFuel f (n / 10) ++ [48 + n % 10]

/-- A natural number in decimal, as `strconv.AppendUint` and `%d` write it. -/
def decimal (n : Nat) : GoString := decimalFuel (n + 1) n

/-- An integer in decimal, as `strconv.AppendInt` writes it. -/
def formatInt (i : Int) : GoString :=
  if i < 0 then 45 :: decimal i.natAbs else decimal i.natAbs

/-- The number a sequence of decimal digits spells. -/
def digitsValue (ds : GoString) : Nat := ds.foldl (fun acc c => acc * 10 + (c - 48)) 0

/-- The digits of a literal, when it is a non-empty sequence of digits. -/
def parseDigits (ds : GoString) : Option Nat :=
  if ds ≠ [] ∧ ds.all isDigit then some (digitsValue ds) else none

/-- The function `strconv.ParseUint(lit, 10, 64)`: `none` is an error. -/
def parseUint64 (lit : GoString) : Option Nat :=
  match parseDigits lit with
  | some v => if v < 2 ^ 64 then some v else none
  | none => none

/-- The function `strconv.ParseInt(lit, 10, 64)`: `none` is an error. -/
def parseInt64 (lit : GoString) : Option Int :=
  match lit with
  | [] => none
  | c :: ds =>
    if c = 45 then
      match parseDigits ds with
      | some v => if v ≤ 2 ^ 63 then some (-(v : Int)) else none
      | none => none
    else if c = 43 then
      match parseDigits ds with
      | some v => if v < 2 ^ 63 then some (v : Int) else none
      | none => none
    else
      match parseDigits (c :: ds) with
      | some v => if v < 2 ^ 63 then some (v : Int) else none
      | none => none

/-- The longest run of digits at the head of the input, and what follows. -/
def spanDigits : GoString → GoString × GoString
  | [] => ([], [])
  | c :: cs => if isDigit c then ((c :: (spanDigits cs).1), (spanDigits cs).2) else ([], c :: cs)

/-- The integer part of a JSON number: `0`, or a digit from 1 to 9 followed
by digits. -/
def scanInt (s : GoString) : Option (GoString × GoString) :=
  match s with
  | [] => none
  | c :: cs =>
    if c = 48 then some ([48], cs)
    else if 49 ≤ c ∧ c ≤ 57 then some (c :: (spanDigits cs).1, (spanDigits cs).2)
    else none

/-- The optional fraction of a JSON number: a point followed by at least one
digit. -/
def scanFrac (s : GoString) : Option (GoString × GoString) :=
  match s with
  | [] => some ([], [])
  | c :: cs =>
    if c = 46 then
      if (spanDigits cs).1 = [] then none else some (46 :: (spanDigits cs).1, (spanDigits cs).2)
    else some ([], c :: cs)

/-- The optional exponent of a JSON number: `e` or `E`, an optional sign, and
at least one digit. -/
def scanExp (s : GoString) : Option (GoString × GoString) :=
  match s with
  | [] => some ([], [])
  | c :: cs =>
    if c = 101 ∨ c = 69 then
      match cs with
      | [] => none
      | d :: ds =>
        if d = 43 ∨ d = 45 then
          if (spanDigits ds).1 = [] then none
          else some (c :: d :: (spanDigits ds).1, (spanDigits ds).2)
        else
          if (spanDigits cs).1 = [] then none
          else some (c :: (spanDigits cs).1, (spanDigits cs).2)
    else some ([], c :: cs)

/-- A JSON number at the head of the input, as the scanner of encoding/json
accepts it: its literal and what follows. -/
def scanNumber (s : GoString) : Option (GoString × GoString) :=
  let sign : GoString := if s.head? = some 45 then [45] else []
  match scanInt (s.drop sign.length) with
  | none => none
  | some (i, s2) =>
    match scanFrac s2 with
    | none => none
    | some (fr, s3) =>
      match scanExp s3 with
      | none => none
      | some (ex, s4) => some (sign ++ i ++ fr ++ ex, s4)

/-! ### encoding/json: values -/

/-- A JSON value as `Unmarshal` reads it; a number keeps its literal. -/
inductive JValue where
  | null
  | bool (b : Bool)
  | number (lit : GoString)
  | string (s : GoString)
  | array (items : List JValue)
  | object (members : List (GoString × JValue))

/-- Whether a byte is JSON white space. -/
def isSpace (c : Nat) : Bool := decide (c = 32 ∨ c = 9 ∨ c = 13 ∨ c = 10)

/-- The input after its leading white space. -/
def skipSpace : GoString → GoString
  | [] => []
  | c :: cs => if isSpace c then skipSpace cs else c :: cs

/-- A sequence of items separated by commas and ended by the byte `close`,
each item read by `p`: the items and the input after the closing byte.  The
first argument bounds the number of items, the length of the input being
enough. -/
def parseSeq {α : Type} (p : GoString → Option (α × GoString)) (close : Nat) :
    Nat → GoString → Option (List α × GoString)
  | 0, _ => none
  | f + 1, s =>
    match p s with
    | none => none
    | some (v, rest) =>
      match skipSpace rest with
      | [] => none
      | c :: rest1 =>
        if c = 44 then
          match parseSeq p close f (skipSpace rest1) with
          | none => none
          | some (vs, r) => some (v :: vs, r)
        else if c = close then some ([v], rest1)
        else none

/-- A member of a JSON object: a string, a colon and a value read by `pv`. -/
def parseMember (pv : GoString → Option (JValue × GoString)) (s : GoString) :
    Option ((GoString × JValue) × GoString) :=
  match s with
  | [] => none
  | c :: cs =>
    if c = 34 then
      match parseStringBody cs.length cs with
      | none => none
      | some (key, rest) =>
        match skipSpace rest with
        | [] => none
        | d :: rest1 =>
          if d = 58 then
            match pv (skipSpace rest1) with
            | none => none
            | some (v, r) => some ((key, v), r)
          else none
    else none

/-- The input after a literal word, when the input starts with it. -/
def dropWord : GoString → GoString → Option GoString
  | [], s => some s
  | _ :: _, [] => none
  | w :: ws, c :: cs => if w = c then dropWord ws cs else none

/-- A JSON value at the head of the input (which has no leading white space),
as the scanner of encoding/json accepts it: the value and the input after it.
The first argument bounds the nesting of arrays and objects, the length of the
input being enough. -/
def parseValue : Nat → GoString → Option (JValue × GoString)
  | 0, _ => none
  | f + 1, s =>
    match s with
    | [] => none
    | c :: cs =>
      if c = 123 then
        match skipSpace cs with
        | [] => none
        | d :: rest =>
          if d = 125 then some (JValue.object [], rest)
          else
            match parseSeq (parseMember (parseValue f)) 125 (d :: rest).length (d :: rest) with
            | none => none
            | some (ms, r) => some (JValue.object ms, r)
      else if c = 91 then
        match skipSpace cs with
        | [] => none
        | d :: rest =>
          if d = 93 then some (JValue.array [], rest)
          else
            match parseSeq (parseValue f) 93 (d :: rest).length (d :: rest) with
            | none => none
            | some (vs, r) => some (JValue.array vs, r)
      else if c = 34 then
        match parseStringBody cs.length cs with
        | none => none
        | some (str, rest) => some (JValue.string str, rest)
      else if c = 116 then
        match dropWord [114, 117, 101] cs with
        | none => none
        | some rest => some (JValue.bool true, rest)
      else if c = 102 then
        match dropWord [97, 108, 115, 101] cs with
        | none => none
        | some rest => some (JValue.bool false, rest)
      else if c = 110 then
        match dropWord [117, 108, 108] cs with
        | none => none
        | some rest => some (JValue.null, rest)
      else
        match scanNumber (c :: cs) with
        | none => none
        | some (lit, rest) => some (JValue.number lit, rest)

/-- The JSON value a text spells, when it is valid JSON (`checkValid` of
encoding/json): white space, one value, white space. -/
def jsonParse (s : GoString) : Option JValue :=
  match parseValue (s.length + 1) (skipSpace s) with
  | none => none
  | some (v, rest) => if skipSpace rest = [] then some v else none

/-- The key of a JSON object member folded as encoding/json folds it to find
the struct field: ASCII letters to lower case, the long s (U+017F) to `s` and
the Kelvin sign (U+212A) to `k`. -/
def foldKey : GoString → GoString
  | [] => []
  | 0xC5 :: 0xBF :: rest => 115 :: foldKey rest
  | 0xE2 :: 0x84 :: 0xAA :: rest => 107 :: foldKey rest
  | c :: cs => if 65 ≤ c ∧ c ≤ 90 then (c + 32) :: foldKey cs else c :: foldKey cs

/-- Whether the key of an object member selects the struct field of a name
(the exact name, or a name equal to it under folding). -/
def keyMatches (name : String) (key : GoString) : Bool :=
  decide (foldKey key = foldKey (ascii name))

/-- A JSON value stored into a `string`: `null` leaves the string as it is
and anything but a string is an `UnmarshalTypeError` (`none`). -/
def bindString (cur : GoString) : JValue → Option GoString
  | JValue.null => some cur
  | JValue.string s => some s
  | _ => none

/-- A JSON value stored into a `uint64`. -/
def bindUint64 (cur : Nat) : JValue → Option Nat
  | JValue.null => some cur
  | JValue.number lit => parseUint64 lit
  | _ => none

/-- A JSON value stored into an `int`. -/
def bindInt (cur : Int) : JValue → Option Int
  | JValue.null => some cur
  | JValue.number lit => parseInt64 lit
  | _ => none

/-- The items of a JSON array stored into the elements of a `[]string` from
index `i` on; `old` is what the backing array of the slice held before, which
an item `null` leaves in place. -/
def bindStringItems (old : List GoString) : Nat → List JValue → Option (List GoString)
  | _, [] => some []
  | i, v :: vs =>
    match bindString (old.getD i []) v, bindStringItems old (i + 1) vs with
    | some s, some ss => some (s :: ss)
    | _, _ => none

/-- A `[]string` field while it is being decoded: the slice (`none` is nil)
and the contents of its backing array. -/
structure StringSlice where
  slice : Option (List GoString)
  backing : List GoString

/-- A JSON value stored into a `[]string`: `null` sets the slice to nil, an
empty array gives a new empty slice, and an array stores its items one by one
into the elements of the slice. -/
def bindStrings (cur : StringSlice) : JValue → Option StringSlice
  | JValue.null => some { slice := none, backing := [] }
  | JValue.array [] => some { slice := some [], backing := [] }
  | JValue.array (v :: vs) =>
    match bindStringItems cur.backing 0 (v :: vs) with
    | some ss => some { slice := some ss, backing := ss ++ cur.backing.drop ss.length }
    | none => none
  | _ => none

/-! ### rpc.Error and the events of backend/core/entity.go -/

/-- Modelled from the spec: the struct `rpc.Error`, whose declaration is not
part of the sources at hand; section 3 gives the cause of an error event the
fields `errorCode` and `description`. -/
structure RpcError where
  ErrorCode : Int
  Description : GoString
deriving DecidableEq, Repr

/-- The struct `DeployServiceResponse`. -/
structure DeployServiceResponse where
  ID : Nat
  Address : GoString
deriving DecidableEq, Repr

/-- The struct `ExecuteServiceResponse`. -/
structure ExecuteServiceResponse where
  ID : Nat
  Address : GoString
  Output : GoString
deriving DecidableEq, Repr

/-- The struct `ErrorEvent`. -/
structure ErrorEvent where
  ID : Nat
  Cause : RpcError
deriving DecidableEq, Repr

/-- The struct `DataEvent`; `Topics` is `none` for a nil slice. -/
structure DataEvent where
  ID : Nat
  Data : GoString
  Topics : Option (List GoString)
deriving DecidableEq, Repr

/-- An `Event` of one of the four variants. -/
inductive Event where
  | DeployServiceResponse (ev : DeployServiceResponse)
  | ExecuteServiceResponse (ev : ExecuteServiceResponse)
  | ErrorEvent (ev : ErrorEvent)
  | DataEvent (ev : DataEvent)
deriving DecidableEq, Repr

/-- The constant `DeployServiceEventType`. -/
def DeployServiceEventType : GoString := ascii "deployServiceEventType"

/-- The constant `ExecuteServiceEventType`. -/
def ExecuteServiceEventType : GoString := ascii "executeServiceEventType"

/-- The constant `ErrorEventType`. -/
def ErrorEventType : GoString := ascii "errorEventType"

/-- The constant `DataEventType`. -/
def DataEventType : GoString := ascii "dataEventType"

/-- The method `EventID` of the four variants. -/
def Event.EventID : Event → Nat
  | Event.DeployServiceResponse ev => ev.ID
  | Event.ExecuteServiceResponse ev => ev.ID
  | Event.ErrorEvent ev => ev.ID
  | Event.DataEvent ev => ev.ID

/-- The method `EventType` of the four variants. -/
def Event.EventType : Event → GoString
  | Event.DeployServiceResponse _ => DeployServiceEventType
  | Event.ExecuteServiceResponse _ => ExecuteServiceEventType
  | Event.ErrorEvent _ => ErrorEventType
  | Event.DataEvent _ => DataEventType

/-- The struct `mqueue.Element`; `Typ` is its field `Type`. -/
structure Element where
  Offset : Nat
  Typ : GoString
  Value : GoString
deriving DecidableEq, Repr

/-! ### json.Marshal of the events -/

/-- The items of a `[]string` as `Marshal` writes them, separated by commas. -/
def encodeStrings : List GoString → GoString
  | [] => []
  | [s] => encodeString s
  | s :: t :: ss => encodeString s ++ 44 :: encodeStrings (t :: ss)

/-- A `[]string` as `Marshal` writes it: `null` for a nil slice. -/
def marshalStrings : Option (List GoString) → GoString
  | none => ascii "null"
  | some ss => 91 :: (encodeStrings ss ++ [93])

/-- The fields of a struct as `Marshal` writes them between the braces: each
name quoted, a colon and the value, with commas in between. -/
def encodeFields : List (GoString × GoString) → GoString
  | [] => []
  | [(k, v)] => encodeString k ++ 58 :: v
  | (k, v) :: m :: ms => encodeString k ++ 58 :: (v ++ 44 :: encodeFields (m :: ms))

/-- A struct as `Marshal` writes it, given the names of its fields and what
`Marshal` writes for their values, in the order of the struct. -/
def encodeObject (fields : List (GoString × GoString)) : GoString :=
  123 :: (encodeFields fields ++ [125])

/-- An `rpc.Error` as `Marshal` writes it. -/
def marshalRpcError (c : RpcError) : GoString :=
  encodeObject [(ascii "errorCode", formatInt c.ErrorCode),
    (ascii "description", encodeString c.Description)]

/-- A `DeployServiceResponse` as `Marshal` writes it: the fields in the order
of the struct, under their Go names. -/
def marshalDeployServiceResponse (ev : DeployServiceResponse) : GoString :=
  encodeObject [(ascii "ID", decimal ev.ID), (ascii "Address", encodeString ev.Address)]

/-- An `ExecuteServiceResponse` as `Marshal` writes it. -/
def marshalExecuteServiceResponse (ev : ExecuteServiceResponse) : GoString :=
  encodeObject [(ascii "ID", decimal ev.ID), (ascii "Address", encodeString ev.Address),
    (ascii "Output", encodeString ev.Output)]

/-- An `ErrorEvent` as `Marshal` writes it. -/
def marshalErrorEvent (ev : ErrorEvent) : GoString :=
  encodeObject [(ascii "ID", decimal ev.ID), (ascii "Cause", marshalRpcError ev.Cause)]

/-- A `DataEvent` as `Marshal` writes it. -/
def marshalDataEvent (ev : DataEvent) : GoString :=
  encodeObject [(ascii "ID", decimal ev.ID), (ascii "Data", encodeString ev.Data),
    (ascii "Topics", marshalStrings ev.Topics)]

/-- The call `json.Marshal(ev)` on an event of one of the four variants; it
returns no error for these types. -/
def jsonMarshal : Event → GoString
  | Event.DeployServiceResponse ev => marshalDeployServiceResponse ev
  | Event.ExecuteServiceResponse ev => marshalExecuteServiceResponse ev
  | Event.ErrorEvent ev => marshalErrorEvent ev
  | Event.DataEvent ev => marshalDataEvent ev

/-! ### json.Unmarshal into the events -/

/-- The members of a JSON object stored into an `rpc.Error`, in order. -/
def bindRpcErrorMembers (cur : RpcError) : List (GoString × JValue) → Option RpcError
  | [] => some cur
  | (k, v) :: ms =>
    if keyMatches "errorCode" k then
      match bindInt cur.ErrorCode v with
      | some x => bindRpcErrorMembers { cur with ErrorCode := x } ms
      | none => none
    else if keyMatches "description" k then
      match bindString cur.Description v with
      | some x => bindRpcErrorMembers { cur with Description := x } ms
      | none => none
    else bindRpcErrorMembers cur ms

/-- A JSON value stored into an `rpc.Error`. -/
def bindRpcError (cur : RpcError) : JValue → Option RpcError
  | JValue.null => some cur
  | JValue.object ms => bindRpcErrorMembers cur ms
  | _ => none

/-- The members of a JSON object stored into a `DeployServiceResponse`. -/
def bindDeployMembers (cur : DeployServiceResponse) :
    List (GoString × JValue) → Option DeployServiceResponse
  | [] => some cur
  | (k, v) :: ms =>
    if keyMatches "ID" k then
      match bindUint64 cur.ID v with
      | some x => bindDeployMembers { cur with ID := x } ms
      | none => none
    else if keyMatches "Address" k then
      match bindString cur.Address v with
      | some x => bindDeployMembers { cur with Address := x } ms
      | none => none
    else bindDeployMembers cur ms

/-- The members of a JSON object stored into an `ExecuteServiceResponse`. -/
def bindExecuteMembers (cur : ExecuteServiceResponse) :
    List (GoString × JValue) → Option ExecuteServiceResponse
  | [] => some cur
  | (k, v) :: ms =>
    if keyMatches "ID" k then
      match bindUint64 cur.ID v with
      | some x => bindExecuteMembers { cur with ID := x } ms
      | none => none
    else if keyMatches "Address" k then
      match bindString cur.Address v with
      | some x => bindExecuteMembers { cur with Address := x } ms
      | none => none
    else if keyMatches "Output" k then
      match bindString cur.Output v with
      | some x => bindExecuteMembers { cur with Output := x } ms
      | none => none
    else bindExecuteMembers cur ms

/-- The members of a JSON object stored into an `ErrorEvent`. -/
def bindErrorMembers (cur : ErrorEvent) : List (GoString × JValue) → Option ErrorEvent
  | [] => some cur
  | (k, v) :: ms =>
    if keyMatches "ID" k then
      match bindUint64 cur.ID v with
      | some x => bindErrorMembers { cur with ID := x } ms
      | none => none
    else if keyMatches "Cause" k then
      match bindRpcError cur.Cause v with
      | some x => bindErrorMembers { cur with Cause := x } ms
      | none => none
    else bindErrorMembers cur ms

/-- The members of a JSON object stored into a `DataEvent`, whose `Topics` are
held in `topics` while decoding. -/
def bindDataMembers (cur : DataEvent) (topics : StringSlice) :
    List (GoString × JValue) → Option DataEvent
  | [] => some { cur with Topics := topics.slice }
  | (k, v) :: ms =>
    if keyMatches "ID" k then
      match bindUint64 cur.ID v with
      | some x => bindDataMembers { cur with ID := x } topics ms
      | none => none
    else if keyMatches "Data" k then
      match bindString cur.Data v with
      | some x => bindDataMembers { cur with Data := x } topics ms
      | none => none
    else if keyMatches "Topics" k then
      match bindStrings topics v with
      | some x => bindDataMembers cur x ms
      | none => none
    else bindDataMembers cur topics ms

/-- The call `json.Unmarshal(data, &ev)` on a zero struct, given how the
members of an object are stored into the struct: invalid JSON is a
`SyntaxError`, `null` leaves the struct as it is, and a value that is not an
object or whose members do not fit the fields is an `UnmarshalTypeError`. -/
def jsonUnmarshal {α : Type} (zero : α) (bindMembers : List (GoString × JValue) → Option α)
    (data : GoString) : Except GoError α :=
  match jsonParse data with
  | none => Except.error GoError.JsonSyntaxError
  | some JValue.null => Except.ok zero
  | some (JValue.object ms) =>
    match bindMembers ms with
    | some ev => Except.ok ev
    | none => Except.error GoError.JsonUnmarshalTypeError
  | some _ => Except.error GoError.JsonUnmarshalTypeError

/-- The call `json.Unmarshal([]byte(el.Value), &ev)` for a
`DeployServiceResponse`. -/
def unmarshalDeployServiceResponse (data : GoString) : Except GoError DeployServiceResponse :=
  jsonUnmarshal { ID := 0, Address := [] } (bindDeployMembers { ID := 0, Address := [] }) data

/-- The call `json.Unmarshal([]byte(el.Value), &ev)` for an
`ExecuteServiceResponse`. -/
def unmarshalExecuteServiceResponse (data : GoString) : Except GoError ExecuteServiceResponse :=
  jsonUnmarshal { ID := 0, Address := [], Output := [] }
    (bindExecuteMembers { ID := 0, Address := [], Output := [] }) data

/-- The call `json.Unmarshal([]byte(el.Value), &ev)` for an `ErrorEvent`. -/
def unmarshalErrorEvent (data : GoString) : Except GoError ErrorEvent :=
  jsonUnmarshal { ID := 0, Cause := { ErrorCode := 0, Description := [] } }
    (bindErrorMembers { ID := 0, Cause := { ErrorCode := 0, Description := [] } }) data

/-- The call `json.Unmarshal([]byte(el.Value), &ev)` for a `DataEvent`. -/
def unmarshalDataEvent (data : GoString) : Except GoError DataEvent :=
  jsonUnmarshal { ID := 0, Data := [], Topics := none }
    (bindDataMembers { ID := 0, Data := [], Topics := none } { slice := none, backing := [] })
    data

/-! ### backend/core/entity.go -/

/-- The function `makeElement`. -/
def makeElement (ev : Event) (offset : Nat) : Except GoError Element :=
  Except.ok { Offset := offset, Typ := ev.EventType, Value := jsonMarshal ev }

/-- The function `deserializeElement`. -/
def deserializeElement (el : Element) : Except GoError Event :=
  if el.Typ = DeployServiceEventType then
    match unmarshalDeployServiceResponse el.Value with
    | Except.error err => Except.error (errorsNew ErrorCode.ErrDeserializeEvent (some err))
    | Except.ok ev => Except.ok (Event.DeployServiceResponse ev)
  else if el.Typ = ExecuteServiceEventType then
    match unmarshalExecuteServiceResponse el.Value with
    | Except.error err => Except.error (errorsNew ErrorCode.ErrDeserializeEvent (some err))
    | Except.ok ev => Except.ok (Event.ExecuteServiceResponse ev)
  else if el.Typ = ErrorEventType then
    match unmarshalErrorEvent el.Value with
    | Except.error err => Except.error (errorsNew ErrorCode.ErrDeserializeEvent (some err))
    | Except.ok ev => Except.ok (Event.ErrorEvent ev)
  else if el.Typ = DataEventType then
    match unmarshalDataEvent el.Value with
    | Except.error err => Except.error (errorsNew ErrorCode.ErrDeserializeEvent (some err))
    | Except.ok ev => Except.ok (Event.DataEvent ev)
  else Except.error (errorsNew ErrorCode.ErrUnkownEventType none)

/-- The events whose strings `Marshal` keeps: every field holds a value of
its Go type (a `uint64`, an `int`) and every string is valid UTF-8. -/
def Event.wellFormed : Event → Prop
  | Event.DeployServiceResponse ev => ev.ID < 2 ^ 64 ∧ validUTF8 ev.Address = true
  | Event.ExecuteServiceResponse ev =>
    ev.ID < 2 ^ 64 ∧ validUTF8 ev.Address = true ∧ validUTF8 ev.Output = true
  | Event.ErrorEvent ev =>
    ev.ID < 2 ^ 64 ∧ -(2 ^ 63 : Int) ≤ ev.Cause.ErrorCode ∧ ev.Cause.ErrorCode < 2 ^ 63 ∧
      validUTF8 ev.Cause.Description = true
  | Event.DataEvent ev =>
    ev.ID < 2 ^ 64 ∧ validUTF8 ev.Data = true ∧ ∀ t ∈ ev.Topics.getD [], validUTF8 t = true

/-! ### Reading back what json.Marshal writes -/

/-- A byte that ends a value inside an object in the output of `Marshal`: a
comma or a closing brace. -/
def endsNumber (c : Nat) : Prop := c = 44 ∨ c = 125

/-- A text is read as a JSON value, with a bound `f` on nesting, whenever a
comma or a closing brace follows it, and it starts with no white space. -/
def ParsesAs (f : Nat) (text : GoString) (v : JValue) : Prop :=
  ∀ c t, endsNumber c →
    parseValue f (text ++ c :: t) = some (v, c :: t) ∧
    skipSpace (text ++ c :: t) = text ++ c :: t

/-- The JSON value that stands for a `[]string`: `null` for a nil slice, an
array of strings otherwise. -/
def stringsValue : Option (List GoString) → JValue
  | none => JValue.null
  | some ss => JValue.array (ss.map JValue.string)

/-! ### go-ethereum and the chain client -/

/-- A `common.Address`. -/
abbrev Address := GoString

/-- A `common.Hash`. -/
abbrev Hash := GoString

/-- The `ethereum.CallMsg` that `estimateGas` builds (`GasPrice` and `Value`
are nil there). -/
structure CallMsg where
  From : Address
  To : Option Address
  Gas : Nat
  Data : GoString
deriving DecidableEq, Repr

/-- A `types.Transaction`: `To` is `none` for a contract creation and
`signature` is `none` until the wallet has signed. -/
structure Transaction where
  nonce : Nat
  To : Option Address
  amount : Nat
  gasLimit : Nat
  gasPrice : Nat
  data : GoString
  signature : Option GoString
deriving DecidableEq, Repr

/-- The signed copy of a transaction (`tx.WithSignature`). -/
def Transaction.withSignature (tx : Transaction) (sig : GoString) : Transaction :=
  { tx with signature := some sig }

/-- The struct `eth.SendTransactionResponse`. -/
structure SendTransactionResponse where
  Status : Nat
  Output : GoString
  Hash : GoString
deriving DecidableEq, Repr

/-- The part of a `types.Receipt` that `executeTransaction` reads. -/
structure Receipt where
  ContractAddress : Address
deriving DecidableEq, Repr

/-- The struct `callback.WalletOutOfFundsBody`. -/
structure WalletOutOfFundsBody where
  Address : GoString
deriving DecidableEq, Repr

/-- The struct `ExecuteRequest` of package tx. -/
structure ExecuteRequest where
  ID : Nat
  Address : GoString
  Data : GoString
deriving DecidableEq, Repr

/-- The struct `ExecuteResponse` of package tx. -/
structure ExecuteResponse where
  Address : GoString
  Output : GoString
  Hash : GoString
deriving DecidableEq, Repr

/-- A call the wallet owner makes on one of its collaborators (the chain
client, the wallet, the callbacks), with its argument. -/
inductive Call where
  | EstimateGas (msg : CallMsg)
  | SignTransaction (tx : Transaction)
  | SendTransaction (tx : Transaction)
  | NonceAt (address : Address)
  | TransactionReceipt (hash : Hash)
  | WalletOutOfFunds (body : WalletOutOfFundsBody)
deriving DecidableEq, Repr

/-- The interface `eth.Client`.  Each method answers from the calls the owner
has made so far, so that an answer may differ from one call to the next. -/
structure Client where
  NonceAt : List Call → Address → Except GoError Nat
  EstimateGas : List Call → CallMsg → Except GoError Nat
  SendTransaction : List Call → Transaction → Except GoError SendTransactionResponse
  TransactionReceipt : List Call → Hash → Except GoError Receipt

/-- The `Wallet` of package tx: its address and its signer, which returns the
signature of a transaction or fails. -/
structure Wallet where
  Address : Address
  Sign : List Call → Transaction → Except GoError GoString

/-- What a `WalletOwner` is built over and never changes: its wallet, its
chain client, and the conversions of go-ethereum's package common. -/
structure WalletOwnerServices where
  wallet : Wallet
  client : Client
  HexToAddress : GoString → Address
  AddressHex : Address → GoString
  HexToHash : GoString → Hash

/-- The mutable state of a `WalletOwner`: its nonce, and the calls it has made
on its collaborators, oldest first. -/
structure WalletOwner where
  nonce : Nat
  calls : List Call
deriving DecidableEq, Repr

/-- The struct `conc.RetryConfig`. -/
structure RetryConfig where
  Random : Bool
  UnlimitedAttempts : Bool
  Attempts : Nat
  BaseExp : Nat
  BaseTimeout : Nat
  MaxRetryTimeout : Nat
deriving DecidableEq, Repr

/-- Modelled from the spec: the retry engine `conc.RetryWithConfig` (section
4.D), whose source is not part of the sources at hand.  It calls the supplier;
on success it returns the value; an error marked non-recoverable
(`conc.ErrCannotRecover`) is unwrapped and its cause returned at once; any
other error is retried, up to `attempts` calls in total, after which the loop
fails.  The sleep between two attempts has no effect on the state, and the
context is taken to stay live. -/
def RetryWithAttempts {σ α : Type} (supplier : σ → Except GoError α × σ) :
    Nat → σ → Except GoError α × σ
  | 0, s => (Except.error GoError.ErrMaxAttemptsReached, s)
  | k + 1, s =>
    match supplier s with
    | (Except.ok v, s1) => (Except.ok v, s1)
    | (Except.error (GoError.ErrCannotRecover cause), s1) => (Except.error cause, s1)
    | (Except.error _, s1) => RetryWithAttempts supplier k s1

/-- Modelled from the spec: `conc.RetryWithConfig` for a configuration with a
bounded number of attempts, the only kind tx/owner.go uses. -/
def RetryWithConfig {σ α : Type} (supplier : σ → Except GoError α × σ)
    (config : RetryConfig) (s : σ) : Except GoError α × σ :=
  RetryWithAttempts supplier config.Attempts s

/-! ### go-ethereum's hexutil.Decode -/

/-- The function `hex.DecodeString` of encoding/hex: the decoded bytes and
whether decoding failed.  On malformed input it returns the bytes decoded
before the error. -/
def hexDecodeString : GoString → GoString × Bool
  | [] => ([], false)
  | [_] => ([], true)
  | p :: q :: rest =>
    match fromHexChar p, fromHexChar q with
    | some a, some b =>
      let r := hexDecodeString rest
      ((a * 16 + b) :: r.1, r.2)
    | _, _ => ([], true)

/-- The function `hexutil.Decode` of go-ethereum: the bytes it returns and
whether it returns an error.  Empty input and input without the `0x` prefix
give nil bytes; after the prefix the result is that of `hex.DecodeString`. -/
def hexutilDecode (input : GoString) : GoString × Bool :=
  match input with
  | [] => ([], true)
  | 48 :: x :: rest => if x = 120 ∨ x = 88 then hexDecodeString rest else ([], true)
  | _ => ([], true)

/-! ### tx/owner.go -/

namespace WalletOwner

/-- The constant `StatusOK`. -/
def StatusOK : Nat := 1

/-- The constant `gasPrice`. -/
def gasPrice : Nat := 1000000000

/-- The variable `retryConfig` (durations in nanoseconds). -/
def retryConfig : RetryConfig :=
  { Random := false, UnlimitedAttempts := false, Attempts := 2, BaseExp := 1,
    BaseTimeout := 1000000000, MaxRetryTimeout := 5000000000 }

/-- Appends a call to the record of calls. -/
def record (e : WalletOwner) (c : Call) : WalletOwner :=
  { e with calls := e.calls ++ [c] }

/-- The struct `WalletOwnerProps` gives the starting nonce: `NewWalletOwner`. -/
def NewWalletOwner (nonce : Nat) : WalletOwner :=
  { nonce := nonce, calls := [] }

/-- The method `transactionNonce`: returns the nonce and increments it
(`e.nonce++` on a `uint64`). -/
def transactionNonce (e : WalletOwner) : Nat × WalletOwner :=
  (e.nonce, { e with nonce := (e.nonce + 1) % u64 })

/-- The address `updateNonce` asks the nonce of:
`common.HexToAddress(e.wallet.Address().Hex())`. -/
def nonceAddress (sv : WalletOwnerServices) : Address :=
  sv.HexToAddress (sv.AddressHex sv.wallet.Address)

/-- The method `updateNonce`: `none` is the nil error. -/
def updateNonce (sv : WalletOwnerServices) (e : WalletOwner) : Option GoError × WalletOwner :=
  let arg := nonceAddress sv
  let e1 := e.record (Call.NonceAt arg)
  match sv.client.NonceAt e.calls arg with
  | Except.error err => (some (errorsNew ErrorCode.ErrFetchNonce (some err)), e1)
  | Except.ok nonce => (none, { e1 with nonce := nonce })

/-- The `ethereum.CallMsg` that `estimateGas` hands to `EstimateGas`: `To` is
set when the address is not empty. -/
def callMsg (sv : WalletOwnerServices) (address : GoString) (data : GoString) : CallMsg :=
  { From := sv.wallet.Address,
    To := if address.length > 0 then some (sv.HexToAddress address) else none,
    Gas := 0, Data := data }

/-- The value `EstimateGas` returns when it could not estimate. -/
def gasSentinel : Nat := 2251799813685248

/-- The method `estimateGas`. -/
def estimateGas (sv : WalletOwnerServices) (e : WalletOwner) (_id : Nat) (address : GoString)
    (data : GoString) : Except GoError Nat × WalletOwner :=
  let msg := callMsg sv address data
  let e1 := e.record (Call.EstimateGas msg)
  match sv.client.EstimateGas e.calls msg with
  | Except.error err => (Except.error (errorsNew ErrorCode.ErrEstimateGas (some err)), e1)
  | Except.ok gas =>
    if gas = gasSentinel then
      (Except.error (errorsNew ErrorCode.ErrEstimateGas (some (GoError.other
        (ascii "gas estimation could not be completed because of execution failure")))), e1)
    else (Except.ok gas, e1)

/-- The struct `sendTransactionRequest`. -/
structure sendTransactionRequest where
  ID : Nat
  Address : GoString
  Gas : Nat
  Data : GoString
deriving DecidableEq, Repr

/-- The transaction `generateAndSignTransaction` builds for a nonce
(`types.NewContractCreation` or `types.NewTransaction`). -/
def newTransaction (sv : WalletOwnerServices) (req : sendTransactionRequest) (gas nonce : Nat) :
    Transaction :=
  if req.Address.length = 0 then
    { nonce := nonce, To := none, amount := 0, gasLimit := gas, gasPrice := gasPrice,
      data := req.Data, signature := none }
  else
    { nonce := nonce, To := some (sv.HexToAddress req.Address), amount := 0, gasLimit := gas,
      gasPrice := gasPrice, data := req.Data, signature := none }

/-- The method `generateAndSignTransaction`. -/
def generateAndSignTransaction (sv : WalletOwnerServices) (e : WalletOwner)
    (req : sendTransactionRequest) (gas : Nat) : Except GoError Transaction × WalletOwner :=
  let (nonce, e1) := e.transactionNonce
  let tx := newTransaction sv req gas nonce
  let e2 := e1.record (Call.SignTransaction tx)
  match sv.wallet.Sign e1.calls tx with
  | Except.error err => (Except.error err, e2)
  | Except.ok sig => (Except.ok (tx.withSignature sig), e2)

/-- The supplier that `sendTransaction` hands to the retry engine. -/
def supplier (sv : WalletOwnerServices) (req : sendTransactionRequest) (e : WalletOwner) :
    Except GoError SendTransactionResponse × WalletOwner :=
  match generateAndSignTransaction sv e req req.Gas with
  | (Except.error err, e1) => (Except.error (errorsNew ErrorCode.ErrSignedTx (some err)), e1)
  | (Except.ok tx, e1) =>
    let e2 := e1.record (Call.SendTransaction tx)
    match sv.client.SendTransaction e1.calls tx with
    | Except.ok res => (Except.ok res, e2)
    | Except.error GoError.ErrExceedsBalance =>
      (Except.error (GoError.ErrCannotRecover
          (errorsNew ErrorCode.ErrSendTransaction (some GoError.ErrExceedsBalance))),
        e2.record (Call.WalletOutOfFunds { Address := req.Address }))
    | Except.error GoError.ErrExceedsBlockLimit =>
      (Except.error (GoError.ErrCannotRecover
          (errorsNew ErrorCode.ErrSendTransaction (some GoError.ErrExceedsBlockLimit))), e2)
    | Except.error GoError.ErrInvalidNonce =>
      match updateNonce sv e2 with
      | (some err, e3) => (Except.error (GoError.ErrCannotRecover err), e3)
      | (none, e3) => (Except.error GoError.ErrInvalidNonce, e3)
    | Except.error err =>
      (Except.error (GoError.ErrCannotRecover
          (errorsNew ErrorCode.ErrSendTransaction (some err))), e2)

/-- The method `sendTransaction`. -/
def sendTransaction (sv : WalletOwnerServices) (e : WalletOwner) (req : sendTransactionRequest) :
    Except GoError SendTransactionResponse × WalletOwner :=
  match RetryWithConfig (supplier sv req) retryConfig e with
  | (Except.error err, e1) =>
    if err.isErr then (Except.error err, e1)
    else (Except.error (errorsNew ErrorCode.ErrSendTransaction (some err)), e1)
  | (Except.ok v, e1) => (Except.ok v, e1)

/-- The request `executeTransaction` hands to `sendTransaction`. -/
def toSendRequest (req : ExecuteRequest) (gas : Nat) : sendTransactionRequest :=
  { ID := req.ID, Address := req.Address, Data := req.Data, Gas := gas }

/-- The unsigned transaction that an `executeTransaction` call builds for a
nonce, once gas has been estimated. -/
def txFor (sv : WalletOwnerServices) (req : ExecuteRequest) (gas nonce : Nat) : Transaction :=
  newTransaction sv (toSendRequest req gas) gas nonce

/-- The `EstimateGas` call of an `executeTransaction` call. -/
def estimateCall (sv : WalletOwnerServices) (req : ExecuteRequest) : Call :=
  Call.EstimateGas (callMsg sv req.Address req.Data)

/-- The message of the error `executeTransaction` builds for a response whose
status is not `StatusOK`. -/
def statusMessage (status : Nat) (output : GoString) : GoString :=
  ascii "transaction receipt has status " ++ decimal status ++
    ascii " which indicates a transaction execution failure with error " ++ output

/-- The method `executeTransaction`. -/
def executeTransaction (sv : WalletOwnerServices) (e : WalletOwner) (req : ExecuteRequest) :
    Except GoError ExecuteResponse × WalletOwner :=
  match estimateGas sv e req.ID req.Address req.Data with
  | (Except.error err, e1) => (Except.error err, e1)
  | (Except.ok gas, e1) =>
    match sendTransaction sv e1 (toSendRequest req gas) with
    | (Except.error err, e2) => (Except.error err, e2)
    | (Except.ok res, e2) =>
      if res.Status ≠ StatusOK then
        let p := (hexutilDecode res.Output).1
        let msg := statusMessage res.Status p
        (Except.error (errorsNew (ErrorCode.NewErrorCode ErrorCategory.InternalError 1000 msg)
          (some (GoError.other msg))), e2)
      else if req.Address.length = 0 then
        let hash := sv.HexToHash res.Hash
        let e3 := e2.record (Call.TransactionReceipt hash)
        match sv.client.TransactionReceipt e2.calls hash with
        | Except.error err =>
          (Except.error (errorsNew ErrorCode.ErrTransactionReceipt (some err)), e3)
        | Except.ok receipt =>
          (Except.ok { Address := sv.AddressHex receipt.ContractAddress, Output := res.Output,
                       Hash := res.Hash }, e3)
      else
        (Except.ok { Address := req.Address, Output := res.Output, Hash := res.Hash }, e2)

/-- A sequence of `executeTransaction` calls on one owner, in order: the state
after the last one. -/
def executeAll (sv : WalletOwnerServices) : WalletOwner → List ExecuteRequest → WalletOwner
  | e, [] => e
  | e, req :: reqs => executeAll sv (executeTransaction sv e req).2 reqs

end WalletOwner

/-- The nonces of the transactions handed to `SendTransaction` in a record of
calls, in order. -/
def sentNonces : List Call → List Nat
  | [] => []
  | Call.SendTransaction tx :: cs => tx.nonce :: sentNonces cs
  | _ :: cs => sentNonces cs

/-- Number of calls of `SendTransaction` in a record of calls. -/
def countSend (cs : List Call) : Nat := (sentNonces cs).length

/-- Whether a call is a `NonceAt`. -/
def Call.isNonceAt : Call → Bool
  | Call.NonceAt _ => true
  | _ => false

/-- Whether a call is a `SignTransaction`. -/
def Call.isSign : Call → Bool
  | Call.SignTransaction _ => true
  | _ => false

/-- Whether a call is a `SendTransaction`. -/
def Call.isSend : Call → Bool
  | Call.SendTransaction _ => true
  | _ => false

/-- Whether a call is a `TransactionReceipt`. -/
def Call.isReceipt : Call → Bool
  | Call.TransactionReceipt _ => true
  | _ => false

/-- Whether a call is a `WalletOutOfFunds`. -/
def Call.isOutOfFunds : Call → Bool
  | Call.WalletOutOfFunds _ => true
  | _ => false

/-! ### Scripted collaborators, for the scenarios -/

/-- Number of `SignTransaction` calls in a record of calls. -/
def countSign (cs : List Call) : Nat := (cs.filter Call.isSign).length

/-- Collaborators that answer from scripts: `sign k` answers the signing call
made after `k` earlier ones, `send k` the `SendTransaction` call made after
`k` earlier ones; gas estimation, `NonceAt` and `TransactionReceipt` always
give the same answer.  The conversions of package common are identities. -/
def scriptedServices (gas : Except GoError Nat) (sign : Nat → Except GoError GoString)
    (send : Nat → Except GoError SendTransactionResponse) (nonceAt : Except GoError Nat)
    (receipt : Except GoError Receipt) : WalletOwnerServices :=
  { wallet := { Address := ascii "wallet", Sign := fun h _ => sign (countSign h) },
    client :=
      { NonceAt := fun _ _ => nonceAt,
        EstimateGas := fun _ _ => gas,
        SendTransaction := fun h _ => send (countSend h),
        TransactionReceipt := fun _ _ => receipt },
    HexToAddress := fun a => a,
    AddressHex := fun a => a,
    HexToHash := fun a => a }

/-- A response with status `StatusOK`. -/
def okResponse : SendTransactionResponse :=
  { Status := 1, Output := ascii "0x00", Hash := ascii "0x01" }

/-- A request to execute the service at an address. -/
def callRequest : ExecuteRequest :=
  { ID := 0, Address := ascii "0xaa", Data := [1, 2, 3] }

/-- A response whose status is not `StatusOK`. -/
def failedResponse : SendTransactionResponse :=
  { Status := 0, Output := ascii "0x41zz", Hash := ascii "0x02" }

/-- The collaborators of scenario S5: the first `SendTransaction` returns
`ErrInvalidNonce`, every later one returns `res`, and `NonceAt` returns `m`. -/
def recoveryServices (m : Nat) (res : SendTransactionResponse) : WalletOwnerServices :=
  scriptedServices (Except.ok 21000) (fun _ => Except.ok [1])
    (fun k => if k = 0 then Except.error GoError.ErrInvalidNonce else Except.ok res)
    (Except.ok m) (Except.ok { ContractAddress := ascii "0xcc" })

/-- Collaborators whose chain client accepts every transaction and whose
wallet signs every transaction. -/
def acceptingServices : WalletOwnerServices :=
  scriptedServices (Except.ok 21000) (fun _ => Except.ok [1]) (fun _ => Except.ok okResponse)
    (Except.ok 9) (Except.ok { ContractAddress := ascii "0xcc" })

/-- Collaborators whose chain client accepts every transaction and whose
wallet fails to sign the first time it is asked. -/
def failingSignerServices : WalletOwnerServices :=
  scriptedServices (Except.ok 21000)
    (fun k => if k = 0 then Except.error (GoError.other (ascii "no key")) else Except.ok [1])
    (fun _ => Except.ok okResponse) (Except.ok 9) (Except.ok { ContractAddress := ascii "0xcc" })

/-- The nonce invariant of an owner: the nonces handed to `SendTransaction` so
far increase strictly and all lie below the owner's nonce. -/
def NonceInvariant (e : WalletOwner) : Prop :=
  (sentNonces e.calls).Pairwise (fun a b => a < b) ∧ ∀ k ∈ sentNonces e.calls, k < e.nonce

/-- The collaborators of scenario S5 with a `NonceAt` that answers 9 as long
as every nonce sent so far is below 9, and fails afterwards. -/
def forwardServices : WalletOwnerServices :=
  { recoveryServices 9 okResponse with
    client :=
      { (recoveryServices 9 okResponse).client with
        NonceAt := fun h _ =>
          if ∀ k ∈ sentNonces h, k < 9 then Except.ok 9
          else Except.error (GoError.other (ascii "unknown account")) } }

/-- Collaborators whose chain client answers every `SendTransaction` with
`ErrInvalidNonce`, and whose `NonceAt` answers 9 the first time and 12
afterwards. -/
def staleNonceServices : WalletOwnerServices :=
  { acceptingServices with
    client :=
      { acceptingServices.client with
        SendTransaction := fun _ _ => Except.error GoError.ErrInvalidNonce,
        NonceAt := fun h _ =>
          if (h.filter Call.isNonceAt).length = 0 then Except.ok 9 else Except.ok 12 } }

/-! ### gateway/config/mailbox.go -/

/-- The part of a `viper.Viper` that the mailbox configuration reads: the
string and the string slice bound to a key. -/
structure Viper where
  GetString : String → GoString
  GetStringSlice : String → List GoString

/-- The constant `MailboxRedisSingle`. -/
def MailboxRedisSingle : GoString := ascii "redis-single"

/-- The constant `MailboxRedisCluster`. -/
def MailboxRedisCluster : GoString := ascii "redis-cluster"

/-- The constant `MailboxMem`. -/
def MailboxMem : GoString := ascii "mem"

/-- The struct `MailboxRedisSingleConfig`. -/
structure MailboxRedisSingleConfig where
  Addr : GoString
deriving DecidableEq, Repr

/-- The struct `MailboxRedisClusterConfig`. -/
structure MailboxRedisClusterConfig where
  Addrs : List GoString
deriving DecidableEq, Repr

/-- The struct `MailboxMemConfig`, which has no field. -/
structure MailboxMemConfig where
deriving DecidableEq, Repr

/-- The interface `Mailbox`, implemented by the three provider
configurations. -/
inductive Mailbox where
  | Mem (c : MailboxMemConfig)
  | RedisSingle (c : MailboxRedisSingleConfig)
  | RedisCluster (c : MailboxRedisClusterConfig)
deriving DecidableEq, Repr

/-- The struct `MailboxConfig`; `Mailbox` is `none` while it is nil. -/
structure MailboxConfig where
  Provider : GoString
  Mailbox : Option Mailbox
deriving DecidableEq, Repr

/-- The method `MailboxRedisSingleConfig.Configure`: the error it returns
(`none` is nil) and the configuration afterwards. -/
def MailboxRedisSingleConfig.Configure (_c : MailboxRedisSingleConfig) (v : Viper) :
    Option String × MailboxRedisSingleConfig :=
  let c1 : MailboxRedisSingleConfig := { Addr := v.GetString "mailbox.redis_single.addr" }
  if c1.Addr.length = 0 then (some "mailbox.redis_single.addr must be set", c1)
  else (none, c1)

/-- The method `MailboxRedisClusterConfig.Configure`. -/
def MailboxRedisClusterConfig.Configure (_c : MailboxRedisClusterConfig) (v : Viper) :
    Option String × MailboxRedisClusterConfig :=
  let c1 : MailboxRedisClusterConfig :=
    { Addrs := v.GetStringSlice "mailbox.redis_cluster.addrs" }
  if c1.Addrs.length = 0 then (some "mailbox.redis_cluster.addrs must be set", c1)
  else (none, c1)

/-- The method `MailboxMemConfig.Configure`. -/
def MailboxMemConfig.Configure (c : MailboxMemConfig) (_v : Viper) :
    Option String × MailboxMemConfig :=
  (none, c)

/-- The method `MailboxConfig.Configure`: the error it returns (`none` is nil)
and the configuration afterwards. -/
def MailboxConfig.Configure (c : MailboxConfig) (v : Viper) : Option String × MailboxConfig :=
  let c1 : MailboxConfig := { c with Provider := v.GetString "mailbox.provider" }
  if c1.Provider.length = 0 then
    (some "mailbox.provider must be set. Options are mem, redis-single, redis-cluster.", c1)
  else if c1.Provider = MailboxMem then
    let r := MailboxMemConfig.Configure {} v
    (r.1, { c1 with Mailbox := some (Mailbox.Mem r.2) })
  else if c1.Provider = MailboxRedisSingle then
    let r := MailboxRedisSingleConfig.Configure { Addr := [] } v
    (r.1, { c1 with Mailbox := some (Mailbox.RedisSingle r.2) })
  else if c1.Provider = MailboxRedisCluster then
    let r := MailboxRedisClusterConfig.Configure { Addrs := [] } v
    (r.1, { c1 with Mailbox := some (Mailbox.RedisCluster r.2) })
  else
    (some "unknown mailbox.provider set. Options are mem, redis-single, redis-cluster.", c1)

/-! ### backend/core/entity.go: subscription identifiers -/

/-- The function `SubID`: `fmt.Sprintf("%s:sub:%d", key, id)`. -/
def SubID (key : GoString) (id : Nat) : GoString :=
  key ++ ascii ":sub:" ++ decimal id

/-- The function `SubinfoID`: `fmt.Sprintf("%s:subinfo", key)`. -/
def SubinfoID (key : GoString) : GoString :=
  key ++ ascii ":subinfo"

/-! ### auth/insecure/insecure.go -/

namespace InsecureAuth

/-- The method `InsecureAuth.Key`. -/
def Key : GoString := ascii "X-INSECURE-AUTH"

/-- The method `InsecureAuth.Verify`: the identity it returns and the message
of its error (`none` is the nil error). -/
def Verify (key value : GoString) : GoString × Option String :=
  if key = Key ∧ value.length > 0 then (value, none)
  else ([], some "Verification failed")

end InsecureAuth

/-! ### auth/core/http.go -/

/-- A key of a `context.Context`: `ContextKeyAuthID`, or any other key. -/
inductive ContextKey where
  | ContextKeyAuthID
  | other (name : GoString)
deriving DecidableEq, Repr

/-- A `context.Context` as far as its values go: the values attached by
`context.WithValue`, most recent first. -/
abbrev Context := List (ContextKey × GoString)

/-- The function `context.WithValue`. -/
def Context.WithValue (ctx : Context) (key : ContextKey) (val : GoString) : Context :=
  (key, val) :: ctx

/-- The method `Context.Value`: the most recent value attached under a key. -/
def Context.Value : Context → ContextKey → Option GoString
  | [], _ => none
  | (k, v) :: rest, key => if k = key then some v else Context.Value rest key

/-- An `http.Request` as far as `ServeHTTP` reads it: `HeaderGet` is
`req.Header.Get` and `Ctx` is `req.Context()`. -/
structure HttpRequest where
  HeaderGet : GoString → GoString
  Ctx : Context

/-- The method `Request.WithContext`. -/
def HttpRequest.WithContext (req : HttpRequest) (ctx : Context) : HttpRequest :=
  { req with Ctx := ctx }

/-- The methods of the auth plugin that `ServeHTTP` calls: `Key`, and `Verify`
with the identity it returns and its error (`none` is nil). -/
structure AuthPlugin where
  Key : GoString
  Verify : GoString → GoString → GoString × Option String

/-- An error that a handler returns: an `rpc.HttpError` with its status code
and body, or any other error. -/
inductive HandlerError where
  | HttpError (statusCode : Nat) (body : GoString)
  | other (msg : GoString)
deriving DecidableEq, Repr

/-- Modelled from the spec: the function `rpc.HttpForbidden(ctx, body)`, whose
source is not among the sources at hand; section 4.H has the middleware
respond `403 Forbidden` with the body it is given. -/
def HttpForbidden (_ctx : Context) (body : GoString) : HandlerError :=
  HandlerError.HttpError 403 body

/-- What a `ServeHTTP` call comes to: the value and the error it returns
(`none` is nil), and the requests it handed to the next handler, in order. -/
structure Served (α : Type) where
  value : Option α
  err : Option HandlerError
  forwarded : List HttpRequest

/-- The method `HttpMiddlewareAuth.ServeHTTP`, over the auth plugin `auth` and
the next handler `next` of the middleware. -/
def HttpMiddlewareAuth.ServeHTTP {α : Type} (auth : AuthPlugin)
    (next : HttpRequest → Option α × Option HandlerError) (req : HttpRequest) : Served α :=
  let value := req.HeaderGet auth.Key
  let r := auth.Verify auth.Key value
  match r.2 with
  | some _ => { value := none, err := some (HttpForbidden req.Ctx []), forwarded := [] }
  | none =>
    let req1 := req.WithContext (req.Ctx.WithValue ContextKey.ContextKeyAuthID r.1)
    { value := (next req1).1, err := (next req1).2, forwarded := [req1] }

/-! ### The mailbox store (mqueue/mem)

The source of the in-memory server is not among the sources at hand; its test
`mqueue/mem/server_test.go` is. The store is modelled from sections 3 and 4.A
of the specification, and the test's calls are replayed on that model. -/

/-- Modelled from the spec: the struct `core.Elements` that `Retrieve`
returns, the offset of the window and its elements. -/
structure Elements where
  Offset : Nat
  Elements : List Element
deriving DecidableEq, Repr

/-- Modelled from the spec: the error of the mailbox store (section 7). -/
inductive MailboxError where
  | InvalidOffset
deriving DecidableEq, Repr

/-- Modelled from the spec: one stream of the mailbox store (sections 3 and
4.A): `base` is the offset of the first element that is kept, `elements` are
the elements kept, in order, and `reserved` is the offset that the following
`next` hands out. -/
structure MailboxStream where
  base : Nat
  elements : List Element
  reserved : Nat
deriving DecidableEq, Repr

/-- Modelled from the spec: the stream that the first `next(key)` creates, also
what a key without stream is read as (section 7: a missing stream is treated as
empty). -/
def MailboxStream.empty : MailboxStream := { base := 0, elements := [], reserved := 0 }

/-- Modelled from the spec: `discard(key, n)` on a stream drops the first `n`
elements and advances the base by `n`; an `n` beyond the length is clamped
(section 9, the reference policy). -/
def MailboxStream.discard (st : MailboxStream) (n : Nat) : MailboxStream :=
  { st with base := st.base + min n st.elements.length,
            elements := st.elements.drop (min n st.elements.length) }

/-- Modelled from the spec: `retrieve(key, from, count)` on a stream returns at
most `count` elements starting at `max(from, base)`; `Offset` is the offset of
the first element returned, or the base when none is. -/
def MailboxStream.retrieve (st : MailboxStream) (offset count : Nat) : Elements :=
  let start := max offset st.base
  let els := (st.elements.drop (start - st.base)).take count
  { Offset := match els with
      | [] => st.base
      | el :: _ => el.Offset,
    Elements := els }

/-- Modelled from the spec: the mailbox store, the stream of each key; a key
without stream is `none`. -/
abbrev MailboxStore := GoString → Option MailboxStream

/-- Modelled from the spec: the stream a key is read as. -/
def MailboxStore.streamOf (s : MailboxStore) (key : GoString) : MailboxStream :=
  (s key).getD MailboxStream.empty

/-- Modelled from the spec: the store with the stream of one key replaced. -/
def MailboxStore.set (s : MailboxStore) (key : GoString) (st : MailboxStream) : MailboxStore :=
  fun k => if k = key then some st else s k

/-- Modelled from the spec: `Next(key)` returns and reserves the offset of the
next element to insert, creating the stream when the key has none; no element
is stored yet. -/
def MailboxStore.Next (s : MailboxStore) (key : GoString) : Nat × MailboxStore :=
  let st := s.streamOf key
  (st.reserved, s.set key { st with reserved := st.reserved + 1 })

/-- Modelled from the spec: `Insert(key, element)` appends the element, and
fails with `InvalidOffset` unless its offset is the next slot of the stream. -/
def MailboxStore.Insert (s : MailboxStore) (key : GoString) (el : Element) :
    Except MailboxError MailboxStore :=
  let st := s.streamOf key
  if el.Offset = st.base + st.elements.length then
    Except.ok (s.set key { st with elements := st.elements ++ [el],
                                   reserved := max st.reserved (el.Offset + 1) })
  else Except.error MailboxError.InvalidOffset

/-- Modelled from the spec: `Retrieve(key, from, count)`. -/
def MailboxStore.Retrieve (s : MailboxStore) (key : GoString) (offset count : Nat) : Elements :=
  (s.streamOf key).retrieve offset count

/-- Modelled from the spec: `Discard(key, n)`; a key without stream stays
without. -/
def MailboxStore.Discard (s : MailboxStore) (key : GoString) (n : Nat) : MailboxStore :=
  match s key with
  | none => s
  | some st => s.set key (st.discard n)

/-- The body of the loop of `TestServerDiscard`: `Next`, then `Insert` of an
element at the offset returned, with the given type and value. -/
def MailboxStore.publish (s : MailboxStore) (key typ value : GoString) :
    Except MailboxError MailboxStore :=
  (s.Next key).2.Insert key { Offset := (s.Next key).1, Typ := typ, Value := value }

/-- The loop of `TestServerDiscard`, once for each type and value of the list;
it stops at the first `Insert` that fails. -/
def MailboxStore.fill (s : MailboxStore) (key : GoString) :
    List (GoString × GoString) → Except MailboxError MailboxStore
  | [] => Except.ok s
  | (typ, value) :: rest =>
    match s.publish key typ value with
    | Except.error e => Except.error e
    | Except.ok s1 => MailboxStore.fill s1 key rest

/-- The elements with the given types and values at consecutive offsets from
`start` on. -/
def numbered : Nat → List (GoString × GoString) → List Element
  | _, [] => []
  | start, (typ, value) :: rest =>
    { Offset := start, Typ := typ, Value := value } :: numbered (start + 1) rest

/-- The store without any stream. -/
def emptyStore : MailboxStore := fun _ => none

/-! ## Part II: theorems -/

/-! ### Auth boundary -/

/-- C1: `GoogleOauth.Verify(req, expected)` returns no error exactly when the
bytes of `req.AAD` equal the bytes of `expected`, and in every other case the
error it returns has the message "AAD does not match". -/
theorem verify_ok_iff_aad_eq (req : AuthRequest) (expected : GoString) :
    (GoogleOauth.Verify req expected = none ↔ req.AAD = expected) ∧
    (GoogleOauth.Verify req expected = none ∨
      GoogleOauth.Verify req expected = some "AAD does not match") := by
  unfold GoogleOauth.Verify
  by_cases h : req.AAD = expected <;> simp [h]

/-- C2 (the code departs from its documentation): a request whose `Data` is
the test data cut inside the length fields, and one whose `Data` lacks the
5-byte nonce, both carrying the expected AAD in `AAD`, are accepted by
`Verify` although neither `Data` has the documented layout; the full test data
does have it. -/
theorem verify_accepts_truncated_data :
    GoogleOauth.Verify
        { API := [], Address := [], AAD := GoogleOauth.testExpectedAAD, PK := GoogleOauth.testPk,
          Data := GoogleOauth.testData.take 28 } GoogleOauth.testExpectedAAD = none ∧
    GoogleOauth.documentedLayoutAAD (GoogleOauth.testData.take 28) = none ∧
    GoogleOauth.Verify
        { API := [], Address := [], AAD := GoogleOauth.testExpectedAAD, PK := GoogleOauth.testPk,
          Data := GoogleOauth.testData.take (GoogleOauth.testData.length - 5) }
        GoogleOauth.testExpectedAAD = none ∧
    GoogleOauth.documentedLayoutAAD
        (GoogleOauth.testData.take (GoogleOauth.testData.length - 5)) = none ∧
    GoogleOauth.documentedLayoutAAD GoogleOauth.testData = some GoogleOauth.testExpectedAAD := by
  refine ⟨?_, ?_, ?_, ?_, ?_⟩ <;> decide

/-! ### Event codec -/

theorem decodeRune2_valid (b0 : Nat) (rest : GoString) (r n : Nat)
    (hb : 0xC2 ≤ b0 ∧ b0 ≤ 0xDF) (h : decodeRune2 b0 rest = (r, n)) (hn : 2 ≤ n) :
    ∃ pre post, b0 :: rest = pre ++ post ∧ pre.length = n ∧ encodeRune r = pre ∧
      (∀ t, decodeRune (pre ++ t) = (r, n)) ∧ (∀ b ∈ pre, 128 ≤ b) ∧ 128 ≤ r := by
  rcases rest with _ | ⟨b1, rest⟩
  · simp [decodeRune2] at h; omega
  · simp only [decodeRune2] at h
    split_ifs at h with h5
    · simp only [Prod.mk.injEq] at h
      obtain ⟨hr, hn'⟩ := h
      subst hn'
      refine ⟨[b0, b1], rest, rfl, rfl, ?_, ?_, ?_, ?_⟩
      · unfold encodeRune
        rw [if_neg (by omega), if_pos (by omega)]
        have a0 : 0xC0 + r / 64 = b0 := by omega
        have a1 : 0x80 + r % 64 = b1 := by omega
        rw [a0, a1]
      · intro t
        have h1 : ¬ b0 < 128 := by omega
        show decodeRune (b0 :: b1 :: t) = _
        simp only [decodeRune]
        rw [if_neg h1, if_pos hb]
        simp only [decodeRune2]
        rw [if_pos h5, hr]
      · intro b hb; simp at hb; omega
      · omega
    · simp at h; omega

theorem decodeRune3_valid (b0 : Nat) (rest : GoString) (r n : Nat)
    (hb : 0xE0 ≤ b0 ∧ b0 ≤ 0xEF) (h : decodeRune3 b0 rest = (r, n)) (hn : 2 ≤ n) :
    ∃ pre post, b0 :: rest = pre ++ post ∧ pre.length = n ∧ encodeRune r = pre ∧
      (∀ t, decodeRune (pre ++ t) = (r, n)) ∧ (∀ b ∈ pre, 128 ≤ b) ∧ 128 ≤ r := by
  rcases rest with _ | ⟨b1, _ | ⟨b2, rest⟩⟩
  · simp [decodeRune3] at h; omega
  · simp [decodeRune3] at h; omega
  · simp only [decodeRune3] at h
    split_ifs at h with h5
    · simp only [Prod.mk.injEq] at h
      obtain ⟨hr, hn'⟩ := h
      subst hn'
      have h6 := h5
      simp only [acceptLo, acceptHi] at h6
      refine ⟨[b0, b1, b2], rest, rfl, rfl, ?_, ?_, ?_, ?_⟩
      · unfold encodeRune
        have e1 : ¬ r ≤ 0x7F := by split_ifs at h6 <;> omega
        have e2 : ¬ r ≤ 0x7FF := by split_ifs at h6 <;> omega
        have e3 : ¬ (r > 0x10FFFF ∨ (0xD800 ≤ r ∧ r ≤ 0xDFFF)) := by split_ifs at h6 <;> omega
        have e4 : r ≤ 0xFFFF := by split_ifs at h6 <;> omega
        rw [if_neg e1, if_neg e2, if_neg e3, if_pos e4]
        have a0 : 0xE0 + r / 4096 = b0 := by split_ifs at h6 <;> omega
        have a1 : 0x80 + r / 64 % 64 = b1 := by split_ifs at h6 <;> omega
        have a2 : 0x80 + r % 64 = b2 := by split_ifs at h6 <;> omega
        rw [a0, a1, a2]
      · intro t
        have h1 : ¬ b0 < 128 := by omega
        have h2 : ¬ (0xC2 ≤ b0 ∧ b0 ≤ 0xDF) := by omega
        show decodeRune (b0 :: b1 :: b2 :: t) = _
        simp only [decodeRune]
        rw [if_neg h1, if_neg h2, if_pos hb]
        simp only [decodeRune3]
        rw [if_pos h5, hr]
      · intro b hb; simp at hb; split_ifs at h6 <;> omega
      · split_ifs at h6 <;> omega
    · simp at h; omega

theorem decodeRune4_valid (b0 : Nat) (rest : GoString) (r n : Nat)
    (hb : 0xF0 ≤ b0 ∧ b0 ≤ 0xF4) (h : decodeRune4 b0 rest = (r, n)) (hn : 2 ≤ n) :
    ∃ pre post, b0 :: rest = pre ++ post ∧ pre.length = n ∧ encodeRune r = pre ∧
      (∀ t, decodeRune (pre ++ t) = (r, n)) ∧ (∀ b ∈ pre, 128 ≤ b) ∧ 128 ≤ r := by
  rcases rest with _ | ⟨b1, _ | ⟨b2, _ | ⟨b3, rest⟩⟩⟩
  · simp [decodeRune4] at h; omega
  · simp [decodeRune4] at h; omega
  · simp [decodeRune4] at h; omega
  · simp only [decodeRune4] at h
    split_ifs at h with h5
    · simp only [Prod.mk.injEq] at h
      obtain ⟨hr, hn'⟩ := h
      subst hn'
      have h6 := h5
      simp only [acceptLo, acceptHi] at h6
      refine ⟨[b0, b1, b2, b3], rest, rfl, rfl, ?_, ?_, ?_, ?_⟩
      · unfold encodeRune
        have e1 : ¬ r ≤ 0x7F := by split_ifs at h6 <;> omega
        have e2 : ¬ r ≤ 0x7FF := by split_ifs at h6 <;> omega
        have e3 : ¬ (r > 0x10FFFF ∨ (0xD800 ≤ r ∧ r ≤ 0xDFFF)) := by split_ifs at h6 <;> omega
        have e4 : ¬ r ≤ 0xFFFF := by split_ifs at h6 <;> omega
        rw [if_neg e1, if_neg e2, if_neg e3, if_neg e4]
        have a0 : 0xF0 + r / 262144 = b0 := by split_ifs at h6 <;> omega
        have a1 : 0x80 + r / 4096 % 64 = b1 := by split_ifs at h6 <;> omega
        have a2 : 0x80 + r / 64 % 64 = b2 := by split_ifs at h6 <;> omega
        have a3 : 0x80 + r % 64 = b3 := by split_ifs at h6 <;> omega
        rw [a0, a1, a2, a3]
      · intro t
        have h1 : ¬ b0 < 128 := by omega
        have h2 : ¬ (0xC2 ≤ b0 ∧ b0 ≤ 0xDF) := by omega
        have h3 : ¬ (0xE0 ≤ b0 ∧ b0 ≤ 0xEF) := by omega
        show decodeRune (b0 :: b1 :: b2 :: b3 :: t) = _
        simp only [decodeRune]
        rw [if_neg h1, if_neg h2, if_neg h3, if_pos hb]
        simp only [decodeRune4]
        rw [if_pos h5, hr]
      · intro b hb; simp at hb; split_ifs at h6 <;> omega
      · split_ifs at h6 <;> omega
    · simp at h; omega

theorem decodeRune_valid (s : GoString) (r n : Nat) (h : decodeRune s = (r, n)) (hn : 2 ≤ n) :
    ∃ pre post, s = pre ++ post ∧ pre.length = n ∧ encodeRune r = pre ∧
      (∀ t, decodeRune (pre ++ t) = (r, n)) ∧ (∀ b ∈ pre, 128 ≤ b) ∧ 128 ≤ r := by
  rcases s with _ | ⟨b0, rest⟩
  · simp [decodeRune] at h; omega
  · simp only [decodeRune] at h
    split_ifs at h with h1 h2 h3 h4
    · simp at h; omega
    · exact decodeRune2_valid b0 rest r n h2 h hn
    · exact decodeRune3_valid b0 rest r n h3 h hn
    · exact decodeRune4_valid b0 rest r n h4 h hn
    · simp at h; omega

theorem fromHexChar_hexDigit : ∀ d, d < 16 → fromHexChar (hexDigit d) = some d := by decide

theorem getu4_digits (a b c d : Nat) (rest : GoString) (ha : a < 16) (hb : b < 16) (hc : c < 16)
    (hd : d < 16) :
    getu4 (hexDigit a :: hexDigit b :: hexDigit c :: hexDigit d :: rest) =
      some (a * 4096 + b * 256 + c * 16 + d, rest) := by
  simp only [getu4, fromHexChar_hexDigit a ha, fromHexChar_hexDigit b hb,
    fromHexChar_hexDigit c hc, fromHexChar_hexDigit d hd]

theorem encodeRune_ascii (b : Nat) (h : b < 128) : encodeRune b = [b] := by
  unfold encodeRune
  rw [if_pos (by omega)]

theorem escapedRune_plain (r : Nat) (rest : GoString) (h : r < 0xD800 ∨ 0xE000 ≤ r) :
    escapedRune r rest = (r, rest) := by
  unfold escapedRune
  rw [if_neg (by omega)]

/-- Decoding an escaped ASCII byte gives the byte back. -/
theorem parseStringBody_escapeByte (f b : Nat) (tail : GoString) (hb : b < 128)
    (hs : htmlSafe b = false) :
    parseStringBody (f + 1) (escapeByte b ++ tail) =
      match parseStringBody f tail with
      | none => none
      | some (s, t) => some (b :: s, t) := by
  unfold escapeByte
  split_ifs with h1 h2 h3 h4
  · rcases h1 with h | h <;> subst h <;> simp [parseStringBody, unescapeByte]
  · subst h2; simp [parseStringBody, unescapeByte]
  · subst h3; simp [parseStringBody, unescapeByte]
  · subst h4; simp [parseStringBody, unescapeByte]
  · have hg := getu4_digits 0 0 (b / 16) (b % 16) tail (by omega) (by omega) (by omega) (by omega)
    have h00 : hexDigit 0 = 48 := rfl
    rw [h00] at hg
    have hv : 0 * 4096 + 0 * 256 + b / 16 * 16 + b % 16 = b := by omega
    rw [hv] at hg
    show parseStringBody (f + 1) (92 :: 117 :: 48 :: 48 :: hexDigit (b / 16) ::
      hexDigit (b % 16) :: tail) = _
    simp only [parseStringBody]
    rw [if_pos trivial, if_pos trivial, hg]
    simp only []
    rw [escapedRune_plain b tail (by omega), encodeRune_ascii b hb]
    rfl

theorem escapeByte_length (b : Nat) : 0 < (escapeByte b).length := by
  unfold escapeByte
  split_ifs <;> simp

/-- The string codec round trip: decoding what `Marshal` writes for a valid
UTF-8 string gives the string back. -/
theorem parseStringBody_encodeStringBody (g : Nat) :
    ∀ (s : GoString) (f : Nat) (rest : GoString), s.length ≤ g →
      (encodeStringBody g s).length < f → validUTF8Fuel g s = true →
      parseStringBody f (encodeStringBody g s ++ 34 :: rest) = some (s, rest) := by
  induction g with
  | zero =>
    intro s f rest hg hf _
    have hs : s = [] := List.length_eq_zero.mp (by omega)
    subst hs
    obtain ⟨f, rfl⟩ : ∃ k, f = k + 1 := ⟨f - 1, by omega⟩
    simp [encodeStringBody, parseStringBody]
  | succ g ih =>
    intro s f rest hg hf hv
    obtain ⟨f, rfl⟩ : ∃ k, f = k + 1 := ⟨f - 1, by omega⟩
    rcases s with _ | ⟨b, bs⟩
    · simp [encodeStringBody, parseStringBody]
    · simp only [List.length_cons] at hg
      simp only [validUTF8Fuel] at hv
      simp only [encodeStringBody] at hf ⊢
      by_cases hb : b < 128
      · rw [if_pos hb] at hv hf ⊢
        by_cases hsafe : htmlSafe b = true
        · rw [if_pos hsafe] at hf ⊢
          rw [List.length_cons] at hf
          have ihb := ih bs f rest (by omega) (by omega) hv
          simp only [htmlSafe, decide_eq_true_eq] at hsafe
          show parseStringBody (f + 1) (b :: (encodeStringBody g bs ++ 34 :: rest)) = _
          simp only [parseStringBody]
          rw [if_neg (by omega), if_neg (by omega), if_neg (by omega), if_pos hb, ihb]
        · rw [if_neg hsafe] at hf ⊢
          have hel := escapeByte_length b
          rw [List.length_append] at hf
          have ihb := ih bs f rest (by omega) (by omega) hv
          rw [List.append_assoc, parseStringBody_escapeByte f b _ hb (by simpa using hsafe), ihb]
      · rw [if_neg hb] at hv hf ⊢
        rcases hd : decodeRune (b :: bs) with ⟨r, n⟩
        rw [hd] at hv hf
        simp only [] at hv hf ⊢
        by_cases hsz : n ≤ 1
        · rw [if_pos hsz] at hv; exact absurd hv (by simp)
        · rw [if_neg hsz] at hv
          rw [if_neg (by omega)] at hf ⊢
          obtain ⟨pre, post, hsplit, hlen, henc, hdec, hpre, hr⟩ :=
            decodeRune_valid (b :: bs) r n hd (by omega)
          have hdrop : (b :: bs).drop n = post := by
            rw [hsplit, ← hlen, List.drop_left]
          have htake : (b :: bs).take n = pre := by
            rw [hsplit, ← hlen, List.take_left]
          have hpl : post.length + n = bs.length + 1 := by
            have := congrArg List.length hsplit
            simp only [List.length_cons, List.length_append] at this
            omega
          rw [hdrop] at hv hf ⊢
          obtain ⟨p0, ptail, hp0⟩ : ∃ p0 ptail, pre = p0 :: ptail := by
            rcases pre with _ | ⟨p0, ptail⟩
            · simp at hlen; omega
            · exact ⟨p0, ptail, rfl⟩
          have hp128 : 128 ≤ p0 := hpre p0 (by rw [hp0]; simp)
          by_cases hls : r = 0x2028 ∨ r = 0x2029
          · rw [if_pos hls] at hf ⊢
            rw [List.length_append] at hf
            have ihp := ih post f rest (by omega) (by simp at hf; omega) hv
            have hg := getu4_digits 2 0 2 (r % 16)
              (encodeStringBody g post ++ 34 :: rest) (by omega) (by omega) (by omega) (by omega)
            have h2 : hexDigit 2 = 50 := rfl
            have h0 : hexDigit 0 = 48 := rfl
            rw [h2, h0] at hg
            have hv2 : 2 * 4096 + 0 * 256 + 2 * 16 + r % 16 = r := by
              rcases hls with h | h <;> subst h <;> rfl
            rw [hv2] at hg
            show parseStringBody (f + 1) (92 :: 117 :: 50 :: 48 :: 50 :: hexDigit (r % 16) ::
              (encodeStringBody g post ++ 34 :: rest)) = _
            simp only [parseStringBody]
            rw [if_pos trivial, if_pos trivial, hg]
            simp only []
            rw [escapedRune_plain r _ (by omega), ihp, henc, hsplit]
            rfl
          · rw [if_neg hls, htake] at hf
            rw [if_neg hls, htake, List.append_assoc]
            rw [List.length_append] at hf
            have ihp := ih post f rest (by omega) (by omega) hv
            have hdd := hdec (encodeStringBody g post ++ 34 :: rest)
            rw [hp0] at hdd ⊢
            show parseStringBody (f + 1)
              (p0 :: (ptail ++ (encodeStringBody g post ++ 34 :: rest))) = _
            simp only [parseStringBody]
            rw [if_neg (by omega), if_neg (by omega), if_neg (by omega), if_neg (by omega)]
            have hdd2 : decodeRune (p0 :: (ptail ++ (encodeStringBody g post ++ 34 :: rest))) =
                (r, n) := hdd
            rw [hdd2]
            simp only []
            have hdrop2 : List.drop n (p0 :: (ptail ++ (encodeStringBody g post ++ 34 :: rest))) =
                encodeStringBody g post ++ 34 :: rest := by
              have : p0 :: (ptail ++ (encodeStringBody g post ++ 34 :: rest)) =
                  (p0 :: ptail) ++ (encodeStringBody g post ++ 34 :: rest) := rfl
              rw [this, ← hp0, ← hlen, List.drop_left]
            rw [hdrop2, ihp, henc, hsplit, hp0]

theorem digitsValue_append_one (ds : GoString) (c : Nat) :
    digitsValue (ds ++ [c]) = digitsValue ds * 10 + (c - 48) := by
  simp [digitsValue, List.foldl_append]

/-- The decimal digits of a number: digits only, no leading zero, and they
spell the number. -/
theorem decimalFuel_spec : ∀ (f n : Nat), n < f →
    (∀ c ∈ decimalFuel f n, 48 ≤ c ∧ c ≤ 57) ∧ digitsValue (decimalFuel f n) = n ∧
    ∃ d ds, decimalFuel f n = d :: ds ∧ 48 ≤ d ∧ d ≤ 57 ∧ (0 < n → 49 ≤ d) ∧
      (n = 0 → ds = []) := by
  intro f
  induction f with
  | zero => intro n h; omega
  | succ f ih =>
    intro n h
    unfold decimalFuel
    by_cases h10 : n < 10
    · rw [if_pos h10]
      refine ⟨?_, ?_, 48 + n, [], rfl, by omega, by omega, by omega, fun _ => rfl⟩
      · intro c hc
        simp at hc
        omega
      · simp [digitsValue]
    · rw [if_neg h10]
      obtain ⟨hall, hval, d, ds, hd, hd1, hd2, hd3, _⟩ := ih (n / 10) (by omega)
      refine ⟨?_, ?_, d, ds ++ [48 + n % 10], by rw [hd]; rfl, hd1, hd2, fun _ => hd3 (by omega),
        fun h0 => by omega⟩
      · intro c hc
        rcases List.mem_append.mp hc with h1 | h1
        · exact hall c h1
        · simp at h1; omega
      · rw [digitsValue_append_one, hval]
        omega

theorem decimal_spec (n : Nat) :
    (∀ c ∈ decimal n, 48 ≤ c ∧ c ≤ 57) ∧ digitsValue (decimal n) = n ∧
    ∃ d ds, decimal n = d :: ds ∧ 48 ≤ d ∧ d ≤ 57 ∧ (0 < n → 49 ≤ d) ∧ (n = 0 → ds = []) :=
  decimalFuel_spec (n + 1) n (by omega)

theorem spanDigits_append (ds rest : GoString) (hds : ∀ c ∈ ds, 48 ≤ c ∧ c ≤ 57)
    (hrest : ∀ c t, rest = c :: t → isDigit c = false) :
    spanDigits (ds ++ rest) = (ds, rest) := by
  induction ds with
  | nil =>
    rcases rest with _ | ⟨c, t⟩
    · rfl
    · simp [spanDigits, hrest c t rfl]
  | cons d ds ih =>
    have hd := hds d (by simp)
    have hdig : isDigit d = true := by simp [isDigit]; omega
    have ih2 := ih (fun c hc => hds c (by simp [hc]))
    simp [spanDigits, hdig, ih2]

theorem scanNumber_digits (d : Nat) (ds : GoString) (c : Nat) (t : GoString)
    (hd1 : 48 ≤ d) (hd2 : d ≤ 57) (hz : d = 48 → ds = [])
    (hds : ∀ x ∈ ds, 48 ≤ x ∧ x ≤ 57) (hc : endsNumber c) :
    scanNumber (d :: ds ++ c :: t) = some (d :: ds, c :: t) := by
  have hcd : isDigit c = false := by
    rcases hc with h | h <;> subst h <;> rfl
  have hspan := spanDigits_append ds (c :: t) hds (fun c' t' h => by
    injection h with h1 h2; subst h1; exact hcd)
  have hc46 : c ≠ 46 := by rcases hc with h | h <;> omega
  have hce : ¬ (c = 101 ∨ c = 69) := by rcases hc with h | h <;> omega
  unfold scanNumber
  have hhead : (d :: ds ++ c :: t).head? = some d := rfl
  simp only [hhead]
  have hne : ¬ (some d = some 45) := by simp; omega
  rw [if_neg hne]
  simp only [List.length_nil, List.drop_zero]
  by_cases h0 : d = 48
  · have hds0 := hz h0
    subst hds0
    subst h0
    simp [scanInt, scanFrac, scanExp, hc46, hce]
  · have hr : 49 ≤ d ∧ d ≤ 57 := by omega
    simp [scanInt, h0, hr, hspan, scanFrac, scanExp, hc46, hce]

theorem scanNumber_decimal (n c : Nat) (t : GoString) (hc : endsNumber c) :
    scanNumber (decimal n ++ c :: t) = some (decimal n, c :: t) := by
  obtain ⟨hall, _, d, ds, hd, hd1, hd2, hd3, hd4⟩ := decimal_spec n
  rw [hd] at hall ⊢
  refine scanNumber_digits d ds c t hd1 hd2 ?_ (fun x hx => hall x (by simp [hx])) hc
  intro h48
  by_cases hn : n = 0
  · exact hd4 hn
  · have := hd3 (by omega); omega

theorem parseDigits_decimal (n : Nat) : parseDigits (decimal n) = some n := by
  obtain ⟨hall, hval, d, ds, hd, _⟩ := decimal_spec n
  unfold parseDigits
  have hne : decimal n ≠ [] := by rw [hd]; simp
  have hal : (decimal n).all isDigit = true := by
    rw [List.all_eq_true]
    intro c hc
    have := hall c hc
    simp [isDigit]; omega
  rw [if_pos ⟨hne, hal⟩, hval]

theorem parseUint64_decimal (n : Nat) (h : n < 2 ^ 64) : parseUint64 (decimal n) = some n := by
  unfold parseUint64
  rw [parseDigits_decimal]
  simp only []
  rw [if_pos h]

theorem scanNumber_formatInt (i : Int) (c : Nat) (t : GoString) (hc : endsNumber c) :
    scanNumber (formatInt i ++ c :: t) = some (formatInt i, c :: t) := by
  unfold formatInt
  by_cases hi : i < 0
  · rw [if_pos hi]
    obtain ⟨hall, _, d, ds, hd, hd1, hd2, hd3, hd4⟩ := decimal_spec i.natAbs
    have hpos : 0 < i.natAbs := by omega
    have h := scanNumber_digits d ds c t hd1 hd2 (fun h48 => by have := hd3 hpos; omega)
      (fun x hx => hall x (by rw [hd]; simp [hx])) hc
    rw [hd]
    unfold scanNumber at h ⊢
    have hhead : (45 :: (d :: ds) ++ c :: t).head? = some 45 := rfl
    have hhead2 : (d :: ds ++ c :: t).head? = some d := rfl
    have hne : ¬ (some d = some 45) := by simp; omega
    simp only [hhead, hhead2, if_neg hne, if_true, List.length_nil, List.drop_zero] at h ⊢
    have hdrop : List.drop [45].length (45 :: (d :: ds) ++ c :: t) = d :: ds ++ c :: t := rfl
    rw [hdrop]
    cases hsi : scanInt (d :: ds ++ c :: t) with
    | none => rw [hsi] at h; simp at h
    | some p =>
      rw [hsi] at h
      simp only [] at h ⊢
      cases hsf : scanFrac p.2 with
      | none => rw [hsf] at h; simp at h
      | some q =>
        rw [hsf] at h
        simp only [] at h ⊢
        cases hse : scanExp q.2 with
        | none => rw [hse] at h; simp at h
        | some w =>
          rw [hse] at h
          simp only [Option.some.injEq, Prod.mk.injEq, List.nil_append] at h ⊢
          obtain ⟨h1, h2⟩ := h
          refine ⟨?_, h2⟩
          rw [List.append_assoc, List.append_assoc] at *
          simp only [List.singleton_append, List.cons.injEq, true_and]
          exact h1
  · rw [if_neg hi]
    exact scanNumber_decimal _ c t hc

theorem parseInt64_formatInt (i : Int) (h1 : -(2 ^ 63 : Int) ≤ i) (h2 : i < 2 ^ 63) :
    parseInt64 (formatInt i) = some i := by
  unfold formatInt
  by_cases hi : i < 0
  · rw [if_pos hi]
    simp only [parseInt64, if_true, parseDigits_decimal]
    have hle : i.natAbs ≤ 2 ^ 63 := by omega
    rw [if_pos hle]
    congr 1
    omega
  · rw [if_neg hi]
    obtain ⟨_, _, d, ds, hd, hd1, hd2, _⟩ := decimal_spec i.natAbs
    have hpd := parseDigits_decimal i.natAbs
    rw [hd] at hpd ⊢
    simp only [parseInt64]
    rw [if_neg (by omega), if_neg (by omega), hpd]
    simp only []
    have hlt : i.natAbs < 2 ^ 63 := by omega
    rw [if_pos hlt]
    congr 1
    omega

theorem skipSpace_cons (c : Nat) (t : GoString) (h : isSpace c = false) :
    skipSpace (c :: t) = c :: t := by
  simp [skipSpace, h]

theorem encodeString_append (s rest : GoString) :
    encodeString s ++ rest = 34 :: (encodeStringBody s.length s ++ 34 :: rest) := by
  simp [encodeString]

/-- The text of a valid UTF-8 string is read back, whatever follows it. -/
theorem parseStringBody_encoded (s rest : GoString) (hv : validUTF8 s = true) :
    parseStringBody (encodeStringBody s.length s ++ 34 :: rest).length
      (encodeStringBody s.length s ++ 34 :: rest) = some (s, rest) :=
  parseStringBody_encodeStringBody s.length s _ rest (le_refl _)
    (by simp only [List.length_append, List.length_cons]; omega) hv

theorem parseValue_encodeString (f : Nat) (s rest : GoString) (hv : validUTF8 s = true) :
    parseValue (f + 1) (encodeString s ++ rest) = some (JValue.string s, rest) := by
  rw [encodeString_append]
  have h := parseStringBody_encoded s rest hv
  simp only [parseValue, h, if_true, if_false]
  rw [if_neg (by decide), if_neg (by decide)]

theorem parsesAs_encodeString (f : Nat) (s : GoString) (hv : validUTF8 s = true) :
    ParsesAs (f + 1) (encodeString s) (JValue.string s) := by
  intro c t _
  refine ⟨parseValue_encodeString f s _ hv, ?_⟩
  rw [encodeString_append]
  exact skipSpace_cons _ _ rfl

theorem parsesAs_digits (f : Nat) (text : GoString) (d : Nat) (ds : GoString)
    (htext : text = d :: ds) (hd : d = 45 ∨ (48 ≤ d ∧ d ≤ 57))
    (hscan : ∀ c t, endsNumber c → scanNumber (text ++ c :: t) = some (text, c :: t)) :
    ParsesAs (f + 1) text (JValue.number text) := by
  intro c t hc
  have hs := hscan c t hc
  subst htext
  constructor
  · show parseValue (f + 1) (d :: (ds ++ c :: t)) = _
    simp only [parseValue]
    rw [if_neg (by omega), if_neg (by omega), if_neg (by omega), if_neg (by omega),
      if_neg (by omega), if_neg (by omega)]
    have hs2 : scanNumber (d :: (ds ++ c :: t)) = some (d :: ds, c :: t) := hs
    rw [hs2]
  · refine skipSpace_cons _ _ ?_
    simp only [isSpace, decide_eq_false_iff_not]
    omega

theorem parsesAs_decimal (f n : Nat) : ParsesAs (f + 1) (decimal n) (JValue.number (decimal n)) := by
  obtain ⟨_, _, d, ds, hd, hd1, hd2, _⟩ := decimal_spec n
  exact parsesAs_digits f _ d ds hd (Or.inr ⟨hd1, hd2⟩) (fun c t hc => scanNumber_decimal n c t hc)

theorem parsesAs_formatInt (f : Nat) (i : Int) :
    ParsesAs (f + 1) (formatInt i) (JValue.number (formatInt i)) := by
  by_cases hi : i < 0
  · have hf : formatInt i = 45 :: decimal i.natAbs := by unfold formatInt; rw [if_pos hi]
    exact parsesAs_digits f _ 45 _ hf (Or.inl rfl) (fun c t hc => scanNumber_formatInt i c t hc)
  · have hf : formatInt i = decimal i.natAbs := by unfold formatInt; rw [if_neg hi]
    rw [hf]
    exact parsesAs_decimal f _

theorem parseMember_field (pv : GoString → Option (JValue × GoString)) (k text : GoString)
    (hk : validUTF8 k = true) (hs : skipSpace text = text) :
    parseMember pv (encodeString k ++ 58 :: text) =
      match pv text with
      | none => none
      | some (v, r) => some ((k, v), r) := by
  rw [encodeString_append]
  have h := parseStringBody_encoded k (58 :: text) hk
  simp only [parseMember, h, if_true]
  rw [skipSpace_cons 58 _ rfl]
  simp only [if_true, hs]

theorem encodeFields_head (m : GoString × GoString) (ms : List (GoString × GoString))
    (rest : GoString) : ∃ tail, encodeFields (m :: ms) ++ rest = 34 :: tail := by
  rcases m with ⟨k, v⟩
  rcases ms with _ | ⟨m2, ms⟩
  · exact ⟨_, by simp only [encodeFields]; rw [List.append_assoc, encodeString_append]⟩
  · exact ⟨_, by simp only [encodeFields]; rw [List.append_assoc, encodeString_append]⟩

theorem encodeFields_length (ms : List (GoString × GoString)) :
    ms.length ≤ (encodeFields ms).length := by
  induction ms with
  | nil => simp
  | cons m ms ih =>
    rcases m with ⟨k, v⟩
    rcases ms with _ | ⟨m2, ms⟩
    · simp [encodeFields, encodeString]
    · simp only [encodeFields, List.length_append, List.length_cons] at ih ⊢
      omega

/-- The fields of a struct are read back as the members of an object. -/
theorem parseSeq_encodeFields (f : Nat) :
    ∀ (ms : List (GoString × GoString × JValue)) (F : Nat) (rest : GoString), ms ≠ [] →
      ms.length ≤ F → (∀ m ∈ ms, validUTF8 m.1 = true ∧ ParsesAs f m.2.1 m.2.2) →
      parseSeq (parseMember (parseValue f)) 125 F
          (encodeFields (ms.map (fun m => (m.1, m.2.1))) ++ 125 :: rest) =
        some (ms.map (fun m => (m.1, m.2.2)), rest) := by
  intro ms
  induction ms with
  | nil => intro F rest h; exact absurd rfl h
  | cons m ms ih =>
    intro F rest _ hF hm
    obtain ⟨F, rfl⟩ : ∃ k, F = k + 1 := ⟨F - 1, by simp at hF; omega⟩
    rcases m with ⟨k, text, v⟩
    obtain ⟨hk, hp⟩ := hm (k, text, v) (by simp)
    rcases ms with _ | ⟨m2, ms⟩
    · obtain ⟨hpv, hsk⟩ := hp 125 rest (Or.inr rfl)
      simp only [List.map, encodeFields]
      rw [List.append_assoc]
      simp only [List.cons_append]
      simp only [parseSeq]
      rw [parseMember_field _ k _ hk hsk, hpv]
      simp only []
      rw [skipSpace_cons 125 _ rfl]
      simp
    · have ih2 := ih F rest (by simp) (by simp at hF ⊢; omega)
        (fun m hm' => hm m (by simp [hm']))
      obtain ⟨hpv, hsk⟩ := hp 44
        (encodeFields ((m2 :: ms).map (fun m => (m.1, m.2.1))) ++ 125 :: rest) (Or.inl rfl)
      obtain ⟨tail, htail⟩ := encodeFields_head (m2.1, m2.2.1)
        (ms.map (fun m => (m.1, m.2.1))) (125 :: rest)
      have hmap : (m2 :: ms).map (fun m => (m.1, m.2.1)) =
          (m2.1, m2.2.1) :: ms.map (fun m => (m.1, m.2.1)) := rfl
      have hsk2 : skipSpace (encodeFields ((m2 :: ms).map (fun m => (m.1, m.2.1))) ++
          125 :: rest) = encodeFields ((m2 :: ms).map (fun m => (m.1, m.2.1))) ++ 125 :: rest := by
        rw [hmap, htail]
        exact skipSpace_cons 34 _ rfl
      have hshape : encodeFields (((k, text, v) :: m2 :: ms).map (fun m => (m.1, m.2.1))) ++
          125 :: rest = encodeString k ++ 58 :: (text ++ 44 ::
            (encodeFields ((m2 :: ms).map (fun m => (m.1, m.2.1))) ++ 125 :: rest)) := by
        simp only [List.map, encodeFields, List.append_assoc, List.cons_append]
      rw [hshape]
      simp only [parseSeq]
      rw [parseMember_field _ k _ hk hsk, hpv]
      simp only []
      rw [skipSpace_cons 44 _ rfl]
      simp only [if_true]
      rw [hsk2, ih2]
      rfl

/-- A struct written by `Marshal` is read back as an object, whatever follows
it. -/
theorem parseValue_encodeObject (f : Nat) (ms : List (GoString × GoString × JValue))
    (rest : GoString) (hne : ms ≠ [])
    (hm : ∀ m ∈ ms, validUTF8 m.1 = true ∧ ParsesAs f m.2.1 m.2.2) :
    parseValue (f + 1) (encodeObject (ms.map (fun m => (m.1, m.2.1))) ++ rest) =
      some (JValue.object (ms.map (fun m => (m.1, m.2.2))), rest) := by
  have hshape : encodeObject (ms.map (fun m => (m.1, m.2.1))) ++ rest =
      123 :: (encodeFields (ms.map (fun m => (m.1, m.2.1))) ++ 125 :: rest) := by
    simp [encodeObject]
  rw [hshape]
  have hlen : ms.length ≤
      (encodeFields (ms.map (fun m => (m.1, m.2.1))) ++ 125 :: rest).length := by
    have := encodeFields_length (ms.map (fun m => (m.1, m.2.1)))
    simp only [List.length_map, List.length_append, List.length_cons] at this ⊢
    omega
  have hseq := parseSeq_encodeFields f ms _ rest hne hlen hm
  obtain ⟨m, ms', rfl⟩ : ∃ m ms', ms = m :: ms' := by
    rcases ms with _ | ⟨m, ms'⟩
    · exact absurd rfl hne
    · exact ⟨m, ms', rfl⟩
  obtain ⟨tail, htail⟩ := encodeFields_head (m.1, m.2.1) (ms'.map (fun m => (m.1, m.2.1)))
    (125 :: rest)
  have hmap : (m :: ms').map (fun m => (m.1, m.2.1)) =
      (m.1, m.2.1) :: ms'.map (fun m => (m.1, m.2.1)) := rfl
  rw [hmap] at hseq ⊢
  rw [htail] at hseq ⊢
  simp only [parseValue, if_true]
  rw [skipSpace_cons 34 _ rfl]
  simp only []
  rw [if_neg (by decide), hseq]

theorem parsesAs_encodeObject (f : Nat) (ms : List (GoString × GoString × JValue))
    (hne : ms ≠ []) (hm : ∀ m ∈ ms, validUTF8 m.1 = true ∧ ParsesAs f m.2.1 m.2.2) :
    ParsesAs (f + 1) (encodeObject (ms.map (fun m => (m.1, m.2.1))))
      (JValue.object (ms.map (fun m => (m.1, m.2.2)))) := by
  intro c t _
  refine ⟨parseValue_encodeObject f ms _ hne hm, ?_⟩
  exact skipSpace_cons 123 _ rfl

theorem encodeStrings_head (s : GoString) (ss : List GoString) (rest : GoString) :
    ∃ tail, encodeStrings (s :: ss) ++ rest = 34 :: tail := by
  rcases ss with _ | ⟨t, ss⟩
  · exact ⟨_, by simp only [encodeStrings]; rw [encodeString_append]⟩
  · exact ⟨_, by simp only [encodeStrings]; rw [List.append_assoc, encodeString_append]⟩

theorem encodeStrings_length (ss : List GoString) : ss.length ≤ (encodeStrings ss).length := by
  induction ss with
  | nil => simp
  | cons s ss ih =>
    rcases ss with _ | ⟨t, ss⟩
    · simp [encodeStrings, encodeString]
    · simp only [encodeStrings, List.length_append, List.length_cons] at ih ⊢
      omega

/-- The items of a `[]string` are read back as the items of an array. -/
theorem parseSeq_encodeStrings (f : Nat) :
    ∀ (ss : List GoString) (F : Nat) (rest : GoString), ss ≠ [] → ss.length ≤ F →
      (∀ s ∈ ss, validUTF8 s = true) →
      parseSeq (parseValue (f + 1)) 93 F (encodeStrings ss ++ 93 :: rest) =
        some (ss.map JValue.string, rest) := by
  intro ss
  induction ss with
  | nil => intro F rest h; exact absurd rfl h
  | cons s ss ih =>
    intro F rest _ hF hv
    obtain ⟨F, rfl⟩ : ∃ k, F = k + 1 := ⟨F - 1, by simp at hF; omega⟩
    have hs := hv s (by simp)
    rcases ss with _ | ⟨t, ss⟩
    · simp only [encodeStrings, List.map]
      simp only [parseSeq]
      rw [parseValue_encodeString f s _ hs]
      simp only []
      rw [skipSpace_cons 93 _ rfl]
      simp
    · have ih2 := ih F rest (by simp) (by simp at hF ⊢; omega) (fun x hx => hv x (by simp [hx]))
      obtain ⟨tail, htail⟩ := encodeStrings_head t ss (93 :: rest)
      have hshape : encodeStrings (s :: t :: ss) ++ 93 :: rest =
          encodeString s ++ 44 :: (encodeStrings (t :: ss) ++ 93 :: rest) := by
        simp only [encodeStrings, List.append_assoc, List.cons_append]
      rw [hshape]
      simp only [parseSeq]
      rw [parseValue_encodeString f s _ hs]
      simp only []
      rw [skipSpace_cons 44 _ rfl]
      simp only [if_true]
      have hsk : skipSpace (encodeStrings (t :: ss) ++ 93 :: rest) =
          encodeStrings (t :: ss) ++ 93 :: rest := by
        rw [htail]; exact skipSpace_cons 34 _ rfl
      rw [hsk, ih2]
      rfl

theorem parseValue_array_unfold (g d : Nat) (tail : GoString) (hd : isSpace d = false)
    (h93 : d ≠ 93) :
    parseValue (g + 1) (91 :: d :: tail) =
      match parseSeq (parseValue g) 93 (d :: tail).length (d :: tail) with
      | none => none
      | some (vs, r) => some (JValue.array vs, r) := by
  simp only [parseValue, if_true]
  rw [if_neg (by decide), skipSpace_cons d _ hd]
  simp only []
  rw [if_neg h93]

/-- The JSON value `Marshal` writes for a `[]string`. -/
theorem parsesAs_marshalStrings (f : Nat) (ts : Option (List GoString))
    (hv : ∀ ss, ts = some ss → ∀ s ∈ ss, validUTF8 s = true) :
    ParsesAs (f + 2) (marshalStrings ts)
      (stringsValue ts) := by
  intro c t _
  rcases ts with _ | ss
  · constructor
    · simp [marshalStrings, ascii, parseValue, dropWord, stringsValue]
    · exact skipSpace_cons 110 _ rfl
  · constructor
    · rcases ss with _ | ⟨s, ss⟩
      · simp [marshalStrings, encodeStrings, parseValue, skipSpace, isSpace, stringsValue]
      · have hshape : marshalStrings (some (s :: ss)) ++ c :: t =
            91 :: (encodeStrings (s :: ss) ++ 93 :: c :: t) := by
          simp [marshalStrings]
        rw [hshape]
        have hlen : (s :: ss).length ≤ (encodeStrings (s :: ss) ++ 93 :: c :: t).length := by
          have := encodeStrings_length (s :: ss)
          simp only [List.length_append, List.length_cons] at this ⊢
          omega
        have hseq := parseSeq_encodeStrings f (s :: ss) _ (c :: t) (by simp) hlen (hv _ rfl)
        obtain ⟨tail, htail⟩ := encodeStrings_head s ss (93 :: c :: t)
        rw [htail] at hseq ⊢
        rw [parseValue_array_unfold (f + 1) 34 tail rfl (by decide), hseq]
        rfl
    · exact skipSpace_cons 91 _ rfl

theorem bindStringItems_strings (old : List GoString) :
    ∀ (ss : List GoString) (i : Nat),
      bindStringItems old i (ss.map JValue.string) = some ss := by
  intro ss
  induction ss with
  | nil => intro i; rfl
  | cons s ss ih =>
    intro i
    simp only [List.map, bindStringItems, bindString, ih (i + 1)]

/-- Storing what `Marshal` wrote for a `[]string` into a nil slice gives the
slice back. -/
theorem bindStrings_marshalled (ts : Option (List GoString)) :
    ∃ backing, bindStrings { slice := none, backing := [] }
      (stringsValue ts) =
      some { slice := ts, backing := backing } := by
  rcases ts with _ | ss
  · exact ⟨[], rfl⟩
  · rcases ss with _ | ⟨s, ss⟩
    · exact ⟨[], rfl⟩
    · refine ⟨(s :: ss) ++ List.drop (s :: ss).length [], ?_⟩
      simp only [stringsValue, List.map, bindStrings]
      have h := bindStringItems_strings [] (s :: ss) 0
      simp only [List.map] at h
      rw [h]

theorem jsonParse_of_parseValue (text : GoString) (v : JValue) (hlen : 2 ≤ text.length)
    (hs : skipSpace text = text)
    (h : ∀ f, parseValue (f + 3) text = some (v, [])) : jsonParse text = some v := by
  unfold jsonParse
  obtain ⟨f, hf⟩ : ∃ f, text.length + 1 = f + 3 := ⟨text.length - 2, by omega⟩
  rw [hs, hf, h f]
  simp [skipSpace]

theorem encodeObject_shape (fields : List (GoString × GoString)) :
    2 ≤ (encodeObject fields).length ∧ skipSpace (encodeObject fields) = encodeObject fields := by
  constructor
  · simp [encodeObject]
  · exact skipSpace_cons 123 _ rfl

theorem validUTF8_names :
    validUTF8 (ascii "ID") = true ∧ validUTF8 (ascii "Address") = true ∧
    validUTF8 (ascii "Output") = true ∧ validUTF8 (ascii "Cause") = true ∧
    validUTF8 (ascii "Data") = true ∧ validUTF8 (ascii "Topics") = true ∧
    validUTF8 (ascii "errorCode") = true ∧ validUTF8 (ascii "description") = true := by
  decide

theorem keyMatches_names :
    keyMatches "ID" (ascii "ID") = true ∧ keyMatches "Address" (ascii "ID") = false ∧
    keyMatches "ID" (ascii "Address") = false ∧ keyMatches "Address" (ascii "Address") = true ∧
    keyMatches "ID" (ascii "Output") = false ∧ keyMatches "Address" (ascii "Output") = false ∧
    keyMatches "Output" (ascii "Output") = true ∧
    keyMatches "ID" (ascii "Cause") = false ∧ keyMatches "Cause" (ascii "Cause") = true ∧
    keyMatches "ID" (ascii "Data") = false ∧ keyMatches "Data" (ascii "Data") = true ∧
    keyMatches "ID" (ascii "Topics") = false ∧ keyMatches "Data" (ascii "Topics") = false ∧
    keyMatches "Topics" (ascii "Topics") = true ∧
    keyMatches "errorCode" (ascii "errorCode") = true ∧
    keyMatches "errorCode" (ascii "description") = false ∧
    keyMatches "description" (ascii "description") = true := by
  decide

theorem unmarshal_marshalDeployServiceResponse (ev : DeployServiceResponse)
    (hid : ev.ID < 2 ^ 64) (ha : validUTF8 ev.Address = true) :
    unmarshalDeployServiceResponse (marshalDeployServiceResponse ev) = Except.ok ev := by
  have hn := validUTF8_names
  have hk := keyMatches_names
  have hparse : jsonParse (marshalDeployServiceResponse ev) = some (JValue.object
      [(ascii "ID", JValue.number (decimal ev.ID)), (ascii "Address", JValue.string ev.Address)]) :=
    jsonParse_of_parseValue _ _ (encodeObject_shape _).1 (encodeObject_shape _).2 (fun f => by
      have h := parseValue_encodeObject (f + 2)
        [(ascii "ID", decimal ev.ID, JValue.number (decimal ev.ID)),
         (ascii "Address", encodeString ev.Address, JValue.string ev.Address)] [] (by simp)
        (by
          intro m hm
          simp only [List.mem_cons, List.mem_singleton, List.not_mem_nil, or_false] at hm
          rcases hm with rfl | rfl
          · exact ⟨hn.1, parsesAs_decimal _ _⟩
          · exact ⟨hn.2.1, parsesAs_encodeString _ _ ha⟩)
      simpa [marshalDeployServiceResponse] using h)
  unfold unmarshalDeployServiceResponse jsonUnmarshal
  rw [hparse]
  simp [bindDeployMembers, hk, bindUint64, bindString, parseUint64_decimal ev.ID hid]

theorem unmarshal_marshalExecuteServiceResponse (ev : ExecuteServiceResponse)
    (hid : ev.ID < 2 ^ 64) (ha : validUTF8 ev.Address = true) (ho : validUTF8 ev.Output = true) :
    unmarshalExecuteServiceResponse (marshalExecuteServiceResponse ev) = Except.ok ev := by
  have hn := validUTF8_names
  have hk := keyMatches_names
  have hparse : jsonParse (marshalExecuteServiceResponse ev) = some (JValue.object
      [(ascii "ID", JValue.number (decimal ev.ID)), (ascii "Address", JValue.string ev.Address),
       (ascii "Output", JValue.string ev.Output)]) :=
    jsonParse_of_parseValue _ _ (encodeObject_shape _).1 (encodeObject_shape _).2 (fun f => by
      have h := parseValue_encodeObject (f + 2)
        [(ascii "ID", decimal ev.ID, JValue.number (decimal ev.ID)),
         (ascii "Address", encodeString ev.Address, JValue.string ev.Address),
         (ascii "Output", encodeString ev.Output, JValue.string ev.Output)] [] (by simp)
        (by
          intro m hm
          simp only [List.mem_cons, List.mem_singleton, List.not_mem_nil, or_false] at hm
          rcases hm with rfl | rfl | rfl
          · exact ⟨hn.1, parsesAs_decimal _ _⟩
          · exact ⟨hn.2.1, parsesAs_encodeString _ _ ha⟩
          · exact ⟨hn.2.2.1, parsesAs_encodeString _ _ ho⟩)
      simpa [marshalExecuteServiceResponse] using h)
  unfold unmarshalExecuteServiceResponse jsonUnmarshal
  rw [hparse]
  simp [bindExecuteMembers, hk, bindUint64, bindString, parseUint64_decimal ev.ID hid]

theorem parsesAs_marshalRpcError (f : Nat) (c : RpcError)
    (hd : validUTF8 c.Description = true) :
    ParsesAs (f + 2) (marshalRpcError c) (JValue.object
      [(ascii "errorCode", JValue.number (formatInt c.ErrorCode)),
       (ascii "description", JValue.string c.Description)]) := by
  have hn := validUTF8_names
  have h := parsesAs_encodeObject (f + 1)
    [(ascii "errorCode", formatInt c.ErrorCode, JValue.number (formatInt c.ErrorCode)),
     (ascii "description", encodeString c.Description, JValue.string c.Description)] (by simp)
    (by
      intro m hm
      simp only [List.mem_cons, List.mem_singleton, List.not_mem_nil, or_false] at hm
      rcases hm with rfl | rfl
      · exact ⟨hn.2.2.2.2.2.2.1, parsesAs_formatInt _ _⟩
      · exact ⟨hn.2.2.2.2.2.2.2, parsesAs_encodeString _ _ hd⟩)
  simpa [marshalRpcError] using h

theorem unmarshal_marshalErrorEvent (ev : ErrorEvent)
    (hid : ev.ID < 2 ^ 64) (h1 : -(2 ^ 63 : Int) ≤ ev.Cause.ErrorCode)
    (h2 : ev.Cause.ErrorCode < 2 ^ 63) (hd : validUTF8 ev.Cause.Description = true) :
    unmarshalErrorEvent (marshalErrorEvent ev) = Except.ok ev := by
  have hn := validUTF8_names
  have hk := keyMatches_names
  have hparse : jsonParse (marshalErrorEvent ev) = some (JValue.object
      [(ascii "ID", JValue.number (decimal ev.ID)),
       (ascii "Cause", JValue.object
        [(ascii "errorCode", JValue.number (formatInt ev.Cause.ErrorCode)),
         (ascii "description", JValue.string ev.Cause.Description)])]) :=
    jsonParse_of_parseValue _ _ (encodeObject_shape _).1 (encodeObject_shape _).2 (fun f => by
      have h := parseValue_encodeObject (f + 2)
        [(ascii "ID", decimal ev.ID, JValue.number (decimal ev.ID)),
         (ascii "Cause", marshalRpcError ev.Cause, JValue.object
          [(ascii "errorCode", JValue.number (formatInt ev.Cause.ErrorCode)),
           (ascii "description", JValue.string ev.Cause.Description)])] [] (by simp)
        (by
          intro m hm
          simp only [List.mem_cons, List.mem_singleton, List.not_mem_nil, or_false] at hm
          rcases hm with rfl | rfl
          · exact ⟨hn.1, parsesAs_decimal _ _⟩
          · exact ⟨hn.2.2.2.1, parsesAs_marshalRpcError _ _ hd⟩)
      simpa [marshalErrorEvent] using h)
  unfold unmarshalErrorEvent jsonUnmarshal
  rw [hparse]
  simp [bindErrorMembers, hk, bindUint64, bindRpcError, bindRpcErrorMembers, bindInt, bindString,
    parseUint64_decimal ev.ID hid, parseInt64_formatInt ev.Cause.ErrorCode h1 h2]

theorem unmarshal_marshalDataEvent (ev : DataEvent)
    (hid : ev.ID < 2 ^ 64) (hd : validUTF8 ev.Data = true)
    (ht : ∀ ts, ev.Topics = some ts → ∀ t ∈ ts, validUTF8 t = true) :
    unmarshalDataEvent (marshalDataEvent ev) = Except.ok ev := by
  have hn := validUTF8_names
  have hk := keyMatches_names
  have hparse : jsonParse (marshalDataEvent ev) = some (JValue.object
      [(ascii "ID", JValue.number (decimal ev.ID)), (ascii "Data", JValue.string ev.Data),
       (ascii "Topics", stringsValue ev.Topics)]) :=
    jsonParse_of_parseValue _ _ (encodeObject_shape _).1 (encodeObject_shape _).2 (fun f => by
      have h := parseValue_encodeObject (f + 2)
        [(ascii "ID", decimal ev.ID, JValue.number (decimal ev.ID)),
         (ascii "Data", encodeString ev.Data, JValue.string ev.Data),
         (ascii "Topics", marshalStrings ev.Topics, stringsValue ev.Topics)] [] (by simp)
        (by
          intro m hm
          simp only [List.mem_cons, List.mem_singleton, List.not_mem_nil, or_false] at hm
          rcases hm with rfl | rfl | rfl
          · exact ⟨hn.1, parsesAs_decimal _ _⟩
          · exact ⟨hn.2.2.2.2.1, parsesAs_encodeString _ _ hd⟩
          · exact ⟨hn.2.2.2.2.2.1, parsesAs_marshalStrings _ _ ht⟩)
      simpa [marshalDataEvent] using h)
  obtain ⟨backing, hb⟩ := bindStrings_marshalled ev.Topics
  unfold unmarshalDataEvent jsonUnmarshal
  rw [hparse]
  simp [bindDataMembers, hk, bindUint64, bindString, parseUint64_decimal ev.ID hid, hb]

/-- C3 (as amended): for every event of the four variants whose fields hold
values of their Go types and whose strings are valid UTF-8, and every offset,
`makeElement` succeeds with an element that `deserializeElement` turns back
into the same event. -/
theorem makeElement_deserializeElement (e : Event) (o : Nat) (h : e.wellFormed) :
    ∃ el, makeElement e o = Except.ok el ∧ el.Offset = o ∧ el.Typ = e.EventType ∧
      deserializeElement el = Except.ok e := by
  refine ⟨_, rfl, rfl, rfl, ?_⟩
  cases e with
  | DeployServiceResponse ev =>
    obtain ⟨h1, h2⟩ := h
    simp [deserializeElement, Event.EventType, jsonMarshal,
      unmarshal_marshalDeployServiceResponse ev h1 h2]
  | ExecuteServiceResponse ev =>
    obtain ⟨h1, h2, h3⟩ := h
    have hne : ExecuteServiceEventType ≠ DeployServiceEventType := by decide
    simp [deserializeElement, Event.EventType, jsonMarshal, hne,
      unmarshal_marshalExecuteServiceResponse ev h1 h2 h3]
  | ErrorEvent ev =>
    obtain ⟨h1, h2, h3, h4⟩ := h
    have hne1 : ErrorEventType ≠ DeployServiceEventType := by decide
    have hne2 : ErrorEventType ≠ ExecuteServiceEventType := by decide
    simp [deserializeElement, Event.EventType, jsonMarshal, hne1, hne2,
      unmarshal_marshalErrorEvent ev h1 h2 h3 h4]
  | DataEvent ev =>
    obtain ⟨h1, h2, h3⟩ := h
    have hne1 : DataEventType ≠ DeployServiceEventType := by decide
    have hne2 : DataEventType ≠ ExecuteServiceEventType := by decide
    have hne3 : DataEventType ≠ ErrorEventType := by decide
    have h3b : ∀ ts, ev.Topics = some ts → ∀ t ∈ ts, validUTF8 t = true := by
      intro ts hts t ht
      exact h3 t (by rw [hts]; exact ht)
    simp [deserializeElement, Event.EventType, jsonMarshal, hne1, hne2, hne3,
      unmarshal_marshalDataEvent ev h1 h2 h3b]

/-- Witness of C3 as amended: a data event with an escaped byte and two
topics. -/
theorem makeElement_deserializeElement_witness :
    (Event.DataEvent { ID := 3, Data := ascii "a<b", Topics := some [ascii "x", ascii "y"] }
      ).wellFormed ∧
    ∃ el, makeElement (Event.DataEvent
        { ID := 3, Data := ascii "a<b", Topics := some [ascii "x", ascii "y"] }) 9 =
        Except.ok el ∧ el.Offset = 9 ∧ el.Typ = DataEventType ∧
      deserializeElement el = Except.ok (Event.DataEvent
        { ID := 3, Data := ascii "a<b", Topics := some [ascii "x", ascii "y"] }) :=
  ⟨⟨by decide, by decide, by decide⟩,
    makeElement_deserializeElement (Event.DataEvent
      { ID := 3, Data := ascii "a<b", Topics := some [ascii "x", ascii "y"] }) 9
      ⟨by decide, by decide, by decide⟩⟩

/-- C3 fails as stated: an address holding the byte 0xFF, which is not valid
UTF-8, comes back from the codec as the three bytes of U+FFFD. -/
theorem makeElement_deserializeElement_counterexample :
    makeElement (Event.DeployServiceResponse { ID := 0, Address := [255] }) 0 =
      Except.ok { Offset := 0, Typ := DeployServiceEventType,
                  Value := ascii "\x7b\"ID\":0,\"Address\":\"\\ufffd\"\x7d" } ∧
    deserializeElement { Offset := 0, Typ := DeployServiceEventType,
                         Value := ascii "\x7b\"ID\":0,\"Address\":\"\\ufffd\"\x7d" } =
      Except.ok (Event.DeployServiceResponse { ID := 0, Address := [0xEF, 0xBF, 0xBD] }) ∧
    Event.DeployServiceResponse { ID := 0, Address := [0xEF, 0xBF, 0xBD] } ≠
      Event.DeployServiceResponse { ID := 0, Address := [255] } := by
  refine ⟨rfl, rfl, by decide⟩

/-- C4: `deserializeElement` fails with `ErrUnkownEventType` exactly when the
type of the element is none of the four tags; under one of the four tags it
fails only with `ErrDeserializeEvent`, exactly when `json.Unmarshal` of the
value into that tag's variant fails, and otherwise returns the decoded event of
that variant. -/
theorem deserializeElement_cases (el : Element) :
    (deserializeElement el = Except.error (GoError.ErrNil ErrorCode.ErrUnkownEventType) ↔
      (el.Typ ≠ DeployServiceEventType ∧ el.Typ ≠ ExecuteServiceEventType ∧
        el.Typ ≠ ErrorEventType ∧ el.Typ ≠ DataEventType)) ∧
    (el.Typ = DeployServiceEventType →
      deserializeElement el =
        match unmarshalDeployServiceResponse el.Value with
        | Except.error err => Except.error (GoError.Err ErrorCode.ErrDeserializeEvent err)
        | Except.ok ev => Except.ok (Event.DeployServiceResponse ev)) ∧
    (el.Typ = ExecuteServiceEventType →
      deserializeElement el =
        match unmarshalExecuteServiceResponse el.Value with
        | Except.error err => Except.error (GoError.Err ErrorCode.ErrDeserializeEvent err)
        | Except.ok ev => Except.ok (Event.ExecuteServiceResponse ev)) ∧
    (el.Typ = ErrorEventType →
      deserializeElement el =
        match unmarshalErrorEvent el.Value with
        | Except.error err => Except.error (GoError.Err ErrorCode.ErrDeserializeEvent err)
        | Except.ok ev => Except.ok (Event.ErrorEvent ev)) ∧
    (el.Typ = DataEventType →
      deserializeElement el =
        match unmarshalDataEvent el.Value with
        | Except.error err => Except.error (GoError.Err ErrorCode.ErrDeserializeEvent err)
        | Except.ok ev => Except.ok (Event.DataEvent ev)) := by
  have hne1 : ExecuteServiceEventType ≠ DeployServiceEventType := by decide
  have hne2 : ErrorEventType ≠ DeployServiceEventType := by decide
  have hne3 : ErrorEventType ≠ ExecuteServiceEventType := by decide
  have hne4 : DataEventType ≠ DeployServiceEventType := by decide
  have hne5 : DataEventType ≠ ExecuteServiceEventType := by decide
  have hne6 : DataEventType ≠ ErrorEventType := by decide
  refine ⟨?_, ?_, ?_, ?_, ?_⟩
  · unfold deserializeElement
    constructor
    · intro h
      split_ifs at h with a b c d
      · cases hu : unmarshalDeployServiceResponse el.Value <;> rw [hu] at h <;>
          simp [errorsNew] at h
      · cases hu : unmarshalExecuteServiceResponse el.Value <;> rw [hu] at h <;>
          simp [errorsNew] at h
      · cases hu : unmarshalErrorEvent el.Value <;> rw [hu] at h <;> simp [errorsNew] at h
      · cases hu : unmarshalDataEvent el.Value <;> rw [hu] at h <;> simp [errorsNew] at h
      · exact ⟨a, b, c, d⟩
    · rintro ⟨a, b, c, d⟩
      rw [if_neg a, if_neg b, if_neg c, if_neg d]
      rfl
  · intro h
    unfold deserializeElement
    rw [if_pos h]
    cases unmarshalDeployServiceResponse el.Value <;> rfl
  · intro h
    unfold deserializeElement
    rw [if_neg (by rw [h]; exact hne1), if_pos h]
    cases unmarshalExecuteServiceResponse el.Value <;> rfl
  · intro h
    unfold deserializeElement
    rw [if_neg (by rw [h]; exact hne2), if_neg (by rw [h]; exact hne3), if_pos h]
    cases unmarshalErrorEvent el.Value <;> rfl
  · intro h
    unfold deserializeElement
    rw [if_neg (by rw [h]; exact hne4), if_neg (by rw [h]; exact hne5),
      if_neg (by rw [h]; exact hne6), if_pos h]
    cases unmarshalDataEvent el.Value <;> rfl

/-! ### Wallet owner -/

/-- C8: whenever `EstimateGas` answers the sentinel 2251799813685248 without
error, `executeTransaction` fails with an `ErrEstimateGas` error, the only call
it makes is that `EstimateGas` (no transaction is signed and `SendTransaction`
is not called), and the owner's nonce is unchanged. -/
theorem executeTransaction_gas_sentinel (sv : WalletOwnerServices) (e : WalletOwner)
    (req : ExecuteRequest)
    (hgas : sv.client.EstimateGas e.calls (WalletOwner.callMsg sv req.Address req.Data) =
      Except.ok 2251799813685248) :
    (∃ cause, (WalletOwner.executeTransaction sv e req).1 =
      Except.error (GoError.Err ErrorCode.ErrEstimateGas cause)) ∧
    (WalletOwner.executeTransaction sv e req).2.nonce = e.nonce ∧
    (WalletOwner.executeTransaction sv e req).2.calls =
      e.calls ++ [Call.EstimateGas (WalletOwner.callMsg sv req.Address req.Data)] ∧
    (∀ c ∈ (WalletOwner.executeTransaction sv e req).2.calls.drop e.calls.length,
      c.isSend = false ∧ c.isSign = false) := by
  have hex : WalletOwner.executeTransaction sv e req =
      (Except.error (GoError.Err ErrorCode.ErrEstimateGas (GoError.other
        (ascii "gas estimation could not be completed because of execution failure"))),
       e.record (Call.EstimateGas (WalletOwner.callMsg sv req.Address req.Data))) := by
    simp [WalletOwner.executeTransaction, WalletOwner.estimateGas, hgas,
      WalletOwner.gasSentinel, errorsNew]
  rw [hex]
  refine ⟨⟨_, rfl⟩, rfl, rfl, ?_⟩
  intro c hc
  simp [WalletOwner.record] at hc
  subst hc
  exact ⟨rfl, rfl⟩

/-- Witness of C8: an owner at nonce 7 whose chain client answers the
sentinel. -/
theorem executeTransaction_gas_sentinel_witness :
    (∃ cause, (WalletOwner.executeTransaction
        (scriptedServices (Except.ok 2251799813685248) (fun _ => Except.ok [])
          (fun _ => Except.ok okResponse) (Except.ok 9) (Except.ok { ContractAddress := [] }))
        (WalletOwner.NewWalletOwner 7) callRequest).1 =
      Except.error (GoError.Err ErrorCode.ErrEstimateGas cause)) :=
  (executeTransaction_gas_sentinel
    (scriptedServices (Except.ok 2251799813685248) (fun _ => Except.ok [])
      (fun _ => Except.ok okResponse) (Except.ok 9) (Except.ok { ContractAddress := [] }))
    (WalletOwner.NewWalletOwner 7) callRequest rfl).1

/-- C9: when gas estimation and signing succeed and the first
`SendTransaction` returns an error other than `ErrInvalidNonce`,
`executeTransaction` fails with an `ErrSendTransaction` error caused by it,
`SendTransaction` is called exactly once, `NonceAt` is not called, and the
`WalletOutOfFunds` callback is invoked exactly once when the error is
`ErrExceedsBalance` and not at all otherwise. -/
theorem executeTransaction_terminal_send_error (sv : WalletOwnerServices) (e : WalletOwner)
    (req : ExecuteRequest) (gas : Nat) (sig : GoString) (err : GoError)
    (hgas : sv.client.EstimateGas e.calls (WalletOwner.callMsg sv req.Address req.Data) =
      Except.ok gas)
    (hne : gas ≠ 2251799813685248)
    (hsign : sv.wallet.Sign
        (e.calls ++ [Call.EstimateGas (WalletOwner.callMsg sv req.Address req.Data)])
        (WalletOwner.newTransaction sv (WalletOwner.toSendRequest req gas) gas e.nonce) =
      Except.ok sig)
    (hsend : sv.client.SendTransaction
        (e.calls ++ [Call.EstimateGas (WalletOwner.callMsg sv req.Address req.Data)] ++
          [Call.SignTransaction
            (WalletOwner.newTransaction sv (WalletOwner.toSendRequest req gas) gas e.nonce)])
        ((WalletOwner.newTransaction sv (WalletOwner.toSendRequest req gas) gas
          e.nonce).withSignature sig) = Except.error err)
    (herr : err ≠ GoError.ErrInvalidNonce) :
    (WalletOwner.executeTransaction sv e req).1 =
      Except.error (GoError.Err ErrorCode.ErrSendTransaction err) ∧
    (((WalletOwner.executeTransaction sv e req).2.calls.drop e.calls.length).filter
      Call.isSend).length = 1 ∧
    (((WalletOwner.executeTransaction sv e req).2.calls.drop e.calls.length).filter
      Call.isNonceAt).length = 0 ∧
    (((WalletOwner.executeTransaction sv e req).2.calls.drop e.calls.length).filter
      Call.isOutOfFunds).length = (if err = GoError.ErrExceedsBalance then 1 else 0) := by
  have hne2 : gas ≠ WalletOwner.gasSentinel := hne
  cases err <;>
    simp_all [WalletOwner.executeTransaction, WalletOwner.estimateGas, WalletOwner.sendTransaction,
      RetryWithConfig, RetryWithAttempts, WalletOwner.retryConfig, WalletOwner.supplier,
      WalletOwner.generateAndSignTransaction, WalletOwner.transactionNonce, WalletOwner.record,
      errorsNew, GoError.isErr, Call.isSend, Call.isNonceAt, Call.isOutOfFunds,
      List.filter_cons, List.filter_nil, WalletOwner.toSendRequest]

/-- What `executeTransaction` does once gas is estimated and the transaction
submitted: the status check, then the receipt of a contract creation. -/
theorem executeTransaction_after_send (sv : WalletOwnerServices) (e e1 e2 : WalletOwner)
    (req : ExecuteRequest) (gas : Nat) (res : SendTransactionResponse)
    (hest : WalletOwner.estimateGas sv e req.ID req.Address req.Data = (Except.ok gas, e1))
    (hsub : WalletOwner.sendTransaction sv e1 (WalletOwner.toSendRequest req gas) =
      (Except.ok res, e2)) :
    WalletOwner.executeTransaction sv e req =
      if res.Status ≠ WalletOwner.StatusOK then
        (Except.error (errorsNew
          (ErrorCode.NewErrorCode ErrorCategory.InternalError 1000
            (WalletOwner.statusMessage res.Status (hexutilDecode res.Output).1))
          (some (GoError.other
            (WalletOwner.statusMessage res.Status (hexutilDecode res.Output).1)))), e2)
      else if req.Address.length = 0 then
        match sv.client.TransactionReceipt e2.calls (sv.HexToHash res.Hash) with
        | Except.error err =>
          (Except.error (errorsNew ErrorCode.ErrTransactionReceipt (some err)),
            e2.record (Call.TransactionReceipt (sv.HexToHash res.Hash)))
        | Except.ok receipt =>
          (Except.ok { Address := sv.AddressHex receipt.ContractAddress, Output := res.Output,
                       Hash := res.Hash },
            e2.record (Call.TransactionReceipt (sv.HexToHash res.Hash)))
      else
        (Except.ok { Address := req.Address, Output := res.Output, Hash := res.Hash }, e2) := by
  unfold WalletOwner.executeTransaction
  rw [hest]
  simp only []
  rw [hsub]

/-- A successful gas estimation records its call and changes nothing else. -/
theorem estimateGas_ok (sv : WalletOwnerServices) (e : WalletOwner) (req : ExecuteRequest)
    (gas : Nat)
    (hgas : sv.client.EstimateGas e.calls (WalletOwner.callMsg sv req.Address req.Data) =
      Except.ok gas)
    (hne : gas ≠ 2251799813685248) :
    WalletOwner.estimateGas sv e req.ID req.Address req.Data =
      (Except.ok gas, e.record (WalletOwner.estimateCall sv req)) := by
  have hne2 : gas ≠ WalletOwner.gasSentinel := hne
  simp [WalletOwner.estimateGas, hgas, hne2, WalletOwner.estimateCall]

/-- The nonces sent in a record of calls made of two parts. -/
theorem sentNonces_append (a b : List Call) :
    sentNonces (a ++ b) = sentNonces a ++ sentNonces b := by
  induction a with
  | nil => rfl
  | cons c cs ih => cases c <;> simp [sentNonces, ih]

/-- The transaction built for a nonce carries that nonce, signed or not. -/
theorem txFor_nonce (sv : WalletOwnerServices) (req : ExecuteRequest) (gas n : Nat) :
    (WalletOwner.txFor sv req gas n).nonce = n ∧
    ∀ sig, ((WalletOwner.txFor sv req gas n).withSignature sig).nonce = n := by
  unfold WalletOwner.txFor WalletOwner.newTransaction Transaction.withSignature
  split <;> simp

/-- C5 (as amended): in the nonce-recovery scenario (gas estimation succeeds,
both signings succeed, the first `SendTransaction` returns `ErrInvalidNonce`,
`NonceAt` then returns `m`, the second `SendTransaction` returns a response),
the transactions handed to `SendTransaction` carry the nonces `n` then `m` and
the owner's nonce ends at `m + 1` (a `uint64` sum); `executeTransaction` succeeds
when moreover the response has status 1 and, for a contract creation, the
receipt is fetched. -/
theorem executeTransaction_nonce_recovery (sv : WalletOwnerServices) (e : WalletOwner)
    (req : ExecuteRequest) (gas m : Nat) (sig1 sig2 : GoString) (res : SendTransactionResponse)
    (hgas : sv.client.EstimateGas e.calls (WalletOwner.callMsg sv req.Address req.Data) =
      Except.ok gas)
    (hne : gas ≠ 2251799813685248)
    (hsign1 : sv.wallet.Sign (e.calls ++ [WalletOwner.estimateCall sv req])
        (WalletOwner.txFor sv req gas e.nonce) = Except.ok sig1)
    (hsend1 : sv.client.SendTransaction
        (e.calls ++ [WalletOwner.estimateCall sv req,
          Call.SignTransaction (WalletOwner.txFor sv req gas e.nonce)])
        ((WalletOwner.txFor sv req gas e.nonce).withSignature sig1) =
      Except.error GoError.ErrInvalidNonce)
    (hnonce : sv.client.NonceAt
        (e.calls ++ [WalletOwner.estimateCall sv req,
          Call.SignTransaction (WalletOwner.txFor sv req gas e.nonce),
          Call.SendTransaction ((WalletOwner.txFor sv req gas e.nonce).withSignature sig1)])
        (WalletOwner.nonceAddress sv) = Except.ok m)
    (hsign2 : sv.wallet.Sign
        (e.calls ++ [WalletOwner.estimateCall sv req,
          Call.SignTransaction (WalletOwner.txFor sv req gas e.nonce),
          Call.SendTransaction ((WalletOwner.txFor sv req gas e.nonce).withSignature sig1),
          Call.NonceAt (WalletOwner.nonceAddress sv)])
        (WalletOwner.txFor sv req gas m) = Except.ok sig2)
    (hsend2 : sv.client.SendTransaction
        (e.calls ++ [WalletOwner.estimateCall sv req,
          Call.SignTransaction (WalletOwner.txFor sv req gas e.nonce),
          Call.SendTransaction ((WalletOwner.txFor sv req gas e.nonce).withSignature sig1),
          Call.NonceAt (WalletOwner.nonceAddress sv),
          Call.SignTransaction (WalletOwner.txFor sv req gas m)])
        ((WalletOwner.txFor sv req gas m).withSignature sig2) = Except.ok res) :
    sentNonces ((WalletOwner.executeTransaction sv e req).2.calls.drop e.calls.length) =
      [e.nonce, m] ∧
    (WalletOwner.executeTransaction sv e req).2.nonce = (m + 1) % 2 ^ 64 ∧
    (res.Status = 1 →
      (req.Address.length = 0 →
        ∃ receipt, sv.client.TransactionReceipt
          (e.calls ++ [WalletOwner.estimateCall sv req,
            Call.SignTransaction (WalletOwner.txFor sv req gas e.nonce),
            Call.SendTransaction ((WalletOwner.txFor sv req gas e.nonce).withSignature sig1),
            Call.NonceAt (WalletOwner.nonceAddress sv),
            Call.SignTransaction (WalletOwner.txFor sv req gas m),
            Call.SendTransaction ((WalletOwner.txFor sv req gas m).withSignature sig2)])
          (sv.HexToHash res.Hash) = Except.ok receipt) →
      ∃ resp, (WalletOwner.executeTransaction sv e req).1 = Except.ok resp ∧
        resp.Output = res.Output ∧ resp.Hash = res.Hash) := by
  have hne2 : gas ≠ WalletOwner.gasSentinel := hne
  have hsub : WalletOwner.sendTransaction sv
        (e.record (WalletOwner.estimateCall sv req)) (WalletOwner.toSendRequest req gas) =
      (Except.ok res,
        { nonce := (m + 1) % u64,
          calls := e.calls ++ [WalletOwner.estimateCall sv req,
            Call.SignTransaction (WalletOwner.txFor sv req gas e.nonce),
            Call.SendTransaction ((WalletOwner.txFor sv req gas e.nonce).withSignature sig1),
            Call.NonceAt (WalletOwner.nonceAddress sv),
            Call.SignTransaction (WalletOwner.txFor sv req gas m),
            Call.SendTransaction ((WalletOwner.txFor sv req gas m).withSignature sig2)] }) := by
    simp_all [WalletOwner.sendTransaction, RetryWithConfig, RetryWithAttempts,
      WalletOwner.retryConfig, WalletOwner.supplier, WalletOwner.generateAndSignTransaction,
      WalletOwner.transactionNonce, WalletOwner.record, WalletOwner.updateNonce,
      WalletOwner.txFor, WalletOwner.toSendRequest]
  have hex := executeTransaction_after_send sv e _ _ req gas res
    (estimateGas_ok sv e req gas hgas hne) hsub
  have hnon : sentNonces [WalletOwner.estimateCall sv req,
            Call.SignTransaction (WalletOwner.txFor sv req gas e.nonce),
            Call.SendTransaction ((WalletOwner.txFor sv req gas e.nonce).withSignature sig1),
            Call.NonceAt (WalletOwner.nonceAddress sv),
            Call.SignTransaction (WalletOwner.txFor sv req gas m),
            Call.SendTransaction ((WalletOwner.txFor sv req gas m).withSignature sig2)] =
            [e.nonce, m] := by
    simp [sentNonces, WalletOwner.estimateCall, (txFor_nonce sv req gas _).2]
  rw [hex]
  refine ⟨?_, ?_, ?_⟩
  · split_ifs
    · simpa using hnon
    · split <;> simp [WalletOwner.record, sentNonces_append, sentNonces,
        WalletOwner.estimateCall, (txFor_nonce sv req gas e.nonce).2, (txFor_nonce sv req gas m).2]
    · simpa using hnon
  · split_ifs
    · rfl
    · split <;> rfl
    · rfl
  · intro hst hrc
    have h1 : ¬ (res.Status ≠ WalletOwner.StatusOK) := by simp [hst, WalletOwner.StatusOK]
    rw [if_neg h1]
    by_cases haddr : req.Address.length = 0
    · obtain ⟨receipt, hr⟩ := hrc haddr
      rw [if_pos haddr, hr]
      exact ⟨_, rfl, rfl, rfl⟩
    · rw [if_neg haddr]
      exact ⟨_, rfl, rfl, rfl⟩

/-- Witness of C5 as amended: scenario S5, from nonce 7 with `NonceAt`
returning 9. -/
theorem executeTransaction_nonce_recovery_witness :
    sentNonces (WalletOwner.executeTransaction (recoveryServices 9 okResponse)
      (WalletOwner.NewWalletOwner 7) callRequest).2.calls = [7, 9] ∧
    (WalletOwner.executeTransaction (recoveryServices 9 okResponse)
      (WalletOwner.NewWalletOwner 7) callRequest).2.nonce = 10 ∧
    ∃ resp, (WalletOwner.executeTransaction (recoveryServices 9 okResponse)
      (WalletOwner.NewWalletOwner 7) callRequest).1 = Except.ok resp :=
  have h := executeTransaction_nonce_recovery (recoveryServices 9 okResponse)
    (WalletOwner.NewWalletOwner 7) callRequest 21000 9 [1] [1] okResponse
    rfl (by decide) rfl rfl rfl rfl rfl
  ⟨h.1, h.2.1, (h.2.2 rfl (fun _ => ⟨_, rfl⟩)).imp (fun _ hr => hr.1)⟩

/-- C5 fails as stated: in scenario S5 (nonce 7, `ErrInvalidNonce` once,
`NonceAt` returning 9, the second `SendTransaction` accepting) with a response
whose status is 0, the nonces sent are 7 then 9 and the nonce ends at 10, yet
`executeTransaction` returns an error. -/
theorem executeTransaction_nonce_recovery_counterexample :
    (recoveryServices 9 failedResponse).client.SendTransaction
      ((WalletOwner.executeTransaction (recoveryServices 9 failedResponse)
        (WalletOwner.NewWalletOwner 7) callRequest).2.calls.take 5)
      ((WalletOwner.txFor (recoveryServices 9 failedResponse) callRequest 21000 9).withSignature
        [1]) = Except.ok failedResponse ∧
    sentNonces (WalletOwner.executeTransaction (recoveryServices 9 failedResponse)
      (WalletOwner.NewWalletOwner 7) callRequest).2.calls = [7, 9] ∧
    (WalletOwner.executeTransaction (recoveryServices 9 failedResponse)
      (WalletOwner.NewWalletOwner 7) callRequest).2.nonce = 10 ∧
    (WalletOwner.executeTransaction (recoveryServices 9 failedResponse)
      (WalletOwner.NewWalletOwner 7) callRequest).1 =
      Except.error (GoError.Err
        (ErrorCode.NewErrorCode ErrorCategory.InternalError 1000
          (WalletOwner.statusMessage 0 [65]))
        (GoError.other (WalletOwner.statusMessage 0 [65]))) :=
  ⟨rfl, rfl, rfl, rfl⟩

/-- Witness of C9: the first `SendTransaction` returns `ErrExceedsBalance`. -/
theorem executeTransaction_terminal_send_error_witness :
    (WalletOwner.executeTransaction
      (scriptedServices (Except.ok 21000) (fun _ => Except.ok [1])
        (fun _ => Except.error GoError.ErrExceedsBalance) (Except.ok 9)
        (Except.ok { ContractAddress := [] }))
      (WalletOwner.NewWalletOwner 7) callRequest).1 =
      Except.error (GoError.Err ErrorCode.ErrSendTransaction GoError.ErrExceedsBalance) :=
  (executeTransaction_terminal_send_error
    (scriptedServices (Except.ok 21000) (fun _ => Except.ok [1])
      (fun _ => Except.error GoError.ErrExceedsBalance) (Except.ok 9)
      (Except.ok { ContractAddress := [] }))
    (WalletOwner.NewWalletOwner 7) callRequest 21000 [1] GoError.ErrExceedsBalance
    rfl (by decide) rfl rfl (by decide)).1

/-- One call of the supplier appends calls to the record, none of them a
`TransactionReceipt` and at most one of them a `SendTransaction`. -/
theorem supplier_calls (sv : WalletOwnerServices) (req : WalletOwner.sendTransactionRequest)
    (e : WalletOwner) :
    ∃ new, (WalletOwner.supplier sv req e).2.calls = e.calls ++ new ∧
      (∀ c ∈ new, c.isReceipt = false) ∧ (sentNonces new).length ≤ 1 := by
  unfold WalletOwner.supplier WalletOwner.generateAndSignTransaction
  simp only [WalletOwner.transactionNonce, WalletOwner.record]
  cases hs : sv.wallet.Sign e.calls (WalletOwner.newTransaction sv req req.Gas e.nonce) with
  | error err => simp [Call.isReceipt, sentNonces]
  | ok sig =>
    simp only []
    cases hsd : sv.client.SendTransaction
        (e.calls ++ [Call.SignTransaction (WalletOwner.newTransaction sv req req.Gas e.nonce)])
        ((WalletOwner.newTransaction sv req req.Gas e.nonce).withSignature sig) with
    | ok res => simp [Call.isReceipt, sentNonces]
    | error err =>
      cases err
      case ErrInvalidNonce =>
        simp only [WalletOwner.updateNonce, WalletOwner.record]
        cases sv.client.NonceAt _ _ <;> simp [Call.isReceipt, sentNonces]
      all_goals simp [Call.isReceipt, sentNonces]

/-- The retry loop appends calls to the record, none of them a
`TransactionReceipt`, and at most one `SendTransaction` per attempt. -/
theorem retry_calls (sv : WalletOwnerServices) (req : WalletOwner.sendTransactionRequest)
    (k : Nat) (e : WalletOwner) :
    ∃ new, (RetryWithAttempts (WalletOwner.supplier sv req) k e).2.calls = e.calls ++ new ∧
      (∀ c ∈ new, c.isReceipt = false) ∧ (sentNonces new).length ≤ k := by
  induction k generalizing e with
  | zero => exact ⟨[], by simp [RetryWithAttempts], by simp, by simp [sentNonces]⟩
  | succ k ih =>
    obtain ⟨new1, h1, hr1, hs1⟩ := supplier_calls sv req e
    obtain ⟨new2, h2, hr2, hs2⟩ := ih (WalletOwner.supplier sv req e).2
    have hfirst : ∃ new, (WalletOwner.supplier sv req e).2.calls = e.calls ++ new ∧
        (∀ c ∈ new, c.isReceipt = false) ∧ (sentNonces new).length ≤ k + 1 :=
      ⟨new1, h1, hr1, by omega⟩
    have hboth : ∃ new, (RetryWithAttempts (WalletOwner.supplier sv req) k
          (WalletOwner.supplier sv req e).2).2.calls = e.calls ++ new ∧
        (∀ c ∈ new, c.isReceipt = false) ∧ (sentNonces new).length ≤ k + 1 := by
      refine ⟨new1 ++ new2, by rw [h2, h1, List.append_assoc], ?_, ?_⟩
      · intro c hc
        rcases List.mem_append.mp hc with h | h
        · exact hr1 c h
        · exact hr2 c h
      · rw [sentNonces_append, List.length_append]; omega
    unfold RetryWithAttempts
    rcases hsup : WalletOwner.supplier sv req e with ⟨r, e1⟩
    rw [hsup] at hfirst hboth
    cases r with
    | ok v => exact hfirst
    | error err => cases err <;> first | exact hfirst | exact hboth

/-- The method `sendTransaction` appends calls to the record, none of them a
`TransactionReceipt`, and at most two of them a `SendTransaction`. -/
theorem sendTransaction_calls (sv : WalletOwnerServices)
    (req : WalletOwner.sendTransactionRequest) (e : WalletOwner) :
    ∃ new, (WalletOwner.sendTransaction sv e req).2.calls = e.calls ++ new ∧
      (∀ c ∈ new, c.isReceipt = false) ∧ (sentNonces new).length ≤ 2 := by
  have h := retry_calls sv req 2 e
  unfold WalletOwner.sendTransaction RetryWithConfig
  have h2 : WalletOwner.retryConfig.Attempts = 2 := rfl
  rw [h2]
  rcases hr : RetryWithAttempts (WalletOwner.supplier sv req) 2 e with ⟨r, e1⟩
  rw [hr] at h
  cases r with
  | ok v => exact h
  | error err => simp only []; split <;> exact h

/-- The method `estimateGas` records its `EstimateGas` call and leaves the
nonce alone. -/
theorem estimateGas_state (sv : WalletOwnerServices) (e : WalletOwner) (id : Nat)
    (address data : GoString) :
    (WalletOwner.estimateGas sv e id address data).2 =
      e.record (Call.EstimateGas (WalletOwner.callMsg sv address data)) := by
  unfold WalletOwner.estimateGas
  simp only []
  cases sv.client.EstimateGas e.calls (WalletOwner.callMsg sv address data) with
  | error err => rfl
  | ok gas => simp only []; split <;> rfl

/-- C10 (as amended): when the submission succeeds with a response `res` whose
status is not 1, `executeTransaction` returns an error of code
InternalError:1000 whose message is built from the status and from the bytes
`hexutil.Decode` returns for `res.Output` (also the bytes it returns next to a
decoding error), and no `TransactionReceipt` call is made; when the status is 1
no error of that code is returned. -/
theorem executeTransaction_status_failure (sv : WalletOwnerServices) (e e1 e2 : WalletOwner)
    (req : ExecuteRequest) (gas : Nat) (res : SendTransactionResponse)
    (hest : WalletOwner.estimateGas sv e req.ID req.Address req.Data = (Except.ok gas, e1))
    (hsub : WalletOwner.sendTransaction sv e1 (WalletOwner.toSendRequest req gas) =
      (Except.ok res, e2)) :
    (res.Status ≠ 1 →
      WalletOwner.executeTransaction sv e req =
        (Except.error (GoError.Err
          (ErrorCode.NewErrorCode ErrorCategory.InternalError 1000
            (WalletOwner.statusMessage res.Status (hexutilDecode res.Output).1))
          (GoError.other (WalletOwner.statusMessage res.Status (hexutilDecode res.Output).1))),
         e2) ∧
      ∀ c ∈ (WalletOwner.executeTransaction sv e req).2.calls.drop e.calls.length,
        c.isReceipt = false) ∧
    (res.Status = 1 → ∀ msg cause, (WalletOwner.executeTransaction sv e req).1 ≠
      Except.error (GoError.Err
        (ErrorCode.NewErrorCode ErrorCategory.InternalError 1000 msg) cause)) := by
  have hex := executeTransaction_after_send sv e e1 e2 req gas res hest hsub
  constructor
  · intro hst
    have hst2 : res.Status ≠ WalletOwner.StatusOK := hst
    rw [hex, if_pos hst2]
    refine ⟨rfl, ?_⟩
    obtain ⟨new, hnew, hrec, _⟩ := sendTransaction_calls sv (WalletOwner.toSendRequest req gas) e1
    rw [hsub] at hnew
    have he1 : e1 = e.record (Call.EstimateGas (WalletOwner.callMsg sv req.Address req.Data)) := by
      have h := estimateGas_state sv e req.ID req.Address req.Data
      rw [hest] at h
      exact h
    intro c hc
    simp only [] at hnew hc
    rw [hnew, he1] at hc
    simp only [WalletOwner.record, List.append_assoc, List.drop_left] at hc
    rcases List.mem_append.mp hc with h | h
    · simp at h; subst h; rfl
    · exact hrec c h
  · intro hst msg cause
    have hst2 : ¬ (res.Status ≠ WalletOwner.StatusOK) := by simp [hst, WalletOwner.StatusOK]
    rw [hex, if_neg hst2]
    split_ifs
    · split <;> simp [errorsNew]
    · simp

/-- Witness of C10 as amended: the submission returns a response of status 0. -/
theorem executeTransaction_status_failure_witness :
    (WalletOwner.executeTransaction
      (scriptedServices (Except.ok 21000) (fun _ => Except.ok [1])
        (fun _ => Except.ok failedResponse) (Except.ok 9) (Except.ok { ContractAddress := [] }))
      (WalletOwner.NewWalletOwner 7) callRequest).1 =
      Except.error (GoError.Err
        (ErrorCode.NewErrorCode ErrorCategory.InternalError 1000
          (WalletOwner.statusMessage 0 (hexutilDecode (ascii "0x41zz")).1))
        (GoError.other (WalletOwner.statusMessage 0 (hexutilDecode (ascii "0x41zz")).1))) :=
  congrArg Prod.fst ((executeTransaction_status_failure
    (scriptedServices (Except.ok 21000) (fun _ => Except.ok [1])
      (fun _ => Except.ok failedResponse) (Except.ok 9) (Except.ok { ContractAddress := [] }))
    (WalletOwner.NewWalletOwner 7) _ _ callRequest 21000 failedResponse rfl rfl).1
      (by decide)).1

/-- C10 fails as stated: for the output "0x41zz", which is not valid hex
(`hexutil.Decode` returns an error), the message of the error does not carry
the empty string but the byte decoded before the malformed position. -/
theorem executeTransaction_status_failure_counterexample :
    hexutilDecode failedResponse.Output = ([65], true) ∧
    (WalletOwner.executeTransaction
      (scriptedServices (Except.ok 21000) (fun _ => Except.ok [1])
        (fun _ => Except.ok failedResponse) (Except.ok 9) (Except.ok { ContractAddress := [] }))
      (WalletOwner.NewWalletOwner 7) callRequest).1 =
      Except.error (GoError.Err
        (ErrorCode.NewErrorCode ErrorCategory.InternalError 1000
          (WalletOwner.statusMessage failedResponse.Status [65]))
        (GoError.other (WalletOwner.statusMessage failedResponse.Status [65]))) ∧
    WalletOwner.statusMessage failedResponse.Status [65] ≠
      WalletOwner.statusMessage failedResponse.Status [] := by
  refine ⟨rfl, rfl, ?_⟩
  decide

/-- When signing never fails and `SendTransaction` never returns
`ErrInvalidNonce`, one call of the supplier ends the retry loop, takes one
nonce and hands it to `SendTransaction`. -/
theorem supplier_no_retry (sv : WalletOwnerServices) (req : WalletOwner.sendTransactionRequest)
    (e : WalletOwner)
    (hsign : ∀ h tx, ∃ sig, sv.wallet.Sign h tx = Except.ok sig)
    (hsend : ∀ h tx, sv.client.SendTransaction h tx ≠ Except.error GoError.ErrInvalidNonce) :
    ((∃ v, (WalletOwner.supplier sv req e).1 = Except.ok v) ∨
      (∃ c, (WalletOwner.supplier sv req e).1 = Except.error (GoError.ErrCannotRecover c))) ∧
    (WalletOwner.supplier sv req e).2.nonce = (e.nonce + 1) % u64 ∧
    sentNonces (WalletOwner.supplier sv req e).2.calls = sentNonces e.calls ++ [e.nonce] := by
  have hnon : ∀ sig, ((WalletOwner.newTransaction sv req req.Gas e.nonce).withSignature sig).nonce
      = e.nonce := by
    intro sig
    unfold WalletOwner.newTransaction Transaction.withSignature
    split <;> rfl
  unfold WalletOwner.supplier WalletOwner.generateAndSignTransaction
  simp only [WalletOwner.transactionNonce, WalletOwner.record]
  obtain ⟨sig, hs⟩ := hsign e.calls (WalletOwner.newTransaction sv req req.Gas e.nonce)
  rw [hs]
  simp only []
  cases hsd : sv.client.SendTransaction
      (e.calls ++ [Call.SignTransaction (WalletOwner.newTransaction sv req req.Gas e.nonce)])
      ((WalletOwner.newTransaction sv req req.Gas e.nonce).withSignature sig) with
  | ok res => simp [sentNonces_append, sentNonces, hnon]
  | error err =>
    cases err
    case ErrInvalidNonce => exact absurd hsd (hsend _ _)
    all_goals simp [sentNonces_append, sentNonces, hnon]

/-- When signing never fails and `SendTransaction` never returns
`ErrInvalidNonce`, `sendTransaction` takes exactly one nonce and hands it to
`SendTransaction`. -/
theorem sendTransaction_no_retry (sv : WalletOwnerServices)
    (req : WalletOwner.sendTransactionRequest) (e : WalletOwner)
    (hsign : ∀ h tx, ∃ sig, sv.wallet.Sign h tx = Except.ok sig)
    (hsend : ∀ h tx, sv.client.SendTransaction h tx ≠ Except.error GoError.ErrInvalidNonce) :
    (WalletOwner.sendTransaction sv e req).2.nonce = (e.nonce + 1) % u64 ∧
    sentNonces (WalletOwner.sendTransaction sv e req).2.calls =
      sentNonces e.calls ++ [e.nonce] := by
  obtain ⟨hres, hn, hc⟩ := supplier_no_retry sv req e hsign hsend
  have hstate : (WalletOwner.sendTransaction sv e req).2 = (WalletOwner.supplier sv req e).2 := by
    unfold WalletOwner.sendTransaction RetryWithConfig
    have h2 : WalletOwner.retryConfig.Attempts = 1 + 1 := rfl
    rw [h2]
    unfold RetryWithAttempts
    rcases hsup : WalletOwner.supplier sv req e with ⟨r, e1⟩
    rw [hsup] at hres
    rcases hres with ⟨v, hv⟩ | ⟨c, hc⟩
    · simp only [] at hv
      subst hv
      rfl
    · simp only [] at hc
      subst hc
      simp only []
      split <;> rfl
  rw [hstate]
  exact ⟨hn, hc⟩

/-- When signing never fails and `SendTransaction` never returns
`ErrInvalidNonce`, an `executeTransaction` call either sends nothing and keeps
the nonce, or sends the current nonce and increments it. -/
theorem executeTransaction_no_retry (sv : WalletOwnerServices) (e : WalletOwner)
    (req : ExecuteRequest)
    (hsign : ∀ h tx, ∃ sig, sv.wallet.Sign h tx = Except.ok sig)
    (hsend : ∀ h tx, sv.client.SendTransaction h tx ≠ Except.error GoError.ErrInvalidNonce) :
    ((WalletOwner.executeTransaction sv e req).2.nonce = e.nonce ∧
      sentNonces (WalletOwner.executeTransaction sv e req).2.calls = sentNonces e.calls) ∨
    ((WalletOwner.executeTransaction sv e req).2.nonce = (e.nonce + 1) % u64 ∧
      sentNonces (WalletOwner.executeTransaction sv e req).2.calls =
        sentNonces e.calls ++ [e.nonce]) := by
  have hst := estimateGas_state sv e req.ID req.Address req.Data
  unfold WalletOwner.executeTransaction
  rcases hest : WalletOwner.estimateGas sv e req.ID req.Address req.Data with ⟨r, e1⟩
  rw [hest] at hst
  simp only [] at hst
  cases r with
  | error err =>
    left
    subst hst
    simp [WalletOwner.record, sentNonces_append, sentNonces]
  | ok gas =>
    right
    have hs := sendTransaction_no_retry sv (WalletOwner.toSendRequest req gas) e1 hsign hsend
    have hn1 : e1.nonce = e.nonce := by subst hst; rfl
    have hc1 : sentNonces e1.calls = sentNonces e.calls := by
      subst hst; simp [WalletOwner.record, sentNonces_append, sentNonces]
    rw [hn1, hc1] at hs
    simp only []
    rcases hsub : WalletOwner.sendTransaction sv e1 (WalletOwner.toSendRequest req gas)
      with ⟨r2, e2⟩
    rw [hsub] at hs
    simp only [] at hs
    cases r2 with
    | error err => exact hs
    | ok res =>
      simp only []
      split_ifs
      · exact hs
      · split <;> simp [WalletOwner.record, sentNonces_append, sentNonces, hs]
      · exact hs

/-- When signing never fails, `SendTransaction` never returns `ErrInvalidNonce`
and the nonce cannot reach 2^64, a sequence of `executeTransaction` calls sends
the nonces that follow the owner's nonce, one after the other. -/
theorem executeAll_no_retry (sv : WalletOwnerServices) (reqs : List ExecuteRequest)
    (hsign : ∀ h tx, ∃ sig, sv.wallet.Sign h tx = Except.ok sig)
    (hsend : ∀ h tx, sv.client.SendTransaction h tx ≠ Except.error GoError.ErrInvalidNonce) :
    ∀ e : WalletOwner, e.nonce + reqs.length < u64 →
      ∃ k, k ≤ reqs.length ∧ (WalletOwner.executeAll sv e reqs).nonce = e.nonce + k ∧
        sentNonces (WalletOwner.executeAll sv e reqs).calls =
          sentNonces e.calls ++ List.range' e.nonce k := by
  induction reqs with
  | nil => intro e _; exact ⟨0, le_refl _, rfl, by simp [WalletOwner.executeAll]⟩
  | cons req rest ih =>
    intro e hb
    simp only [List.length_cons] at hb
    unfold WalletOwner.executeAll
    rcases executeTransaction_no_retry sv e req hsign hsend with ⟨hn, hc⟩ | ⟨hn, hc⟩
    · obtain ⟨k, hk, hkn, hkc⟩ := ih (WalletOwner.executeTransaction sv e req).2
        (by rw [hn]; omega)
      refine ⟨k, by simp only [List.length_cons]; omega, by rw [hkn, hn], ?_⟩
      rw [hkc, hc, hn]
    · have hmod : (e.nonce + 1) % u64 = e.nonce + 1 := Nat.mod_eq_of_lt (by omega)
      rw [hmod] at hn
      obtain ⟨k, hk, hkn, hkc⟩ := ih (WalletOwner.executeTransaction sv e req).2
        (by rw [hn]; omega)
      refine ⟨k + 1, by simp only [List.length_cons]; omega, by rw [hkn, hn]; omega, ?_⟩
      rw [hkc, hc, hn, List.append_assoc]
      rfl

/-- C6 (as amended): for an owner starting at nonce `n` and a sequence of
`executeTransaction` calls in which signing never fails and `SendTransaction`
never returns `ErrInvalidNonce`, with the nonce staying below 2^64, the nonces
of the transactions handed to `SendTransaction` are, in order, `n`, `n+1`,
`n+2`, ...: contiguous from the starting nonce, without gap or repeat. -/
theorem executeAll_contiguous_nonces (sv : WalletOwnerServices) (n : Nat)
    (reqs : List ExecuteRequest)
    (hsign : ∀ h tx, ∃ sig, sv.wallet.Sign h tx = Except.ok sig)
    (hsend : ∀ h tx, sv.client.SendTransaction h tx ≠ Except.error GoError.ErrInvalidNonce)
    (hbound : n + reqs.length < 2 ^ 64) :
    sentNonces (WalletOwner.executeAll sv (WalletOwner.NewWalletOwner n) reqs).calls =
      List.range' n (countSend
        (WalletOwner.executeAll sv (WalletOwner.NewWalletOwner n) reqs).calls) ∧
    (WalletOwner.executeAll sv (WalletOwner.NewWalletOwner n) reqs).nonce =
      n + countSend (WalletOwner.executeAll sv (WalletOwner.NewWalletOwner n) reqs).calls := by
  obtain ⟨k, _, hkn, hkc⟩ :=
    executeAll_no_retry sv reqs hsign hsend (WalletOwner.NewWalletOwner n) hbound
  have hc : sentNonces (WalletOwner.executeAll sv (WalletOwner.NewWalletOwner n) reqs).calls =
      List.range' n k := by
    rw [hkc]; rfl
  have hcount : countSend (WalletOwner.executeAll sv (WalletOwner.NewWalletOwner n) reqs).calls
      = k := by
    unfold countSend; rw [hc]; simp
  rw [hcount]
  exact ⟨hc, hkn⟩

/-- Witness of C6 as amended: three calls from nonce 7 send 7, 8, 9. -/
theorem executeAll_contiguous_nonces_witness :
    sentNonces (WalletOwner.executeAll acceptingServices (WalletOwner.NewWalletOwner 7)
      [callRequest, callRequest, callRequest]).calls = [7, 8, 9] :=
  (executeAll_contiguous_nonces acceptingServices 7 [callRequest, callRequest, callRequest]
    (fun _ _ => ⟨[1], rfl⟩) (fun _ _ h => Except.noConfusion h) (by decide)).1

/-- C6 fails as stated: with a wallet that fails to sign once, and a chain
client that never returns `ErrInvalidNonce`, the owner starting at nonce 7
hands to `SendTransaction` a first transaction of nonce 8. -/
theorem executeAll_contiguous_nonces_counterexample :
    (∀ h tx, failingSignerServices.client.SendTransaction h tx ≠
      Except.error GoError.ErrInvalidNonce) ∧
    sentNonces (WalletOwner.executeAll failingSignerServices (WalletOwner.NewWalletOwner 7)
      [callRequest]).calls = [8] ∧
    ¬ ∃ k, sentNonces (WalletOwner.executeAll failingSignerServices
      (WalletOwner.NewWalletOwner 7) [callRequest]).calls = List.range' 7 k := by
  have h8 : sentNonces (WalletOwner.executeAll failingSignerServices
      (WalletOwner.NewWalletOwner 7) [callRequest]).calls = [8] := rfl
  refine ⟨fun _ _ h => Except.noConfusion h, h8, ?_⟩
  rw [h8]
  rintro ⟨k, hk⟩
  cases k with
  | zero => simp at hk
  | succ k => simp [List.range'] at hk

/-- The state an `executeTransaction` call ends in: that of the gas estimation,
or that of the submission, followed or not by a `TransactionReceipt` call. -/
theorem executeTransaction_state (sv : WalletOwnerServices) (e : WalletOwner)
    (req : ExecuteRequest) :
    (WalletOwner.executeTransaction sv e req).2 = e.record (WalletOwner.estimateCall sv req) ∨
    ∃ gas,
      (WalletOwner.executeTransaction sv e req).2 =
        (WalletOwner.sendTransaction sv (e.record (WalletOwner.estimateCall sv req))
          (WalletOwner.toSendRequest req gas)).2 ∨
      ∃ hash, (WalletOwner.executeTransaction sv e req).2 =
        (WalletOwner.sendTransaction sv (e.record (WalletOwner.estimateCall sv req))
          (WalletOwner.toSendRequest req gas)).2.record (Call.TransactionReceipt hash) := by
  have hst := estimateGas_state sv e req.ID req.Address req.Data
  unfold WalletOwner.executeTransaction
  rcases hest : WalletOwner.estimateGas sv e req.ID req.Address req.Data with ⟨r, e1⟩
  rw [hest] at hst
  simp only [] at hst
  subst hst
  cases r with
  | error err => left; rfl
  | ok gas =>
    right
    refine ⟨gas, ?_⟩
    simp only []
    rcases hsub : WalletOwner.sendTransaction sv
        (e.record (Call.EstimateGas (WalletOwner.callMsg sv req.Address req.Data)))
        (WalletOwner.toSendRequest req gas) with ⟨r2, e2⟩
    have hsub2 : (WalletOwner.sendTransaction sv (e.record (WalletOwner.estimateCall sv req))
          (WalletOwner.toSendRequest req gas)).2 = e2 := by
      unfold WalletOwner.estimateCall; rw [hsub]
    rw [hsub2]
    cases r2 with
    | error err => left; rfl
    | ok res =>
      simp only []
      split_ifs
      · left; rfl
      · right; split <;> exact ⟨_, rfl⟩
      · left; rfl

/-- One call of the supplier keeps the nonce invariant and moves the nonce
forward, provided every `NonceAt` answer is above the nonces already sent and
the nonce cannot reach 2^64. -/
theorem supplier_monotone (sv : WalletOwnerServices) (req : WalletOwner.sendTransactionRequest)
    (e : WalletOwner) (B j : Nat)
    (hfresh : ∀ h a m, sv.client.NonceAt h a = Except.ok m → ∀ k ∈ sentNonces h, k < m)
    (hB : ∀ h a m, sv.client.NonceAt h a = Except.ok m → m ≤ B)
    (hinv : NonceInvariant e) (hj : e.nonce ≤ B + j) (hu : B + j + 1 < u64) :
    NonceInvariant (WalletOwner.supplier sv req e).2 ∧
    e.nonce ≤ (WalletOwner.supplier sv req e).2.nonce ∧
    (WalletOwner.supplier sv req e).2.nonce ≤ B + (j + 1) := by
  obtain ⟨hpw, hlt⟩ := hinv
  have hnon : ∀ sig, ((WalletOwner.newTransaction sv req req.Gas e.nonce).withSignature sig).nonce
      = e.nonce := by
    intro sig
    unfold WalletOwner.newTransaction Transaction.withSignature
    split <;> rfl
  have hmod : (e.nonce + 1) % u64 = e.nonce + 1 := Nat.mod_eq_of_lt (by omega)
  have hlt1 : ∀ k ∈ sentNonces e.calls, k < e.nonce + 1 := fun k hk => by
    have := hlt k hk; omega
  have hpw1 : (sentNonces e.calls ++ [e.nonce]).Pairwise (fun a b => a < b) := by
    rw [List.pairwise_append]
    refine ⟨hpw, List.pairwise_singleton _ _, ?_⟩
    intro a ha b hb
    simp at hb
    subst hb
    exact hlt a ha
  have hlt2 : ∀ k ∈ sentNonces e.calls ++ [e.nonce], k < e.nonce + 1 := by
    intro k hk
    rcases List.mem_append.mp hk with h | h
    · exact hlt1 k h
    · simp at h; omega
  unfold NonceInvariant WalletOwner.supplier WalletOwner.generateAndSignTransaction
  simp only [WalletOwner.transactionNonce, WalletOwner.record, hmod]
  cases hs : sv.wallet.Sign e.calls (WalletOwner.newTransaction sv req req.Gas e.nonce) with
  | error err =>
    simp only [sentNonces_append, sentNonces, List.append_nil]
    exact ⟨⟨hpw, hlt1⟩, by omega, by omega⟩
  | ok sig =>
    simp only []
    cases hsd : sv.client.SendTransaction
        (e.calls ++ [Call.SignTransaction (WalletOwner.newTransaction sv req req.Gas e.nonce)])
        ((WalletOwner.newTransaction sv req req.Gas e.nonce).withSignature sig) with
    | ok res =>
      simp only [sentNonces_append, sentNonces, List.append_nil, hnon, List.nil_append]
      exact ⟨⟨hpw1, hlt2⟩, by omega, by omega⟩
    | error err =>
      cases err
      case ErrInvalidNonce =>
        simp only [WalletOwner.updateNonce, WalletOwner.record]
        cases hna : sv.client.NonceAt
            (e.calls ++
              [Call.SignTransaction (WalletOwner.newTransaction sv req req.Gas e.nonce)] ++
              [Call.SendTransaction
                ((WalletOwner.newTransaction sv req req.Gas e.nonce).withSignature sig)])
            (WalletOwner.nonceAddress sv) with
        | error er =>
          simp only [sentNonces_append, sentNonces, List.append_nil, hnon, List.nil_append]
          exact ⟨⟨hpw1, hlt2⟩, by omega, by omega⟩
        | ok m =>
          have hm := hfresh _ _ _ hna
          have hmB := hB _ _ _ hna
          simp only [sentNonces_append, sentNonces, List.append_nil, hnon, List.nil_append]
            at hm ⊢
          have hme : e.nonce < m := hm e.nonce (by simp)
          exact ⟨⟨hpw1, hm⟩, by omega, by omega⟩
      all_goals
        simp only [sentNonces_append, sentNonces, List.append_nil, hnon, List.nil_append]
        exact ⟨⟨hpw1, hlt2⟩, by omega, by omega⟩

/-- The retry loop keeps the nonce invariant and moves the nonce forward. -/
theorem retry_monotone (sv : WalletOwnerServices) (req : WalletOwner.sendTransactionRequest)
    (B : Nat)
    (hfresh : ∀ h a m, sv.client.NonceAt h a = Except.ok m → ∀ k ∈ sentNonces h, k < m)
    (hB : ∀ h a m, sv.client.NonceAt h a = Except.ok m → m ≤ B) (n : Nat) :
    ∀ (e : WalletOwner) (j : Nat), NonceInvariant e → e.nonce ≤ B + j → B + j + n < u64 →
      NonceInvariant (RetryWithAttempts (WalletOwner.supplier sv req) n e).2 ∧
      e.nonce ≤ (RetryWithAttempts (WalletOwner.supplier sv req) n e).2.nonce ∧
      (RetryWithAttempts (WalletOwner.supplier sv req) n e).2.nonce ≤ B + (j + n) := by
  induction n with
  | zero => intro e j hinv hj _; exact ⟨hinv, le_refl _, hj⟩
  | succ n ih =>
    intro e j hinv hj hu
    obtain ⟨hinv1, hle1, hub1⟩ := supplier_monotone sv req e B j hfresh hB hinv hj (by omega)
    obtain ⟨hinv2, hle2, hub2⟩ := ih (WalletOwner.supplier sv req e).2 (j + 1) hinv1 hub1
      (by omega)
    have hfirst : NonceInvariant (WalletOwner.supplier sv req e).2 ∧
        e.nonce ≤ (WalletOwner.supplier sv req e).2.nonce ∧
        (WalletOwner.supplier sv req e).2.nonce ≤ B + (j + (n + 1)) :=
      ⟨hinv1, hle1, by omega⟩
    have hboth : NonceInvariant (RetryWithAttempts (WalletOwner.supplier sv req) n
          (WalletOwner.supplier sv req e).2).2 ∧
        e.nonce ≤ (RetryWithAttempts (WalletOwner.supplier sv req) n
          (WalletOwner.supplier sv req e).2).2.nonce ∧
        (RetryWithAttempts (WalletOwner.supplier sv req) n
          (WalletOwner.supplier sv req e).2).2.nonce ≤ B + (j + (n + 1)) :=
      ⟨hinv2, by omega, by omega⟩
    unfold RetryWithAttempts
    rcases hsup : WalletOwner.supplier sv req e with ⟨r, e1⟩
    rw [hsup] at hfirst hboth
    cases r with
    | ok v => exact hfirst
    | error err => cases err <;> first | exact hfirst | exact hboth

/-- The method `sendTransaction` keeps the nonce invariant and moves the nonce
forward, by at most two or up to a `NonceAt` answer. -/
theorem sendTransaction_monotone (sv : WalletOwnerServices)
    (req : WalletOwner.sendTransactionRequest) (B : Nat)
    (hfresh : ∀ h a m, sv.client.NonceAt h a = Except.ok m → ∀ k ∈ sentNonces h, k < m)
    (hB : ∀ h a m, sv.client.NonceAt h a = Except.ok m → m ≤ B)
    (e : WalletOwner) (j : Nat) (hinv : NonceInvariant e) (hj : e.nonce ≤ B + j)
    (hu : B + j + 2 < u64) :
    NonceInvariant (WalletOwner.sendTransaction sv e req).2 ∧
    e.nonce ≤ (WalletOwner.sendTransaction sv e req).2.nonce ∧
    (WalletOwner.sendTransaction sv e req).2.nonce ≤ B + (j + 2) := by
  have h := retry_monotone sv req B hfresh hB 2 e j hinv hj hu
  unfold WalletOwner.sendTransaction RetryWithConfig
  have h2 : WalletOwner.retryConfig.Attempts = 2 := rfl
  rw [h2]
  rcases hr : RetryWithAttempts (WalletOwner.supplier sv req) 2 e with ⟨r, e1⟩
  rw [hr] at h
  cases r with
  | ok v => exact h
  | error err => simp only []; split <;> exact h

/-- Recording a call that is not a `SendTransaction` keeps the nonce
invariant. -/
theorem nonceInvariant_record (e : WalletOwner) (c : Call) (hc : c.isSend = false)
    (hinv : NonceInvariant e) : NonceInvariant (e.record c) := by
  unfold NonceInvariant WalletOwner.record
  cases c <;> simp_all [sentNonces_append, sentNonces, Call.isSend, NonceInvariant]

/-- An `executeTransaction` call keeps the nonce invariant and moves the nonce
forward. -/
theorem executeTransaction_monotone (sv : WalletOwnerServices) (req : ExecuteRequest) (B : Nat)
    (hfresh : ∀ h a m, sv.client.NonceAt h a = Except.ok m → ∀ k ∈ sentNonces h, k < m)
    (hB : ∀ h a m, sv.client.NonceAt h a = Except.ok m → m ≤ B)
    (e : WalletOwner) (j : Nat) (hinv : NonceInvariant e) (hj : e.nonce ≤ B + j)
    (hu : B + j + 2 < u64) :
    NonceInvariant (WalletOwner.executeTransaction sv e req).2 ∧
    e.nonce ≤ (WalletOwner.executeTransaction sv e req).2.nonce ∧
    (WalletOwner.executeTransaction sv e req).2.nonce ≤ B + (j + 2) := by
  have hinv1 : NonceInvariant (e.record (WalletOwner.estimateCall sv req)) :=
    nonceInvariant_record e _ rfl hinv
  rcases executeTransaction_state sv e req with h | ⟨gas, h | ⟨hash, h⟩⟩
  · rw [h]
    exact ⟨hinv1, le_refl _, by show e.nonce ≤ _; omega⟩
  · rw [h]
    exact sendTransaction_monotone sv (WalletOwner.toSendRequest req gas) B hfresh hB
      (e.record (WalletOwner.estimateCall sv req)) j hinv1 hj hu
  · rw [h]
    obtain ⟨h1, h2, h3⟩ := sendTransaction_monotone sv (WalletOwner.toSendRequest req gas) B
      hfresh hB (e.record (WalletOwner.estimateCall sv req)) j hinv1 hj hu
    exact ⟨nonceInvariant_record _ _ rfl h1, h2, h3⟩

/-- A sequence of calls run in two parts. -/
theorem executeAll_append (sv : WalletOwnerServices) (a b : List ExecuteRequest) :
    ∀ e : WalletOwner, WalletOwner.executeAll sv e (a ++ b) =
      WalletOwner.executeAll sv (WalletOwner.executeAll sv e a) b := by
  induction a with
  | nil => intro e; rfl
  | cons req rest ih => intro e; exact ih _

/-- A sequence of `executeTransaction` calls keeps the nonce invariant and
moves the nonce forward. -/
theorem executeAll_monotone (sv : WalletOwnerServices) (B : Nat)
    (hfresh : ∀ h a m, sv.client.NonceAt h a = Except.ok m → ∀ k ∈ sentNonces h, k < m)
    (hB : ∀ h a m, sv.client.NonceAt h a = Except.ok m → m ≤ B) (reqs : List ExecuteRequest) :
    ∀ (e : WalletOwner) (j : Nat), NonceInvariant e → e.nonce ≤ B + j →
      B + j + 2 * reqs.length < u64 →
      NonceInvariant (WalletOwner.executeAll sv e reqs) ∧
      e.nonce ≤ (WalletOwner.executeAll sv e reqs).nonce ∧
      (WalletOwner.executeAll sv e reqs).nonce ≤ B + (j + 2 * reqs.length) := by
  induction reqs with
  | nil => intro e j hinv hj _; exact ⟨hinv, le_refl _, hj⟩
  | cons req rest ih =>
    intro e j hinv hj hu
    simp only [List.length_cons] at hu ⊢
    obtain ⟨h1, h2, h3⟩ := executeTransaction_monotone sv req B hfresh hB e j hinv hj (by omega)
    obtain ⟨h4, h5, h6⟩ := ih (WalletOwner.executeTransaction sv e req).2 (j + 2) h1 h3
      (by omega)
    exact ⟨h4, le_trans h2 h5, by unfold WalletOwner.executeAll; omega⟩

/-- C7 (as amended): within one wallet owner started at nonce `n`, provided
every value `NonceAt` returns is above the nonces of the transactions already
handed to `SendTransaction` (so that a refresh never moves the nonce back) and
the nonce cannot reach 2^64, the owner's nonce after a sequence of
`executeTransaction` calls is never below what it was after an earlier part of
the sequence, and the nonces of the transactions handed to `SendTransaction`
increase strictly, whatever else the chain client and the wallet answer. -/
theorem executeAll_nonce_forward (sv : WalletOwnerServices) (n B : Nat)
    (earlier later : List ExecuteRequest)
    (hfresh : ∀ h a m, sv.client.NonceAt h a = Except.ok m → ∀ k ∈ sentNonces h, k < m)
    (hB : ∀ h a m, sv.client.NonceAt h a = Except.ok m → m ≤ B)
    (hn : n ≤ B) (hu : B + 2 * (earlier ++ later).length < 2 ^ 64) :
    n ≤ (WalletOwner.executeAll sv (WalletOwner.NewWalletOwner n) earlier).nonce ∧
    (WalletOwner.executeAll sv (WalletOwner.NewWalletOwner n) earlier).nonce ≤
      (WalletOwner.executeAll sv (WalletOwner.NewWalletOwner n) (earlier ++ later)).nonce ∧
    (sentNonces (WalletOwner.executeAll sv (WalletOwner.NewWalletOwner n)
      (earlier ++ later)).calls).Pairwise (fun a b => a < b) := by
  have hinv0 : NonceInvariant (WalletOwner.NewWalletOwner n) := by
    simp [NonceInvariant, WalletOwner.NewWalletOwner, sentNonces]
  have hu2 : B + 2 * earlier.length + 2 * later.length < u64 := by
    have : (earlier ++ later).length = earlier.length + later.length := List.length_append _ _
    rw [this] at hu
    show _ < 2 ^ 64
    omega
  obtain ⟨h1, h2, h3⟩ := executeAll_monotone sv B hfresh hB earlier
    (WalletOwner.NewWalletOwner n) 0 hinv0 hn (by omega)
  obtain ⟨h4, h5, _⟩ := executeAll_monotone sv B hfresh hB later
    (WalletOwner.executeAll sv (WalletOwner.NewWalletOwner n) earlier) (2 * earlier.length)
    h1 (by omega) (by omega)
  rw [executeAll_append]
  exact ⟨h2, h5, h4.1⟩

/-- Witness of C7 as amended: scenario S5 followed by a second call. -/
theorem executeAll_nonce_forward_witness :
    7 ≤ (WalletOwner.executeAll forwardServices (WalletOwner.NewWalletOwner 7)
      [callRequest]).nonce ∧
    (WalletOwner.executeAll forwardServices (WalletOwner.NewWalletOwner 7) [callRequest]).nonce ≤
      (WalletOwner.executeAll forwardServices (WalletOwner.NewWalletOwner 7)
        ([callRequest] ++ [callRequest])).nonce ∧
    (sentNonces (WalletOwner.executeAll forwardServices (WalletOwner.NewWalletOwner 7)
      ([callRequest] ++ [callRequest])).calls).Pairwise (fun a b => a < b) :=
  executeAll_nonce_forward forwardServices 7 9 [callRequest] [callRequest]
    (fun h _ m hm => by
      have hm2 : (if ∀ k ∈ sentNonces h, k < 9 then Except.ok 9
          else Except.error (GoError.other (ascii "unknown account"))) =
          (Except.ok m : Except GoError Nat) := hm
      split at hm2
      · cases hm2; assumption
      · cases hm2)
    (fun h _ m hm => by
      have hm2 : (if ∀ k ∈ sentNonces h, k < 9 then Except.ok 9
          else Except.error (GoError.other (ascii "unknown account"))) =
          (Except.ok m : Except GoError Nat) := hm
      split at hm2
      · cases hm2; exact le_refl _
      · cases hm2)
    (by decide) (by decide)

/-- C7 fails as stated: in scenario S5 with `NonceAt` returning 3, the owner's
nonce goes from 7 down to 4 and the nonces handed to `SendTransaction` are 7
then 3. -/
theorem executeAll_nonce_forward_counterexample :
    (WalletOwner.NewWalletOwner 7).nonce = 7 ∧
    (WalletOwner.executeAll (recoveryServices 3 okResponse) (WalletOwner.NewWalletOwner 7)
      [callRequest]).nonce = 4 ∧
    sentNonces (WalletOwner.executeAll (recoveryServices 3 okResponse)
      (WalletOwner.NewWalletOwner 7) [callRequest]).calls = [7, 3] ∧
    ¬ (sentNonces (WalletOwner.executeAll (recoveryServices 3 okResponse)
      (WalletOwner.NewWalletOwner 7) [callRequest]).calls).Pairwise (fun a b => a < b) := by
  have h : sentNonces (WalletOwner.executeAll (recoveryServices 3 okResponse)
      (WalletOwner.NewWalletOwner 7) [callRequest]).calls = [7, 3] := rfl
  refine ⟨rfl, rfl, h, ?_⟩
  rw [h]
  decide

/-- Between the start of an `executeTransaction` call and the end of its
submission no `TransactionReceipt` call is made. -/
theorem submission_no_receipt (sv : WalletOwnerServices) (e e1 e2 : WalletOwner)
    (req : ExecuteRequest) (gas : Nat) (res : SendTransactionResponse)
    (hest : WalletOwner.estimateGas sv e req.ID req.Address req.Data = (Except.ok gas, e1))
    (hsub : WalletOwner.sendTransaction sv e1 (WalletOwner.toSendRequest req gas) =
      (Except.ok res, e2)) :
    ∀ c ∈ e2.calls.drop e.calls.length, c.isReceipt = false := by
  obtain ⟨new, hnew, hrec, _⟩ := sendTransaction_calls sv (WalletOwner.toSendRequest req gas) e1
  rw [hsub] at hnew
  have he1 : e1 = e.record (Call.EstimateGas (WalletOwner.callMsg sv req.Address req.Data)) := by
    have h := estimateGas_state sv e req.ID req.Address req.Data
    rw [hest] at h
    exact h
  intro c hc
  simp only [] at hnew hc
  rw [hnew, he1] at hc
  simp only [WalletOwner.record, List.append_assoc, List.drop_left] at hc
  rcases List.mem_append.mp hc with h | h
  · simp at h; subst h; rfl
  · exact hrec c h

/-- C11: when the submission succeeds with a response of status 1, a call to
an address returns that address without any `TransactionReceipt` call, and a
contract creation (empty address) fetches the receipt of `res.Hash` and
returns the hex form of its contract address, or `ErrTransactionReceipt` when
the receipt cannot be fetched; the output and hash returned are those of the
response. -/
theorem executeTransaction_success_address (sv : WalletOwnerServices) (e e1 e2 : WalletOwner)
    (req : ExecuteRequest) (gas : Nat) (res : SendTransactionResponse)
    (hest : WalletOwner.estimateGas sv e req.ID req.Address req.Data = (Except.ok gas, e1))
    (hsub : WalletOwner.sendTransaction sv e1 (WalletOwner.toSendRequest req gas) =
      (Except.ok res, e2))
    (hst : res.Status = 1) :
    (req.Address ≠ [] →
      WalletOwner.executeTransaction sv e req =
        (Except.ok { Address := req.Address, Output := res.Output, Hash := res.Hash }, e2) ∧
      ∀ c ∈ (WalletOwner.executeTransaction sv e req).2.calls.drop e.calls.length,
        c.isReceipt = false) ∧
    (req.Address = [] →
      (WalletOwner.executeTransaction sv e req).2.calls =
        e2.calls ++ [Call.TransactionReceipt (sv.HexToHash res.Hash)] ∧
      (∀ receipt, sv.client.TransactionReceipt e2.calls (sv.HexToHash res.Hash) =
          Except.ok receipt →
        (WalletOwner.executeTransaction sv e req).1 =
          Except.ok { Address := sv.AddressHex receipt.ContractAddress, Output := res.Output,
                      Hash := res.Hash }) ∧
      (∀ err, sv.client.TransactionReceipt e2.calls (sv.HexToHash res.Hash) =
          Except.error err →
        (WalletOwner.executeTransaction sv e req).1 =
          Except.error (GoError.Err ErrorCode.ErrTransactionReceipt err))) := by
  have hex := executeTransaction_after_send sv e e1 e2 req gas res hest hsub
  have hst2 : ¬ (res.Status ≠ WalletOwner.StatusOK) := by simp [hst, WalletOwner.StatusOK]
  rw [if_neg hst2] at hex
  constructor
  · intro haddr
    have hlen : ¬ (req.Address.length = 0) := by
      intro h; exact haddr (List.length_eq_zero.mp h)
    rw [if_neg hlen] at hex
    rw [hex]
    exact ⟨rfl, submission_no_receipt sv e e1 e2 req gas res hest hsub⟩
  · intro haddr
    have hlen : req.Address.length = 0 := by rw [haddr]; rfl
    rw [if_pos hlen] at hex
    rw [hex]
    refine ⟨?_, ?_, ?_⟩
    · split <;> rfl
    · intro receipt hr
      rw [hr]
    · intro err hr
      rw [hr]
      rfl

/-- Witness of C11: a call to the address "0xaa" accepted with status 1. -/
theorem executeTransaction_success_address_witness :
    callRequest.Address ≠ [] ∧
    (WalletOwner.executeTransaction acceptingServices (WalletOwner.NewWalletOwner 7)
      callRequest).1 =
      Except.ok { Address := ascii "0xaa", Output := okResponse.Output,
                  Hash := okResponse.Hash } :=
  ⟨by decide,
    congrArg Prod.fst ((executeTransaction_success_address acceptingServices
      (WalletOwner.NewWalletOwner 7) _ _ callRequest 21000 okResponse rfl rfl rfl).1
        (by decide)).1⟩

/-- An `executeTransaction` call hands at most two transactions to
`SendTransaction`. -/
theorem executeTransaction_sends_le (sv : WalletOwnerServices) (e : WalletOwner)
    (req : ExecuteRequest) :
    countSend ((WalletOwner.executeTransaction sv e req).2.calls.drop e.calls.length) ≤ 2 := by
  unfold countSend
  rcases executeTransaction_state sv e req with h | ⟨gas, h | ⟨hash, h⟩⟩
  · rw [h]
    simp [WalletOwner.record, WalletOwner.estimateCall, sentNonces]
  · obtain ⟨new, hnew, _, hle⟩ := sendTransaction_calls sv (WalletOwner.toSendRequest req gas)
      (e.record (WalletOwner.estimateCall sv req))
    rw [h, hnew]
    simp only [WalletOwner.record, List.append_assoc, List.drop_left]
    rw [sentNonces_append]
    simpa [WalletOwner.estimateCall, sentNonces] using hle
  · obtain ⟨new, hnew, _, hle⟩ := sendTransaction_calls sv (WalletOwner.toSendRequest req gas)
      (e.record (WalletOwner.estimateCall sv req))
    rw [h]
    simp only [WalletOwner.record] at hnew ⊢
    rw [hnew]
    simp only [List.append_assoc, List.drop_left]
    rw [sentNonces_append, sentNonces_append]
    simpa [WalletOwner.estimateCall, sentNonces] using hle

/-- C17: the submission retry is bounded by two attempts.  Whatever the chain
client and the wallet answer, an `executeTransaction` call hands at most two
transactions to `SendTransaction`; and when both are answered with
`ErrInvalidNonce`, each followed by a successful `NonceAt`, the call fails
with an error and the owner's nonce ends at the value the second `NonceAt`
returned. -/
theorem executeTransaction_retry_bound (sv : WalletOwnerServices) (e : WalletOwner)
    (req : ExecuteRequest) :
    countSend ((WalletOwner.executeTransaction sv e req).2.calls.drop e.calls.length) ≤ 2 ∧
    ∀ (gas m1 m2 : Nat) (sig1 sig2 : GoString),
      sv.client.EstimateGas e.calls (WalletOwner.callMsg sv req.Address req.Data) =
        Except.ok gas →
      gas ≠ 2251799813685248 →
      sv.wallet.Sign (e.calls ++ [WalletOwner.estimateCall sv req])
        (WalletOwner.txFor sv req gas e.nonce) = Except.ok sig1 →
      sv.client.SendTransaction
        (e.calls ++ [WalletOwner.estimateCall sv req,
          Call.SignTransaction (WalletOwner.txFor sv req gas e.nonce)])
        ((WalletOwner.txFor sv req gas e.nonce).withSignature sig1) =
        Except.error GoError.ErrInvalidNonce →
      sv.client.NonceAt
        (e.calls ++ [WalletOwner.estimateCall sv req,
          Call.SignTransaction (WalletOwner.txFor sv req gas e.nonce),
          Call.SendTransaction ((WalletOwner.txFor sv req gas e.nonce).withSignature sig1)])
        (WalletOwner.nonceAddress sv) = Except.ok m1 →
      sv.wallet.Sign
        (e.calls ++ [WalletOwner.estimateCall sv req,
          Call.SignTransaction (WalletOwner.txFor sv req gas e.nonce),
          Call.SendTransaction ((WalletOwner.txFor sv req gas e.nonce).withSignature sig1),
          Call.NonceAt (WalletOwner.nonceAddress sv)])
        (WalletOwner.txFor sv req gas m1) = Except.ok sig2 →
      sv.client.SendTransaction
        (e.calls ++ [WalletOwner.estimateCall sv req,
          Call.SignTransaction (WalletOwner.txFor sv req gas e.nonce),
          Call.SendTransaction ((WalletOwner.txFor sv req gas e.nonce).withSignature sig1),
          Call.NonceAt (WalletOwner.nonceAddress sv),
          Call.SignTransaction (WalletOwner.txFor sv req gas m1)])
        ((WalletOwner.txFor sv req gas m1).withSignature sig2) =
        Except.error GoError.ErrInvalidNonce →
      sv.client.NonceAt
        (e.calls ++ [WalletOwner.estimateCall sv req,
          Call.SignTransaction (WalletOwner.txFor sv req gas e.nonce),
          Call.SendTransaction ((WalletOwner.txFor sv req gas e.nonce).withSignature sig1),
          Call.NonceAt (WalletOwner.nonceAddress sv),
          Call.SignTransaction (WalletOwner.txFor sv req gas m1),
          Call.SendTransaction ((WalletOwner.txFor sv req gas m1).withSignature sig2)])
        (WalletOwner.nonceAddress sv) = Except.ok m2 →
      (∃ err, (WalletOwner.executeTransaction sv e req).1 = Except.error err) ∧
      (WalletOwner.executeTransaction sv e req).2.nonce = m2 ∧
      sentNonces ((WalletOwner.executeTransaction sv e req).2.calls.drop e.calls.length) =
        [e.nonce, m1] := by
  refine ⟨executeTransaction_sends_le sv e req, ?_⟩
  intro gas m1 m2 sig1 sig2 hgas hne hsign1 hsend1 hnonce1 hsign2 hsend2 hnonce2
  have hne2 : gas ≠ WalletOwner.gasSentinel := hne
  have hest := estimateGas_ok sv e req gas hgas hne
  have hsub : WalletOwner.sendTransaction sv
        (e.record (WalletOwner.estimateCall sv req)) (WalletOwner.toSendRequest req gas) =
      (Except.error (GoError.Err ErrorCode.ErrSendTransaction GoError.ErrMaxAttemptsReached),
        { nonce := m2,
          calls := e.calls ++ [WalletOwner.estimateCall sv req,
            Call.SignTransaction (WalletOwner.txFor sv req gas e.nonce),
            Call.SendTransaction ((WalletOwner.txFor sv req gas e.nonce).withSignature sig1),
            Call.NonceAt (WalletOwner.nonceAddress sv),
            Call.SignTransaction (WalletOwner.txFor sv req gas m1),
            Call.SendTransaction ((WalletOwner.txFor sv req gas m1).withSignature sig2),
            Call.NonceAt (WalletOwner.nonceAddress sv)] }) := by
    simp_all [WalletOwner.sendTransaction, RetryWithConfig, RetryWithAttempts,
      WalletOwner.retryConfig, WalletOwner.supplier, WalletOwner.generateAndSignTransaction,
      WalletOwner.transactionNonce, WalletOwner.record, WalletOwner.updateNonce,
      WalletOwner.txFor, WalletOwner.toSendRequest, GoError.isErr, errorsNew]
  have hex : WalletOwner.executeTransaction sv e req =
      (Except.error (GoError.Err ErrorCode.ErrSendTransaction GoError.ErrMaxAttemptsReached),
        { nonce := m2,
          calls := e.calls ++ [WalletOwner.estimateCall sv req,
            Call.SignTransaction (WalletOwner.txFor sv req gas e.nonce),
            Call.SendTransaction ((WalletOwner.txFor sv req gas e.nonce).withSignature sig1),
            Call.NonceAt (WalletOwner.nonceAddress sv),
            Call.SignTransaction (WalletOwner.txFor sv req gas m1),
            Call.SendTransaction ((WalletOwner.txFor sv req gas m1).withSignature sig2),
            Call.NonceAt (WalletOwner.nonceAddress sv)] }) := by
    unfold WalletOwner.executeTransaction
    rw [hest]
    simp only []
    rw [hsub]
  rw [hex]
  refine ⟨⟨_, rfl⟩, rfl, ?_⟩
  simp [sentNonces, WalletOwner.estimateCall, (txFor_nonce sv req gas e.nonce).2,
    (txFor_nonce sv req gas m1).2]

/-- Witness of C17: from nonce 7, both submissions are answered with
`ErrInvalidNonce` and `NonceAt` returns 9 and then 12. -/
theorem executeTransaction_retry_bound_witness :
    (∃ err, (WalletOwner.executeTransaction staleNonceServices (WalletOwner.NewWalletOwner 7)
      callRequest).1 = Except.error err) ∧
    (WalletOwner.executeTransaction staleNonceServices (WalletOwner.NewWalletOwner 7)
      callRequest).2.nonce = 12 ∧
    sentNonces (WalletOwner.executeTransaction staleNonceServices (WalletOwner.NewWalletOwner 7)
      callRequest).2.calls = [7, 9] :=
  (executeTransaction_retry_bound staleNonceServices (WalletOwner.NewWalletOwner 7)
    callRequest).2 21000 9 12 [1] [1] rfl (by decide) rfl rfl rfl rfl rfl rfl

/-! ### Mailbox configuration -/

/-- C12: `MailboxConfig.Configure` returns an error exactly when
`mailbox.provider` is empty, or is none of "mem", "redis-single",
"redis-cluster", or is "redis-single" with an empty `mailbox.redis_single.addr`,
or is "redis-cluster" with an empty `mailbox.redis_cluster.addrs`; the provider
"mem" succeeds whatever the addresses are. -/
theorem mailboxConfig_configure_error_iff (c : MailboxConfig) (v : Viper) :
    ((MailboxConfig.Configure c v).1 ≠ none ↔
      (v.GetString "mailbox.provider" = [] ∨
       (v.GetString "mailbox.provider" ≠ ascii "mem" ∧
        v.GetString "mailbox.provider" ≠ ascii "redis-single" ∧
        v.GetString "mailbox.provider" ≠ ascii "redis-cluster") ∨
       (v.GetString "mailbox.provider" = ascii "redis-single" ∧
        v.GetString "mailbox.redis_single.addr" = []) ∨
       (v.GetString "mailbox.provider" = ascii "redis-cluster" ∧
        v.GetStringSlice "mailbox.redis_cluster.addrs" = []))) ∧
    (v.GetString "mailbox.provider" = ascii "mem" → (MailboxConfig.Configure c v).1 = none) := by
  have h1 : MailboxRedisSingle ≠ MailboxMem := by decide
  have h2 : MailboxRedisCluster ≠ MailboxMem := by decide
  have h3 : MailboxRedisCluster ≠ MailboxRedisSingle := by decide
  have hm : ascii "mem" = MailboxMem := rfl
  have hs : ascii "redis-single" = MailboxRedisSingle := rfl
  have hc : ascii "redis-cluster" = MailboxRedisCluster := rfl
  have hme : MailboxMem ≠ [] := by decide
  have hse : MailboxRedisSingle ≠ [] := by decide
  have hce : MailboxRedisCluster ≠ [] := by decide
  rw [hm, hs, hc]
  unfold MailboxConfig.Configure MailboxMemConfig.Configure MailboxRedisSingleConfig.Configure
    MailboxRedisClusterConfig.Configure
  simp only [List.length_eq_zero]
  constructor
  · by_cases hp0 : v.GetString "mailbox.provider" = []
    · simp [hp0]
    · by_cases hpm : v.GetString "mailbox.provider" = MailboxMem
      · simp [hpm, hme, Ne.symm h1, Ne.symm h2]
      · by_cases hps : v.GetString "mailbox.provider" = MailboxRedisSingle
        · by_cases ha : v.GetString "mailbox.redis_single.addr" = [] <;>
            simp [hps, hse, h1, Ne.symm h3, ha]
        · by_cases hpc : v.GetString "mailbox.provider" = MailboxRedisCluster
          · by_cases ha : v.GetStringSlice "mailbox.redis_cluster.addrs" = [] <;>
              simp [hpc, hce, h2, h3, ha]
          · simp [hp0, hpm, hps, hpc]
  · intro hpm
    simp [hpm, hme]

/-! ### Subscription identifiers -/

theorem ascii_sub : ascii ":sub:" = [58, 115, 117, 98, 58] := by decide

theorem ascii_subinfo : ascii ":subinfo" = [58, 115, 117, 98, 105, 110, 102, 111] := by decide

/-- C13: `SubID(k, s)` is `k`, then ":sub:", then the decimal digits of `s`
(digits only, so no sign; spelling `s`; "0" for zero and no leading zero
otherwise), and `SubinfoID(k)` is `k` followed by ":subinfo". -/
theorem subID_format (k : GoString) (s : Nat) :
    SubinfoID k = k ++ ascii ":subinfo" ∧
    ∃ ds, SubID k s = k ++ ascii ":sub:" ++ ds ∧ ds ≠ [] ∧
      (∀ c ∈ ds, 48 ≤ c ∧ c ≤ 57) ∧ digitsValue ds = s ∧
      (s = 0 → ds = [48]) ∧ (0 < s → ds.head? ≠ some 48) := by
  refine ⟨rfl, decimal s, rfl, ?_, (decimal_spec s).1, (decimal_spec s).2.1, ?_, ?_⟩
  · obtain ⟨d, ds, hd, _⟩ := (decimal_spec s).2.2
    simp [hd]
  · intro h0
    subst h0
    decide
  · intro hpos
    obtain ⟨d, ds, hd, _, _, h49, _⟩ := (decimal_spec s).2.2
    have := h49 hpos
    simp [hd]
    omega

/-- Two strings that agree and each end in a colon followed by colon-free
bytes agree before the colon and after it. -/
theorem colon_free_split (a b : GoString) (ha : ∀ c ∈ a, c ≠ 58) (hb : ∀ c ∈ b, c ≠ 58) :
    ∀ x y : GoString, x ++ 58 :: a = y ++ 58 :: b → x = y ∧ a = b := by
  have key : ∀ (a b : GoString), (∀ c ∈ a, c ≠ 58) → (∀ c ∈ b, c ≠ 58) →
      ∀ x y : GoString, a ++ 58 :: x = b ++ 58 :: y → a = b ∧ x = y := by
    intro a
    induction a with
    | nil =>
      intro b _ hb x y h
      cases b with
      | nil => simpa using h
      | cons c b =>
        simp only [List.nil_append, List.cons_append, List.cons.injEq] at h
        exact absurd h.1.symm (hb c (by simp))
    | cons d a ih =>
      intro b ha hb x y h
      cases b with
      | nil =>
        simp only [List.nil_append, List.cons_append, List.cons.injEq] at h
        exact absurd h.1 (ha d (by simp))
      | cons c b =>
        simp only [List.cons_append, List.cons.injEq] at h
        obtain ⟨h1, h2⟩ := ih b (fun c hc => ha c (by simp [hc])) (fun c hc => hb c (by simp [hc]))
          x y h.2
        exact ⟨by rw [h.1, h1], h2⟩
  intro x y h
  have hr := congrArg List.reverse h
  simp only [List.reverse_append, List.reverse_cons, List.append_assoc, List.singleton_append]
    at hr
  obtain ⟨h1, h2⟩ := key a.reverse b.reverse (by simpa using ha) (by simpa using hb)
    x.reverse y.reverse hr
  exact ⟨List.reverse_injective h2, List.reverse_injective h1⟩

theorem decimal_colon_free (n : Nat) : ∀ c ∈ decimal n, c ≠ 58 := by
  intro c hc
  have := (decimal_spec n).1 c hc
  omega

/-- C14: `SubID` is injective in the pair of its arguments, whatever the key
strings hold (":sub:" and digits included), and no `SubID` equals a
`SubinfoID`. -/
theorem subID_injective (k1 k2 : GoString) (s1 s2 : Nat) :
    (SubID k1 s1 = SubID k2 s2 → k1 = k2 ∧ s1 = s2) ∧ SubID k1 s1 ≠ SubinfoID k2 := by
  have hsub : ∀ (k : GoString) (s : Nat),
      SubID k s = (k ++ [58, 115, 117, 98]) ++ 58 :: decimal s := by
    intro k s
    simp [SubID, ascii_sub]
  have hinfo : SubinfoID k2 = k2 ++ 58 :: [115, 117, 98, 105, 110, 102, 111] := by
    simp [SubinfoID, ascii_subinfo]
  constructor
  · intro h
    rw [hsub, hsub] at h
    obtain ⟨hk, hd⟩ := colon_free_split _ _ (decimal_colon_free s1) (decimal_colon_free s2) _ _ h
    refine ⟨List.append_cancel_right hk, ?_⟩
    have := congrArg digitsValue hd
    rwa [(decimal_spec s1).2.1, (decimal_spec s2).2.1] at this
  · intro h
    rw [hsub, hinfo] at h
    obtain ⟨_, hd⟩ := colon_free_split _ _ (decimal_colon_free s1) (by decide) _ _ h
    obtain ⟨d, ds, hdd, _, h57, _⟩ := (decimal_spec s1).2.2
    rw [hdd] at hd
    simp only [List.cons.injEq] at hd
    omega

/-! ### The insecure auth plugin and the auth middleware -/

/-- C18: `InsecureAuth.Verify(key, value)` succeeds exactly when `key` is
"X-INSECURE-AUTH" and `value` is not empty; when it succeeds it returns
`value` unchanged, and when it fails it returns the empty string and the error
"Verification failed". -/
theorem insecureAuth_verify (key value : GoString) :
    ((InsecureAuth.Verify key value).2 = none ↔
      (key = ascii "X-INSECURE-AUTH" ∧ value ≠ [])) ∧
    ((InsecureAuth.Verify key value).2 = none → (InsecureAuth.Verify key value).1 = value) ∧
    ((InsecureAuth.Verify key value).2 ≠ none →
      InsecureAuth.Verify key value = ([], some "Verification failed")) := by
  have hk : InsecureAuth.Key = ascii "X-INSECURE-AUTH" := rfl
  unfold InsecureAuth.Verify
  rw [hk]
  by_cases h : key = ascii "X-INSECURE-AUTH" ∧ value.length > 0
  · have hv : value ≠ [] := by
      intro h0
      rw [h0] at h
      simp at h
    simp [h, hv, h.1]
  · have hv : ¬ (key = ascii "X-INSECURE-AUTH" ∧ value ≠ []) := by
      intro h1
      exact h ⟨h1.1, List.length_pos.mpr h1.2⟩
    rw [if_neg h]
    simp [hv]

/-- C15: when the plugin's `Verify` fails, `ServeHTTP` returns a nil value and
the 403 Forbidden error with an empty body and hands nothing to the next
handler; otherwise it hands to the next handler exactly one request, the one
whose context carries the verified identity under `ContextKeyAuthID` (headers
and older context values kept), and returns that handler's value and error. -/
theorem serveHTTP_auth {α : Type} (auth : AuthPlugin)
    (next : HttpRequest → Option α × Option HandlerError) (req : HttpRequest) :
    ((auth.Verify auth.Key (req.HeaderGet auth.Key)).2 ≠ none →
      (HttpMiddlewareAuth.ServeHTTP auth next req).value = none ∧
      (HttpMiddlewareAuth.ServeHTTP auth next req).err = some (HandlerError.HttpError 403 []) ∧
      (HttpMiddlewareAuth.ServeHTTP auth next req).forwarded = []) ∧
    ((auth.Verify auth.Key (req.HeaderGet auth.Key)).2 = none →
      ∃ req1 : HttpRequest,
        (HttpMiddlewareAuth.ServeHTTP auth next req).forwarded = [req1] ∧
        req1.Ctx.Value ContextKey.ContextKeyAuthID =
          some (auth.Verify auth.Key (req.HeaderGet auth.Key)).1 ∧
        req1.HeaderGet = req.HeaderGet ∧
        (∀ k, k ≠ ContextKey.ContextKeyAuthID → req1.Ctx.Value k = req.Ctx.Value k) ∧
        (HttpMiddlewareAuth.ServeHTTP auth next req).value = (next req1).1 ∧
        (HttpMiddlewareAuth.ServeHTTP auth next req).err = (next req1).2) := by
  unfold HttpMiddlewareAuth.ServeHTTP
  cases h : (auth.Verify auth.Key (req.HeaderGet auth.Key)).2 with
  | some e =>
    simp only [h]
    simp [HttpForbidden]
  | none =>
    simp only [h]
    refine ⟨fun hne => absurd rfl hne, fun _ => ⟨_, rfl, ?_, rfl, ?_, rfl, rfl⟩⟩
    · simp [HttpRequest.WithContext, Context.WithValue, Context.Value]
    · intro k hk
      simp [HttpRequest.WithContext, Context.WithValue, Context.Value, Ne.symm hk]

/-! ### The mailbox store -/

theorem numbered_length (vals : List (GoString × GoString)) :
    ∀ start, (numbered start vals).length = vals.length := by
  induction vals with
  | nil => intro start; rfl
  | cons p rest ih =>
    intro start
    obtain ⟨t, v⟩ := p
    simp [numbered, ih]

theorem numbered_drop (vals : List (GoString × GoString)) :
    ∀ start n, (numbered start vals).drop n = numbered (start + n) (vals.drop n) := by
  induction vals with
  | nil => intro start n; simp [numbered]
  | cons p rest ih =>
    intro start n
    obtain ⟨t, v⟩ := p
    cases n with
    | zero => simp
    | succ n =>
      have e : start + 1 + n = start + (n + 1) := by omega
      simp only [numbered, List.drop_succ_cons, ih, e]

theorem numbered_get (vals : List (GoString × GoString)) :
    ∀ start i t v, vals[i]? = some (t, v) →
      (numbered start vals)[i]? = some (Element.mk (start + i) t v) := by
  induction vals with
  | nil => intro start i t v h; simp at h
  | cons p rest ih =>
    intro start i t v h
    obtain ⟨t0, v0⟩ := p
    cases i with
    | zero =>
      simp only [List.getElem?_cons_zero, Option.some.injEq, Prod.mk.injEq] at h
      simp [numbered, h.1, h.2]
    | succ i =>
      simp only [List.getElem?_cons_succ] at h
      simp only [numbered, List.getElem?_cons_succ]
      have e : start + 1 + i = start + (i + 1) := by omega
      rw [ih (start + 1) i t v h, e]

/-- Reading a stream of consecutive elements from offset 0 returns its base
and its first elements. -/
theorem retrieve_numbered (b r c : Nat) (vs : List (GoString × GoString)) :
    MailboxStream.retrieve { base := b, elements := numbered b vs, reserved := r } 0 c =
      { Offset := b, Elements := (numbered b vs).take c } := by
  unfold MailboxStream.retrieve
  have hm : max 0 b = b := by omega
  simp only [hm, Nat.sub_self, List.drop_zero]
  cases c with
  | zero => simp
  | succ c =>
    cases vs with
    | nil => simp [numbered]
    | cons p rest =>
      obtain ⟨t, v⟩ := p
      simp [numbered]

theorem streamOf_set (s : MailboxStore) (key : GoString) (st : MailboxStream) :
    (s.set key st).streamOf key = st := by
  simp [MailboxStore.streamOf, MailboxStore.set]

theorem set_key (s : MailboxStore) (key : GoString) (st : MailboxStream) :
    (s.set key st) key = some st := by
  simp [MailboxStore.set]

/-- Publishing on a stream whose next offset is its next slot succeeds, and
appends the element at that offset. -/
theorem publish_ok (s : MailboxStore) (key typ value : GoString)
    (h : (s.streamOf key).reserved = (s.streamOf key).base + (s.streamOf key).elements.length) :
    ∃ s1, s.publish key typ value = Except.ok s1 ∧
      s1.streamOf key =
        { base := (s.streamOf key).base,
          elements := (s.streamOf key).elements ++
            [{ Offset := (s.streamOf key).reserved, Typ := typ, Value := value }],
          reserved := (s.streamOf key).reserved + 1 } := by
  unfold MailboxStore.publish MailboxStore.Insert MailboxStore.Next
  simp only [streamOf_set]
  rw [if_pos h]
  refine ⟨_, rfl, ?_⟩
  rw [streamOf_set]
  simp

/-- Filling a stream whose next offset is its next slot succeeds, and appends
the elements at consecutive offsets. -/
theorem fill_ok (key : GoString) (vals : List (GoString × GoString)) :
    ∀ s : MailboxStore,
      (s.streamOf key).reserved = (s.streamOf key).base + (s.streamOf key).elements.length →
      ∃ s1, s.fill key vals = Except.ok s1 ∧
        s1.streamOf key =
          { base := (s.streamOf key).base,
            elements := (s.streamOf key).elements ++ numbered (s.streamOf key).reserved vals,
            reserved := (s.streamOf key).reserved + vals.length } := by
  induction vals with
  | nil =>
    intro s _
    exact ⟨s, rfl, by simp [numbered]⟩
  | cons p rest ih =>
    intro s h
    obtain ⟨t, v⟩ := p
    obtain ⟨s1, hp, hst⟩ := publish_ok s key t v h
    obtain ⟨s2, hf, hs2⟩ := ih s1 (by rw [hst]; simp; omega)
    refine ⟨s2, ?_, ?_⟩
    · simp only [MailboxStore.fill, hp]
      exact hf
    · rw [hs2, hst]
      simp [numbered, Nat.add_assoc, Nat.add_comm 1]

theorem streamOf_discard (s : MailboxStore) (key : GoString) (n : Nat) :
    (s.Discard key n).streamOf key = (s.streamOf key).discard n := by
  unfold MailboxStore.Discard
  cases h : s key with
  | none =>
    simp [MailboxStore.streamOf, h, MailboxStream.discard, MailboxStream.empty]
  | some st =>
    simp [MailboxStore.streamOf, h, MailboxStore.set]

/-- C16: on a key without stream, filling the stream through `Next` and
`Insert` with `m` elements succeeds and puts them at offsets `0 .. m-1`; after
`Discard(key, n)` with `n ≤ m`, `Retrieve(key, 0, c)` returns `Offset = n` and
the elements at offsets `n, n+1, ...`, `min c (m - n)` of them, each with the
type and value it was inserted with. -/
theorem discard_then_retrieve (s : MailboxStore) (key : GoString)
    (vals : List (GoString × GoString)) (n c : Nat)
    (hfresh : s key = none) (hn : n ≤ vals.length) :
    ∃ s1, s.fill key vals = Except.ok s1 ∧
      (s1.Retrieve key 0 vals.length).Offset = 0 ∧
      (s1.Retrieve key 0 vals.length).Elements.length = vals.length ∧
      (∀ i t v, vals[i]? = some (t, v) →
        (s1.Retrieve key 0 vals.length).Elements[i]? =
          some (Element.mk i t v)) ∧
      ((s1.Discard key n).Retrieve key 0 c).Offset = n ∧
      ((s1.Discard key n).Retrieve key 0 c).Elements.length = min c (vals.length - n) ∧
      (∀ i t v, i < c → vals[n + i]? = some (t, v) →
        ((s1.Discard key n).Retrieve key 0 c).Elements[i]? =
          some (Element.mk (n + i) t v)) := by
  have hs : s.streamOf key = MailboxStream.empty := by
    simp [MailboxStore.streamOf, hfresh]
  obtain ⟨s1, hf, hs1⟩ := fill_ok key vals s (by rw [hs]; rfl)
  rw [hs] at hs1
  simp only [MailboxStream.empty, List.nil_append, Nat.zero_add] at hs1
  have hd : (s1.Discard key n).streamOf key =
      { base := n, elements := numbered n (vals.drop n), reserved := vals.length } := by
    rw [streamOf_discard, hs1]
    have hmin : min n (numbered 0 vals).length = n := by
      rw [numbered_length]
      omega
    simp only [MailboxStream.discard, hmin, numbered_drop, Nat.zero_add]
  have h1 : s1.Retrieve key 0 vals.length =
      { Offset := 0, Elements := (numbered 0 vals).take vals.length } := by
    unfold MailboxStore.Retrieve
    rw [hs1, retrieve_numbered]
  have h2 : (s1.Discard key n).Retrieve key 0 c =
      { Offset := n, Elements := (numbered n (vals.drop n)).take c } := by
    unfold MailboxStore.Retrieve
    rw [hd, retrieve_numbered]
  refine ⟨s1, hf, ?_⟩
  rw [h1, h2]
  refine ⟨rfl, ?_, ?_, rfl, ?_, ?_⟩
  · simp [numbered_length]
  · intro i t v hv
    have hi : i < vals.length := by
      by_contra hge
      rw [List.getElem?_eq_none (by omega)] at hv
      exact absurd hv (by simp)
    simp only [List.getElem?_take, if_pos hi]
    have := numbered_get vals 0 i t v hv
    simpa using this
  · simp [numbered_length]
  · intro i t v hi hv
    simp only [List.getElem?_take, if_pos hi]
    exact numbered_get (vals.drop n) n i t v (by rw [List.getElem?_drop]; exact hv)

/-- Scenario S2 and `TestServerDiscard`: three elements published on a fresh
store, the first discarded, two retrieved from offset 0. -/
theorem discard_then_retrieve_witness :
    (∃ s1, emptyStore.fill (ascii "k") [([], ascii "v"), ([], ascii "v"), ([], ascii "v")] =
        Except.ok s1 ∧
      ((s1.Discard (ascii "k") 1).Retrieve (ascii "k") 0 2).Offset = 1 ∧
      ((s1.Discard (ascii "k") 1).Retrieve (ascii "k") 0 2).Elements.length = 2 ∧
      ((s1.Discard (ascii "k") 1).Retrieve (ascii "k") 0 2).Elements[0]? =
        some (Element.mk 1 [] (ascii "v")) ∧
      ((s1.Discard (ascii "k") 1).Retrieve (ascii "k") 0 2).Elements[1]? =
        some (Element.mk 2 [] (ascii "v"))) := by
  obtain ⟨s1, hf, _, _, _, ho, hl, hg⟩ :=
    discard_then_retrieve emptyStore (ascii "k")
      [([], ascii "v"), ([], ascii "v"), ([], ascii "v")] 1 2 rfl (by decide)
  exact ⟨s1, hf, ho, hl, hg 0 [] (ascii "v") (by decide) rfl,
    hg 1 [] (ascii "v") (by decide) rfl⟩
